import Mathlib

/-!
Shallow embedding of the NBA-DPOY-Analysis data-cleaning pipeline
(`src/data_cleaning.py`).  Tabular data is modelled by `Frame` (an ordered
list of column names together with a list of rows); cells are `Value`s
(strings, rationals, or null, where null models pandas `NaN`).  Each pandas
operation used by the script is embedded as an executable function on
`Frame`, and the script's statement sequence is embedded as the function
`pipeline` below.
-/

set_option maxRecDepth 4000

deriving instance DecidableEq for Except

/-!
### Kernel-computable rational arithmetic

The pipeline's numeric cells are rationals.  The `Rat` field operations of the
library do not reduce inside `decide`/`rfl`, so the embedding performs all
arithmetic through `mkRat` on numerators and denominators; the lemmas directly
below prove these operations equal the ordinary field operations on `ℚ`, so
theorems can be stated with ordinary arithmetic. -/

/-- Build the rational `n / d` from two integers (`d = 0` gives `0`,
matching `mkRat`). -/
def qMk (n d : ℤ) : ℚ := if d < 0 then mkRat (-n) d.natAbs else mkRat n d.natAbs

/-- Computable addition on `ℚ`. -/
def qAdd (a b : ℚ) : ℚ := mkRat (a.num * b.den + b.num * a.den) (a.den * b.den)

/-- Computable multiplication on `ℚ`. -/
def qMul (a b : ℚ) : ℚ := mkRat (a.num * b.num) (a.den * b.den)

/-- Computable division on `ℚ` (division by zero gives `0`, as in `ℚ`). -/
def qDiv (a b : ℚ) : ℚ := qMk (a.num * b.den) (a.den * b.num)

/-- Computable strict-order test on `ℚ`. -/
def qLtB (a b : ℚ) : Bool := a.num * b.den < b.num * a.den

/-- Cell value of a table: a string, a number (pandas numeric cells are
modelled as rationals), or null (pandas `NaN` / missing). -/
inductive Value where
  | str (s : String)
  | num (q : ℚ)
  | null
deriving DecidableEq, Repr

/-- A data frame: an ordered list of column names and a list of rows, each row
being a list of cells positionally aligned with `cols`. -/
structure Frame where
  cols : List String
  rows : List (List Value)
deriving DecidableEq, Repr

/-- A frame is well formed when every row has exactly one cell per column. -/
def Frame.WF (f : Frame) : Prop :=
  ∀ r ∈ f.rows, r.length = f.cols.length

instance (f : Frame) : Decidable f.WF := by
  unfold Frame.WF; infer_instance

/-- Index of the first column with the given name, as in pandas label lookup. -/
def colIdx? (cols : List String) (c : String) : Option ℕ :=
  match cols with
  | [] => none
  | c' :: rest => if c' = c then some 0 else (colIdx? rest c).map (· + 1)

/-- Cell of a row under a column name; missing columns or short rows give null. -/
def cellOf (cols : List String) (r : List Value) (c : String) : Value :=
  match colIdx? cols c with
  | some i => r.getD i Value.null
  | none => Value.null

/-- Numeric view of a cell. -/
def toNum : Value → Option ℚ
  | Value.num q => some q
  | _ => none

/-! ### String utilities modelling the Python text operations -/

/-- ASCII lowercase conversion of a character, as applied by `str.lower` to the
ASCII output of the transliteration step (`data_cleaning.py` line 18). -/
def lowChar (c : Char) : Char :=
  if 65 ≤ c.toNat ∧ c.toNat ≤ 90 then Char.ofNat (c.toNat + 32) else c

/-- Characters matched by the regex class `\w` on ASCII text
(`data_cleaning.py` line 19 removes everything outside `\w` and `\s`). -/
def isWordChar (c : Char) : Bool :=
  ('a' ≤ c && c ≤ 'z') || ('A' ≤ c && c ≤ 'Z') || ('0' ≤ c && c ≤ '9') || c = '_'

/-- Characters matched by the regex class `\s` on ASCII text. -/
def isSpaceCh (c : Char) : Bool :=
  c = ' ' || c = '\t' || c = '\n' || c = '\x0d' || c = '\x0b' || c = '\x0c'

/-- Model of the third-party `unidecode` transliteration table for the
non-ASCII characters: each maps to an ASCII string (common Latin letters with
diacritics, as they occur in NBA player names); characters outside the table
transliterate to the empty string, as `unidecode` does for unmapped points. -/
def translitTable : List (Char × List Char) :=
  [('á', ['a']), ('à', ['a']), ('â', ['a']), ('ä', ['a']), ('ã', ['a']), ('å', ['a']),
   ('é', ['e']), ('è', ['e']), ('ê', ['e']), ('ë', ['e']),
   ('í', ['i']), ('ì', ['i']), ('î', ['i']), ('ï', ['i']),
   ('ó', ['o']), ('ò', ['o']), ('ô', ['o']), ('ö', ['o']), ('õ', ['o']),
   ('ú', ['u']), ('ù', ['u']), ('û', ['u']), ('ü', ['u']),
   ('ý', ['y']), ('ñ', ['n']), ('ç', ['c']),
   ('ć', ['c']), ('č', ['c']), ('š', ['s']), ('ž', ['z']), ('đ', ['d']),
   ('Á', ['A']), ('É', ['E']), ('Í', ['I']), ('Ó', ['O']), ('Ú', ['U']),
   ('Ć', ['C']), ('Č', ['C']), ('Š', ['S']), ('Ž', ['Z']), ('Đ', ['D']),
   ('ß', ['s', 's'])]

/-- Association-list lookup (first matching key wins). -/
def alookup {α β : Type} [DecidableEq α] (a : α) : List (α × β) → Option β
  | [] => none
  | (k, v) :: es => if k = a then some v else alookup a es

/-- Model of `unidecode.unidecode` on one character: ASCII code points pass
through unchanged; non-ASCII points are transliterated by `translitTable`. -/
def unidecodeChar (c : Char) : List Char :=
  if c.toNat < 128 then [c] else (alookup c translitTable).getD []

/-- The `Player`-name normalisation of `data_cleaning.py` lines 16-20 on one
string: transliterate to ASCII, lowercase, then delete every character that is
neither a word character nor whitespace. -/
def cleanName (s : String) : String :=
  ⟨((s.data.flatMap unidecodeChar).map lowChar).filter
      (fun c => isWordChar c || isSpaceCh c)⟩

/-- Cell-level view of the player-name normalisation: the `apply` on line 18
receives the cell's string (non-string cells are left untouched by the model;
the concrete data always holds strings there). -/
def cleanVal : Value → Value
  | Value.str s => Value.str (cleanName s)
  | v => v

/-! ### The feet-and-inches parsers (`data_cleaning.py` lines 239-241 and 362-395) -/

/-- Greedily split off leading decimal digits. -/
def takeDigits : List Char → List Char × List Char
  | [] => ([], [])
  | c :: cs =>
    if '0' ≤ c ∧ c ≤ '9' then
      let p := takeDigits cs
      (c :: p.1, p.2)
    else ([], c :: cs)

/-- Numeric value of a digit list. -/
def digitsVal (ds : List Char) : ℕ :=
  ds.foldl (fun a c => 10 * a + (c.toNat - 48)) 0

/-- Value of Python `float` on a matched group of shape `digits ['.' digits]`,
as a rational. -/
def floatVal (intPart fracPart : List Char) : ℚ :=
  qAdd (mkRat (digitsVal intPart) 1)
    (mkRat (digitsVal fracPart) ((10 : ℕ) ^ fracPart.length))

/-- Shared shape of the two feet-and-inches regexes: leading digits (feet),
an apostrophe, spaces (at most one when `oneSpace`, else any number), digits
with an optional fractional part (inches), then the terminator `term`
(`''` for `convert_height_to_inches`, `"` for `wingspan_to_inches`).  As
`re.match` only anchors at the start, trailing text is allowed.  For these
patterns greedy matching agrees with the regex engine's backtracking search:
the terminators start with a quote character, which no digit or dot can
consume, so no backtracking point can ever be revisited successfully. -/
def feetInchesMatch (oneSpace : Bool) (term : List Char) (s : List Char) :
    Option (ℕ × ℚ) :=
  let p1 := takeDigits s
  if p1.1 = [] then none else
  match p1.2 with
  | '\'' :: rest =>
    let rest1 :=
      if oneSpace then
        match rest with
        | ' ' :: r => r
        | r => r
      else rest.dropWhile (· = ' ')
    let p2 := takeDigits rest1
    if p2.1 = [] then none else
    let afterInt := p2.2
    let contFrac :=
      match afterInt with
      | '.' :: r => takeDigits r
      | r => ([], r)
    if term.isPrefixOf contFrac.2 then
      some (digitsVal p1.1, floatVal p2.1 contFrac.1)
    else if afterInt ≠ contFrac.2 ∧ term.isPrefixOf afterInt then
      -- the regex may also decline the optional dot; only relevant when the
      -- terminator itself starts with a dot, which it never does here, but we
      -- keep the branch for fidelity to the backtracking search
      some (digitsVal p1.1, floatVal p2.1 [])
    else none
  | _ => none

/-- Embedding of `convert_height_to_inches` (lines 363-378): the regex
`(\d+)' ?(\d+\.?\d*)''` demands a two-apostrophe terminator; a match yields
`feet * 12 + inches`, anything else yields `None` (the console print is
ignored by the model). -/
def convert_height_to_inches (s : String) : Option ℚ :=
  match feetInchesMatch true ['\'', '\''] s.data with
  | some (ft, inch) => some (qAdd (mkRat (12 * (ft : ℤ)) 1) inch)
  | none => none

/-- Embedding of `wingspan_to_inches` (lines 380-395): the regex
`(\d+)' *(\d+\.?\d*)\"` demands a double-quote terminator. -/
def wingspan_to_inches (s : String) : Option ℚ :=
  match feetInchesMatch false ['"'] s.data with
  | some (ft, inch) => some (qAdd (mkRat (12 * (ft : ℤ)) 1) inch)
  | none => none

/-- Splitting a character list on a single separator character, with Python
`str.split(sep)` semantics (empty pieces are kept). -/
def splitOnChar (sep : Char) : List Char → List (List Char)
  | [] => [[]]
  | c :: rest =>
    match splitOnChar sep rest with
    | [] => if c = sep then [[], []] else [[c]]
    | h :: t => if c = sep then [] :: h :: t else (c :: h) :: t

/-- Strip leading and trailing whitespace, as Python `int` does before
parsing. -/
def trimChars (cs : List Char) : List Char :=
  ((cs.dropWhile isSpaceCh).reverse.dropWhile isSpaceCh).reverse

/-- Python `int` on a string (as used by `height_to_inches`); fails on
anything that is not an optionally signed run of digits surrounded by
whitespace. -/
def pyInt (cs : List Char) : Except String ℤ :=
  match trimChars cs with
  | '-' :: ds =>
    if ds ≠ [] ∧ ds.all (fun c => '0' ≤ c && c ≤ '9') then
      Except.ok (-(digitsVal ds : ℤ))
    else Except.error "invalid literal for int"
  | ds =>
    if ds ≠ [] ∧ ds.all (fun c => '0' ≤ c && c ≤ '9') then
      Except.ok (digitsVal ds : ℤ)
    else Except.error "invalid literal for int"

/-- Embedding of `height_to_inches` (lines 239-241): split on `-`, unpack into
exactly two parts and convert both with `int`.  A string that does not split
into exactly two integer parts raises (modelled by `Except.error`), exactly as
the Python tuple unpacking / `int` conversion would. -/
def height_to_inches (s : String) : Except String ℤ :=
  match splitOnChar '-' s.data with
  | [a, b] => do
    let f ← pyInt a
    let i ← pyInt b
    Except.ok (f * 12 + i)
  | _ => Except.error "not enough values to unpack"

/-! ### Frame operations modelling the pandas calls used by the script -/

/-- Transform the cells of one column in place (pandas
`df[c] = df[c].apply(g)` on an existing column); a frame without the column is
returned unchanged. -/
def mapCol (f : Frame) (c : String) (g : Value → Value) : Frame :=
  ⟨f.cols,
   match colIdx? f.cols c with
   | some i => f.rows.map (fun r => r.set i (g (r.getD i Value.null)))
   | none => f.rows⟩

/-- Column list after an assignment: unchanged when the label exists,
otherwise extended on the right. -/
def assignCols (cols : List String) (c : String) : List String :=
  match colIdx? cols c with
  | some _ => cols
  | none => cols ++ [c]

/-- Column assignment `df[c] = <row expression>`: overwrite the column in
place when it exists, otherwise append it on the right, as pandas does. -/
def assignCol (f : Frame) (c : String) (g : List Value → Value) : Frame :=
  ⟨assignCols f.cols c,
   match colIdx? f.cols c with
   | some i => f.rows.map (fun r => r.set i (g r))
   | none => f.rows.map (fun r => r ++ [g r])⟩

/-- Column selection `df[[c₁, …]]` (cells of a missing label are null; the
concrete data always carries the selected labels). -/
def selectCols (f : Frame) (cs : List String) : Frame :=
  ⟨cs, f.rows.map (fun r => cs.map (cellOf f.cols r))⟩

/-- Column drop `df.drop(columns=[…])`. -/
def dropCols (f : Frame) (cs : List String) : Frame :=
  ⟨f.cols.filter (fun c => c ∉ cs),
   f.rows.map (fun r => ((f.cols.zip r).filter (fun p => p.1 ∉ cs)).map Prod.snd)⟩

/-- Column rename `df.rename(columns=dict)`. -/
def renameCols (f : Frame) (m : List (String × String)) : Frame :=
  ⟨f.cols.map (fun c => (alookup c m).getD c), f.rows⟩

/-- Embedding of `clean_player_column` (lines 16-20): when a `Player` column
is present, normalise each of its cells; other tables pass through. -/
def clean_player_column (f : Frame) : Frame :=
  mapCol f "Player" cleanVal

/-- The `fillna(0)` of lines 196-198, restricted to the named columns: null
cells under those labels become numeric zero and every other cell is kept. -/
def fillnaCols (f : Frame) (cs : List String) : Frame :=
  ⟨f.cols,
   f.rows.map (fun r =>
     (f.cols.zip r).map (fun p =>
       if p.1 ∈ cs ∧ p.2 = Value.null then Value.num (mkRat 0 1) else p.2))⟩

/-- Replacement of one cell under a value-to-value dictionary, as
`df.replace` applies it: only cells equal to a key change. -/
def replVal (m : List (String × String)) : Value → Value
  | Value.str s =>
    match alookup s m with
    | some t => Value.str t
    | none => Value.str s
  | v => v

/-- Embedding of `data.replace(replacements)` (line 256): the dictionary is
applied to every cell of every column. -/
def replaceAll (f : Frame) (m : List (String × String)) : Frame :=
  ⟨f.cols, f.rows.map (List.map (replVal m))⟩

/-! #### Sorting (`sort_values`) -/

/-- Codepoint-lexicographic strict order on character lists: the order Python
uses to compare the strings occurring in `sort_values` keys. -/
def charLtB : List Char → List Char → Bool
  | [], [] => false
  | [], _ :: _ => true
  | _ :: _, [] => false
  | a :: as, b :: bs =>
    if a.toNat < b.toNat then true
    else if b.toNat < a.toNat then false
    else charLtB as bs

/-- Three-way comparison of two non-null cells of a sort key (numbers by
value, strings lexicographically; pandas raises on mixed types, the model
orders numbers before strings). -/
def cmpCell : Value → Value → Ordering
  | Value.num a, Value.num b =>
    if qLtB a b then Ordering.lt else if qLtB b a then Ordering.gt else Ordering.eq
  | Value.str a, Value.str b =>
    if charLtB a.data b.data then Ordering.lt
    else if charLtB b.data a.data then Ordering.gt else Ordering.eq
  | Value.num _, Value.str _ => Ordering.lt
  | Value.str _, Value.num _ => Ordering.gt
  | Value.null, Value.null => Ordering.eq
  | Value.null, _ => Ordering.gt
  | _, Value.null => Ordering.lt

/-- Comparison under one sort key: nulls are placed last regardless of the
direction (pandas `na_position='last'`), other pairs follow the cell order,
swapped for a descending key. -/
def cmpKey (asc : Bool) (a b : Value) : Ordering :=
  match a, b with
  | Value.null, Value.null => Ordering.eq
  | Value.null, _ => Ordering.gt
  | _, Value.null => Ordering.lt
  | a, b => if asc then cmpCell a b else (cmpCell a b).swap

/-- Lexicographic comparison of two rows under a `sort_values` key list
(column name and ascending flag per key). -/
def cmpRow (cols : List String) (ks : List (String × Bool)) (r1 r2 : List Value) :
    Ordering :=
  match ks with
  | [] => Ordering.eq
  | (c, asc) :: rest =>
    match cmpKey asc (cellOf cols r1 c) (cellOf cols r2 c) with
    | Ordering.eq => cmpRow cols rest r1 r2
    | o => o

/-- Row order used by the model's `sort_values`. -/
def rowLe (cols : List String) (ks : List (String × Bool)) (r1 r2 : List Value) :
    Prop :=
  cmpRow cols ks r1 r2 ≠ Ordering.gt

instance (cols : List String) (ks : List (String × Bool)) :
    DecidableRel (rowLe cols ks) := by
  unfold rowLe; infer_instance

/-- Embedding of `df.sort_values(by=…, ascending=…)`.  The script relies only
on the resulting order with respect to the sort keys; pandas' default
(unstable) quicksort leaves ties in unspecified order, and the model uses a
correct comparison sort, which satisfies every ordering guarantee the
quicksort does. -/
def sortValues (f : Frame) (ks : List (String × Bool)) : Frame :=
  ⟨f.cols, List.insertionSort (rowLe f.cols ks) f.rows⟩

/-! #### Merging (`pd.merge`) -/

/-- Output column names of `pd.merge(l, r, on=keys)`: the left columns (a
non-key name also present on the right is suffixed `_x`), then the right
non-key columns (suffixed `_y` when also present on the left). -/
def mergedCols (lc rc : List String) (keys : List String) : List String :=
  lc.map (fun c => if c ∉ keys ∧ c ∈ rc then c ++ "_x" else c) ++
    (rc.filter (fun c => c ∉ keys)).map (fun c => if c ∈ lc then c ++ "_y" else c)

/-- The non-key columns a right table contributes to a merge. -/
def nonKeyCols (r : Frame) (keys : List String) : List String :=
  r.cols.filter (fun c => c ∉ keys)

/-- The right rows matching one left row on the join keys.  Key cells are
compared by value (pandas also matches `NaN` keys to each other, as
`Value.null = Value.null` does here). -/
def matchRows (l r : Frame) (keys : List String) (lr : List Value) :
    List (List Value) :=
  r.rows.filter (fun rr =>
    keys.all (fun k => decide (cellOf r.cols rr k = cellOf l.cols lr k)))

/-- The output rows one left row contributes to a merge: one row per match,
or (under a left join) a single null-extended row when nothing matches. -/
def mergeBlock (l r : Frame) (keys : List String) (inner : Bool)
    (lr : List Value) : List (List Value) :=
  match matchRows l r keys lr with
  | [] =>
    if inner then [] else [lr ++ (nonKeyCols r keys).map (fun _ => Value.null)]
  | ms => ms.map (fun rr => lr ++ (nonKeyCols r keys).map (cellOf r.cols rr))

/-- Embedding of `pd.merge(l, r, on=keys, how=...)` with `how` equal to
`left` (`inner = false`) or `inner` (`inner = true`): for each left row in
order, the matching right rows in order contribute one output row each; a
left row without matches survives null-extended under a left join and is
dropped under an inner join. -/
def mergeOn (l r : Frame) (keys : List String) (inner : Bool) : Frame :=
  ⟨mergedCols l.cols r.cols keys, l.rows.flatMap (mergeBlock l r keys inner)⟩

/-! #### Per-season fractional ranking (`groupby('Season')[col].rank`) -/

/-- Fractional rank of one row's value of `vcol` within its `gcol` group:
the count of strictly better non-null values in the group, plus the average
position among the ties (`method='average'`); a null value keeps a null rank
(`na_option='keep'`).  `asc` mirrors the `ascending` flag. -/
def fracRank (f : Frame) (gcol vcol : String) (asc : Bool) (r : List Value) :
    Value :=
  match cellOf f.cols r vcol with
  | Value.num v =>
    let vals := (f.rows.filter (fun r2 =>
        decide (cellOf f.cols r2 gcol = cellOf f.cols r gcol))).filterMap
      (fun r2 => toNum (cellOf f.cols r2 vcol))
    let better := (vals.filter (fun q => if asc then qLtB q v else qLtB v q)).length
    let ties := (vals.filter (fun q => decide (q = v))).length
    Value.num (qAdd (mkRat better 1) (mkRat (ties + 1) 2))
  | _ => Value.null

/-- Does a column label end in `_rank` (the regex `_rank$` of line 122)? -/
def rankSuffixed (c : String) : Bool :=
  c.data.reverse.take 5 = ['k', 'n', 'a', 'r', '_']

/-- Row mean over the `_rank`-suffixed columns, skipping nulls, as
`rankings.mean(axis=1)` does (lines 122-126). -/
def rankMean (f : Frame) (r : List Value) : Value :=
  let vs := (f.cols.filter rankSuffixed).filterMap (fun c => toNum (cellOf f.cols r c))
  match vs with
  | [] => Value.null
  | _ => Value.num (qDiv (vs.foldl qAdd (mkRat 0 1)) (mkRat vs.length 1))

/-! ### The pipeline (`data_cleaning.py` statement sequence) -/

/-- The `(Player, Season)` join key of the player-level merges. -/
def keyPS : List String := ["Player", "Season"]

/-- The `(Team, Season)` join key of the team-level merges (lines 185-187). -/
def keyTS : List String := ["Team", "Season"]

/-- Elementwise product of two numeric cells; any null or non-numeric operand
propagates to null, as `NaN` does in the source's `BPG * GP` (lines 92-93). -/
def mulV : Value → Value → Value
  | Value.num a, Value.num b => Value.num (qMul a b)
  | _, _ => Value.null

/-- Elementwise `(a / b) * 100` of the team shooting percentages (lines
144-147).  A zero denominator is modelled as null; IEEE `inf` (what pandas
produces for `x/0`, `x ≠ 0`) has no `Value` representation, and no claim
touches zero-attempt rows. -/
def pctVal : Value → Value → Value
  | Value.num a, Value.num b =>
    if b.num = 0 then Value.null else Value.num (qMul (qDiv a b) (mkRat 100 1))
  | _, _ => Value.null

/-- Elementwise `* 100` (lines 168-169); non-numeric cells pass through. -/
def times100 : Value → Value
  | Value.num q => Value.num (qMul q (mkRat 100 1))
  | v => v

/-- Lines 24: the cleaned `box_outs` table. -/
def boP (bo : Frame) : Frame := clean_player_column bo

/-- Lines 25, 66, 75-76: `defense_2pt` cleaned, renamed, and with the columns
dropped before its merge. -/
def d2P (d2 : Frame) : Frame :=
  dropCols
    (renameCols (clean_player_column d2)
      [("DFGM", "DFGM_2pt"), ("DFGA", "DFA_2pt"), ("DFG_PCT", "DFG_pct_2pt")])
    ["Team", "Age", "Position", "GP", "FG_PCT"]

/-- Lines 26, 67, 77-78: `defense_3pt` cleaned, renamed, and with the columns
dropped before its merge. -/
def d3P (d3 : Frame) : Frame :=
  dropCols
    (renameCols (clean_player_column d3)
      [("DFGM", "DFGM_3pt"), ("DFGA", "DFA_3pt"), ("DFG_PCT", "DFG_pct_3pt")])
    ["Team", "Age", "Position", "GP", "FG_PCT"]

/-- Lines 27, 79: `hustle_stats` cleaned and without `Min`. -/
def hsP (hs : Frame) : Frame := dropCols (clean_player_column hs) ["Min"]

/-- Lines 30, 57-59, 82: `dpoy_voting` cleaned, restricted to the selected
columns, and without `Age` as merged. -/
def dvP (dv : Frame) : Frame :=
  dropCols
    (selectCols (clean_player_column dv)
      ["Player", "Age", "Tm", "Season", "DPOY", "First", "Pts Won",
       "Pts Max", "Share", "G", "MP", "STL", "BLK", "DWS", "DBPM", "DRtg"])
    ["Age"]

/-- Line 74: the first merge of the accumulating table. -/
def dataM1 (dd bo : Frame) : Frame :=
  mergeOn (clean_player_column dd) (boP bo) keyPS false

/-- Lines 75-76. -/
def dataM2 (dd bo d2 : Frame) : Frame := mergeOn (dataM1 dd bo) (d2P d2) keyPS false

/-- Lines 77-78. -/
def dataM3 (dd bo d2 d3 : Frame) : Frame :=
  mergeOn (dataM2 dd bo d2) (d3P d3) keyPS false

/-- Line 79. -/
def dataM4 (dd bo d2 d3 hs : Frame) : Frame :=
  mergeOn (dataM3 dd bo d2 d3) (hsP hs) keyPS false

/-- Line 82. -/
def dataM5 (dd bo d2 d3 hs dv : Frame) : Frame :=
  mergeOn (dataM4 dd bo d2 d3 hs) (dvP dv) keyPS false

/-- Lines 74-93: the five left merges building `data` from the cleaned
sources, the two sorts, the `BLK`/`STL` to `BPG`/`SPG` rename and the
total-stat columns. -/
def mergeStage (dd bo d2 d3 hs dv : Frame) : Frame :=
  let s1 := sortValues (dataM5 dd bo d2 d3 hs dv)
    [("Season", false), ("Pts Won", false)]
  let s2 := sortValues s1 [("Season", false)]
  let rn := renameCols s2 [("BLK", "BPG"), ("STL", "SPG")]
  let b1 := assignCol rn "BLK"
    (fun r => mulV (cellOf rn.cols r "BPG") (cellOf rn.cols r "GP"))
  let b2 := assignCol b1 "STL"
    (fun r => mulV (cellOf b1.cols r "SPG") (cellOf b1.cols r "GP"))
  b2

/-- Line 110: metrics where a larger value is better. -/
def higher_is_better : List String :=
  ["Deflections", "charges", "contested_shots", "BLK", "STL", "DBPM"]

/-- Line 112: metrics where a smaller value is better. -/
def lower_is_better : List String :=
  ["DFGM", "DFG_PCT", "DFG_pct_2pt", "DFG_pct_3pt"]

/-- One iteration of the ranking loops (lines 115-119): attach the per-season
fractional rank of `c` as column `c_rank`. -/
def addRankCol (f : Frame) (c : String) (asc : Bool) : Frame :=
  assignCol f (c ++ "_rank") (fracRank f "Season" c asc)

/-- Lines 115-119: both ranking loops. -/
def addRanks (f : Frame) : Frame :=
  lower_is_better.foldl (fun g c => addRankCol g c true)
    (higher_is_better.foldl (fun g c => addRankCol g c false) f)

/-- Lines 110-128: ranking loops, `average_rank` from the `_rank$`-filtered
columns, and the final sort by season (descending) then composite rank
(ascending); `reset_index(drop=True)` does not change the row list. -/
def rankStage (f : Frame) : Frame :=
  let g := addRanks f
  sortValues (assignCol g "average_rank" (rankMean g))
    [("Season", false), ("average_rank", true)]

/-- Names of the columns at positions `[a, a+len)`, as the `iloc` column
slices of lines 135, 154, 163 and 172 read them. -/
def colsSlice (f : Frame) (a len : ℕ) : List String := (f.cols.drop a).take len

/-- Rename dictionary attaching a leading tag to each listed column name. -/
def tagRename (tag : String) (cs : List String) : List (String × String) :=
  cs.map (fun c => (c, tag ++ c))

/-- Lines 33, 135-160: the team-stats table—opponent columns (positions
11-22) tagged `opp_`, the four shooting percentages derived, the spent
columns dropped, positions 7-16 tagged `tm_`, then sorted by season. -/
def teamsDataStage (tdRaw : Frame) : Frame :=
  let t0 := clean_player_column tdRaw
  let t1 := renameCols t0 (tagRename "opp_" (colsSlice t0 11 12))
  let t2 := assignCol t1 "opp_FG_pct"
    (fun r => pctVal (cellOf t1.cols r "opp_FG") (cellOf t1.cols r "opp_FGA"))
  let t3 := assignCol t2 "opp_2P_pct"
    (fun r => pctVal (cellOf t2.cols r "opp_2P") (cellOf t2.cols r "opp_2PA"))
  let t4 := assignCol t3 "opp_3P_pct"
    (fun r => pctVal (cellOf t3.cols r "opp_3P") (cellOf t3.cols r "opp_3PA"))
  let t5 := assignCol t4 "opp_FT_pct"
    (fun r => pctVal (cellOf t4.cols r "opp_FT") (cellOf t4.cols r "opp_FTA"))
  let t6 := dropCols t5
    ["G", "STL", "opp_FG", "opp_FGA", "opp_2P", "opp_2PA", "opp_3P",
     "opp_3PA", "opp_FT", "opp_FTA"]
  let t7 := renameCols t6 (tagRename "tm_" (colsSlice t6 7 10))
  sortValues t7 [("Season", true)]

/-- Lines 34, 163-178: the advanced team table—positions 13-16 tagged
`opp_`, the two efficiency columns scaled to percentages, positions 7-17
tagged `tm_`, the unused columns dropped, then sorted by season. -/
def teamsAdvStage (taRaw : Frame) : Frame :=
  let t0 := clean_player_column taRaw
  let t1 := renameCols t0 (tagRename "opp_" (colsSlice t0 13 4))
  let t2 := mapCol t1 "opp_eFG%" times100
  let t3 := mapCol t2 "opp_TS%" times100
  let t4 := renameCols t3 (tagRename "tm_" (colsSlice t3 7 11))
  let t5 := dropCols t4 ["Rk", "G", "W", "L", "W/L%", "G", "tm_FTr"]
  sortValues t5 [("Season", true)]

/-- Lines 37, 192: the advanced player columns re-added to `data`. -/
def paSel (pa : Frame) : Frame :=
  selectCols (clean_player_column pa)
    ["Player", "Season", "STL", "BLK", "DWS", "DBPM", "DRtg"]

/-- Line 196: the award-voting columns zero-filled after the joins. -/
def na_cols : List String := ["DPOY", "First", "Pts Won", "Pts Max", "Share"]

/-- Line 185. -/
def tmA (data td : Frame) : Frame := mergeOn data (teamsDataStage td) keyTS false

/-- Line 187. -/
def tmB (data td ta : Frame) : Frame :=
  mergeOn (tmA data td) (teamsAdvStage ta) keyTS false

/-- Line 189. -/
def tmC (data td ta : Frame) : Frame :=
  dropCols (tmB data td ta) ["STL", "BLK", "DWS", "DBPM", "DRtg", "G", "MP", "Tm"]

/-- Lines 192-193. -/
def tmD (data td ta pa : Frame) : Frame :=
  mergeOn (tmC data td ta) (paSel pa) keyPS false

/-- Lines 185-198: the two team merges, the drop of the superseded player
columns, the advanced-player merge, and the zero fill of the voting
columns. -/
def teamMergeStage (data td ta pa : Frame) : Frame :=
  fillnaCols (tmD data td ta pa) na_cols

/-- Python `str.capitalize` on a column label (line 230). -/
def pyCapitalize (s : String) : String :=
  match s.data with
  | [] => s
  | c :: cs => ⟨Char.toUpper c :: cs.map lowChar⟩

/-- Last two characters of a string, Python `s[-2:]`. -/
def lastTwo (s : String) : String := ⟨(s.data.reverse.take 2).reverse⟩

/-- The season relabelling lambda of line 236 on an integer year:
`f"{x}-{str(int(x)+1)[-2:]}"`. -/
def seasonStr (n : ℤ) : String := toString n ++ "-" ++ lastTwo (toString (n + 1))

/-- Cell-level season relabelling: the roster seasons are integer years; a
non-integer cell (where Python `int` would raise) is modelled as null. -/
def seasonVal : Value → Value
  | Value.num q => if q.den = 1 then Value.str (seasonStr q.num) else Value.null
  | _ => Value.null

/-- Height conversion of one roster cell (line 244): a malformed or
non-string cell raises, which aborts the run. -/
def heightVal : Value → Except String Value
  | Value.str s => (height_to_inches s).map (fun n => Value.num (mkRat n 1))
  | _ => Except.error "AttributeError: split"

/-- Lines 227-244: the roster table—column labels capitalised, player names
cleaned, seasons relabelled, and heights converted to inches.  The height
`apply` is the one fallible stage of the pipeline: it raises on the first
malformed height. -/
def rostersStage (roRaw : Frame) : Except String Frame :=
  let r1 : Frame := ⟨roRaw.cols.map pyCapitalize, roRaw.rows⟩
  let r2 := clean_player_column r1
  let r3 := mapCol r2 "Season" seasonVal
  match colIdx? r3.cols "Height" with
  | none => Except.error "KeyError: Height"
  | some i => do
    let rows ← r3.rows.mapM (fun r => do
      let v ← heightVal (r.getD i Value.null)
      Except.ok (r.set i v))
    Except.ok ⟨r3.cols, rows⟩

/-- Conversion of one combine measurement cell (lines 398-401): the
try/except around the regex match turns a non-matching or non-string cell
into `None`, never an exception. -/
def convVal : Value → Value
  | Value.str s =>
    match convert_height_to_inches s with
    | some q => Value.num q
    | none => Value.null
  | _ => Value.null

/-- Cell-level `astype('str')` (line 403).  A numeric cell is printed as an
integer when integral (the concrete body-fat column holds strings, so the
non-integral branch is never exercised). -/
def astypeStr : Value → List Char
  | Value.str s => s.data
  | Value.num q =>
    if q.den = 1 then (toString q.num).data
    else (toString q.num ++ "/" ++ toString q.den).data
  | Value.null => ['n', 'a', 'n']

/-- Cell-level `pd.to_numeric(errors='coerce')` (line 405): an optionally
signed decimal literal parses to a number, everything else coerces to null. -/
def toNumericPy (cs : List Char) : Value :=
  let t := trimChars cs
  let core : List Char → Value := fun u =>
    let p1 := takeDigits u
    match p1.1, p1.2 with
    | [], _ => Value.null
    | ds, [] => Value.num (mkRat (digitsVal ds) 1)
    | ds, '.' :: rest =>
      let p2 := takeDigits rest
      if p2.2 = [] then
        Value.num (qAdd (mkRat (digitsVal ds) 1)
          (mkRat (digitsVal p2.1) ((10 : ℕ) ^ p2.1.length)))
      else Value.null
    | _, _ => Value.null
  match t with
  | '-' :: rest =>
    match core rest with
    | Value.num q => Value.num (qMul (mkRat (-1) 1) q)
    | v => v
  | u => core u

/-- Body-fat cleanup of lines 403-405: stringify, strip trailing `%`, then
coerce to a number. -/
def bodyFatVal (v : Value) : Value :=
  toNumericPy ((astypeStr v).reverse.dropWhile (· = '%')).reverse

/-- Lines 40-41 and 398-405: the combine table—`PLAYER` renamed, names
cleaned, the four measurement columns converted to inches, and the body-fat
column coerced to numbers. -/
def combineStage (cmRaw : Frame) : Frame :=
  let c0 := clean_player_column (renameCols cmRaw [("PLAYER", "Player")])
  let c1 := assignCol c0 "HEIGHT W/O SHOES (in)"
    (fun r => convVal (cellOf c0.cols r "HEIGHT W/O SHOES"))
  let c2 := assignCol c1 "HEIGHT W/ SHOES (in)"
    (fun r => convVal (cellOf c1.cols r "HEIGHT W/ SHOES"))
  let c3 := assignCol c2 "STANDING REACH (in)"
    (fun r => convVal (cellOf c2.cols r "STANDING REACH"))
  let c4 := assignCol c3 "WINGSPAN (in)"
    (fun r => convVal (cellOf c3.cols r "WINGSPAN"))
  mapCol c4 "BODY FAT %" bodyFatVal

/-- First line of a cell, Python `.str.split('\n').str[0]` (line 44);
non-string cells give `NaN` under the `.str` accessor. -/
def headPart : Value → Value
  | Value.str s => Value.str ⟨(splitOnChar '\n' s.data).headD []⟩
  | _ => Value.null

/-- Wingspan conversion of one cell (line 407): the try/except inside
`wingspan_to_inches` turns non-matching and non-string cells into `None`. -/
def wingVal : Value → Value
  | Value.str s =>
    match wingspan_to_inches s with
    | some q => Value.num q
    | none => Value.null
  | _ => Value.null

/-- Lines 43-44 and 407-408: the wingspan table—names cleaned and truncated
at the first newline, the wingspan column converted, `Length` renamed. -/
def wingspanStage (wsRaw : Frame) : Frame :=
  let w0 := mapCol (clean_player_column wsRaw) "Player" headPart
  renameCols (mapCol w0 "Wingspan" wingVal) [("Length", "length_ratio")]

/-- Line 253: the position-code replacement dictionary. -/
def replacements : List (String × String) :=
  [("C-F", "C"), ("F-C", "F"), ("F-G", "F"), ("G-F", "G")]

/-- Lines 38, 250: the per-game player columns re-added to `data`. -/
def plSel (pl : Frame) : Frame :=
  selectCols (clean_player_column pl) ["Player", "Season", "DRB", "MP"]

/-- Line 247: the roster columns as merged. -/
def roSel (roF : Frame) : Frame :=
  selectCols roF ["Season", "Player", "Height", "Weight"]

/-- Line 247. -/
def fsA (data roF : Frame) : Frame := mergeOn data (roSel roF) keyPS true

/-- Line 250. -/
def fsB (data roF pl : Frame) : Frame := mergeOn (fsA data roF) (plSel pl) keyPS true

/-- Lines 253-256. -/
def fsC (data roF pl : Frame) : Frame := replaceAll (fsB data roF pl) replacements

/-- Line 410: the combine table as merged (its `Season` dropped). -/
def cmP (cm : Frame) : Frame := dropCols (combineStage cm) ["Season"]

/-- Line 410. -/
def fsD (data roF pl cm : Frame) : Frame :=
  mergeOn (fsC data roF pl) (cmP cm) ["Player"] false

/-- Line 411: the wingspan table as merged (its `Height` dropped). -/
def wsP (ws : Frame) : Frame := dropCols (wingspanStage ws) ["Height"]

/-- Lines 247-256 and 410-411: the two inner merges with roster and player
tables, the position-code replacement over the whole table, and the two
player-keyed left merges with the combine and wingspan tables. -/
def finalStage (data roF pl cm ws : Frame) : Frame :=
  mergeOn (fsD data roF pl cm) (wsP ws) ["Player"] false

/-- The whole pipeline, from the raw input tables to the final merged table;
the only fallible stage is the roster height conversion. -/
def pipeline (dd bo d2 d3 hs dv td ta pa pl cm ws ro : Frame) :
    Except String Frame :=
  match rostersStage ro with
  | Except.error e => Except.error e
  | Except.ok roF =>
    Except.ok
      (finalStage (teamMergeStage (rankStage (mergeStage dd bo d2 d3 hs dv)) td ta pa)
        roF pl cm ws)

/-- Shorthand for a string cell. -/
def vS (s : String) : Value := Value.str s

/-- Shorthand for an integer-valued numeric cell. -/
def vN (n : ℤ) : Value := Value.num (mkRat n 1)

/-- The row key tuples of a frame under a list of key columns. -/
def keyList (ks : List String) (f : Frame) : List (List Value) :=
  f.rows.map (fun r => ks.map (cellOf f.cols r))

def Tdd : Frame :=
  ⟨["Player", "Season", "Team", "GP", "DFGM", "DFG_PCT"],
   [[vS "joel embiid", vS "2023-24", vS "PHI", vN 60, vN 9, vN 50]]⟩

def Tbo : Frame :=
  ⟨["Player", "Season", "box_outs"],
   [[vS "joel embiid", vS "2023-24", vN 12]]⟩

def Td2 : Frame :=
  ⟨["Player", "Season", "Team", "Age", "Position", "GP", "FG_PCT", "DFGM",
    "DFGA", "DFG_PCT"],
   [[vS "joel embiid", vS "2023-24", vS "PHI", vN 29, vS "C", vN 60, vN 48,
     vN 5, vN 11, vN 45]]⟩

def Td3 : Frame :=
  ⟨["Player", "Season", "Team", "Age", "Position", "GP", "FG_PCT", "DFGM",
    "DFGA", "DFG_PCT"],
   [[vS "joel embiid", vS "2023-24", vS "PHI", vN 29, vS "C", vN 60, vN 37,
     vN 2, vN 6, vN 33]]⟩

def Ths : Frame :=
  ⟨["Player", "Season", "Min", "Deflections", "charges", "contested_shots"],
   [[vS "joel embiid", vS "2023-24", vN 34, vN 2, vN 1, vN 9]]⟩

def Tdv : Frame :=
  ⟨["Player", "Age", "Tm", "Season", "DPOY", "First", "Pts Won", "Pts Max",
    "Share", "G", "MP", "STL", "BLK", "DWS", "DBPM", "DRtg"],
   [[vS "joel embiid", vN 29, vS "PHI", vS "2023-24", vN 0, vN 1, vN 33,
     vN 99, Value.num (mkRat 1 3), vN 60, vN 34, vN 1, vN 2, vN 4, vN 2,
     vN 106]]⟩

def Ttd : Frame :=
  ⟨["Team", "Season", "G", "STL", "W", "L", "PTS", "AST", "TRB", "TOV", "PF",
    "FG", "FGA", "2P", "2PA", "3P", "3PA", "FT", "FTA", "ORB", "DRB", "BLKx",
    "STLx"],
   [[vS "PHI", vS "2023-24", vN 82, vN 8, vN 47, vN 35, vN 114, vN 25, vN 44,
     vN 13, vN 20, vN 40, vN 88, vN 28, vN 55, vN 12, vN 33, vN 18, vN 23,
     vN 10, vN 34, vN 5, vN 7]]⟩

def Tta : Frame :=
  ⟨["Team", "Season", "Rk", "G", "W", "L", "W/L%", "FTr", "ORtg", "DRtg",
    "Pace", "3PAr", "FTFGA", "eFG%", "TS%", "TOV%", "ORB%", "DRB%"],
   [[vS "PHI", vS "2023-24", vN 7, vN 82, vN 47, vN 35,
     Value.num (mkRat 573 1000), Value.num (mkRat 1 4), vN 118, vN 112,
     vN 99, Value.num (mkRat 2 5), Value.num (mkRat 1 5),
     Value.num (mkRat 27 50), Value.num (mkRat 29 50),
     Value.num (mkRat 12 100), Value.num (mkRat 1 4),
     Value.num (mkRat 3 4)]]⟩

def Tpa : Frame :=
  ⟨["Player", "Season", "STL", "BLK", "DWS", "DBPM", "DRtg"],
   [[vS "joel embiid", vS "2023-24", vN 66, vN 114, vN 4, vN 2, vN 106]]⟩

def Tpl : Frame :=
  ⟨["Player", "Season", "DRB", "MP"],
   [[vS "joel embiid", vS "2023-24", vN 502, vN 2040]]⟩

def Tcm : Frame :=
  ⟨["PLAYER", "Season", "POS", "HEIGHT W/O SHOES", "HEIGHT W/ SHOES",
    "STANDING REACH", "WINGSPAN", "BODY FAT %"],
   [[vS "Joel Embiid", vS "2014-15", vS "C", vS "6' 11.75''", vS "7' 1''",
     vS "9' 5.5''", vS "7' 5.75''", vS "7.8%"]]⟩

def Tws : Frame :=
  ⟨["Player", "Height", "Wingspan", "Length"],
   [[vS "Joel Embiid\nPHI", vS "7' 0\"", vS "7' 6\"",
     Value.num (mkRat 21 20)]]⟩

def Tro : Frame :=
  ⟨["PLAYER", "SEASON", "HEIGHT", "WEIGHT"],
   [[vS "Joel Embiid", vN 2023, vS "7-0", vN 280]]⟩

/-- Does a pipeline result succeed with the given key tuples? -/
def okWithKeys (e : Except String Frame) (ks : List String)
    (expect : List (List Value)) : Bool :=
  match e with
  | Except.ok f => decide (keyList ks f = expect)
  | Except.error _ => false

/-- Roster table with a malformed height cell. -/
def TroBad : Frame :=
  ⟨["PLAYER", "SEASON", "HEIGHT", "WEIGHT"],
   [[vS "Joel Embiid", vN 2023, vS "N/A", vN 280]]⟩

/-- A one-row left table. -/
def C2l : Frame := ⟨["Player", "Season", "A"], [[vS "a", vS "s", vN 1]]⟩

/-- A right table with a duplicated `(Player, Season)` key. -/
def C2r : Frame :=
  ⟨["Player", "Season", "B"],
   [[vS "a", vS "s", vN 2], [vS "a", vS "s", vN 3]]⟩

/-- A column name that no merge suffixing can produce: nothing renamed with
`_x` or `_y` ever collides with it. -/
def sufSafe (k : String) : Prop :=
  (∀ c : String, c ++ "_x" ≠ k) ∧ (∀ c : String, c ++ "_y" ≠ k)

/-- The tracked key columns are safe under a given merge: suffix-safe, and
each is a join key or absent from the right table. -/
def trackSafe (ks : List String) (r : Frame) (keys : List String) : Prop :=
  ∀ k ∈ ks, sufSafe k ∧ (k ∈ keys ∨ k ∉ r.cols)

/-- A combine table with two rows for the same player (two combine
appearances; the `Season` that distinguishes them is dropped before the
player-keyed merge on line 410). -/
def TcmDup : Frame :=
  ⟨["PLAYER", "Season", "POS", "HEIGHT W/O SHOES", "HEIGHT W/ SHOES",
    "STANDING REACH", "WINGSPAN", "BODY FAT %"],
   [[vS "Joel Embiid", vS "2014-15", vS "C", vS "6' 11.75''", vS "7' 1''",
     vS "9' 5.5''", vS "7' 5.75''", vS "7.8%"],
    [vS "Joel Embiid", vS "2015-16", vS "C", vS "6' 11.5''", vS "7' 0.75''",
     vS "9' 5.25''", vS "7' 5.5''", vS "8.1%"]]⟩

/-- The roster table of the witness run after its processing stage. -/
def TroF : Frame :=
  ⟨["Player", "Season", "Height", "Weight"],
   [[vS "joel embiid", vS "2023-24", vN 84, vN 280]]⟩

/-- Two player-rows of one season with distinct `BLK` values. -/
def C7f : Frame :=
  ⟨["Player", "Season", "BLK"],
   [[Value.str "a", Value.str "s", Value.num 3],
    [Value.str "b", Value.str "s", Value.num 2]]⟩

/-- The row of `C7f` holding the season maximum of `BLK`. -/
def C7r : List Value := [Value.str "a", Value.str "s", Value.num 3]

/-- The configured metrics in loop order, each with its `ascending` flag
(lines 110-119): the six higher-is-better metrics rank descending, the four
lower-is-better ones rank ascending. -/
def metricPairs : List (String × Bool) :=
  higher_is_better.map (fun c => (c, false)) ++
    lower_is_better.map (fun c => (c, true))

/-- The fractional ranks of one row under the configured metrics. -/
def ranksOf (f : Frame) (ms : List (String × Bool)) (r : List Value) :
    List Value :=
  ms.map (fun p => fracRank f "Season" p.1 p.2 r)

/-- The skipna mean of a list of rank cells, as `mean(axis=1)` computes it:
null when no numeric entry exists, otherwise the sum of the numeric entries
divided by their count. -/
def meanVal (ranks : List Value) : Value :=
  match ranks.filterMap toNum with
  | [] => Value.null
  | vs => Value.num (qDiv (vs.foldl qAdd (mkRat 0 1)) (mkRat vs.length 1))

/-- The claim's words: the mean of the per-metric ranks taken over all ten
configured metrics, which does not exist (null) when any configured rank is
missing. -/
def avgRankAllConfigured (f : Frame) (r : List Value) : Value :=
  let vs := (ranksOf f metricPairs r).filterMap toNum
  if vs.length = metricPairs.length then
    Value.num (qDiv (vs.foldl qAdd (mkRat 0 1)) (mkRat vs.length 1))
  else Value.null

/-- Two player-rows of one season over the twelve pipeline columns; player
`b` is missing the `DBPM` value. -/
def C3f : Frame :=
  ⟨["Player", "Season", "Deflections", "charges", "contested_shots", "BLK",
    "STL", "DBPM", "DFGM", "DFG_PCT", "DFG_pct_2pt", "DFG_pct_3pt"],
   [[Value.str "a", Value.str "s", Value.num 5, Value.num 4, Value.num 3,
     Value.num 2, Value.num 1, Value.num 6, Value.num 1, Value.num 2,
     Value.num 3, Value.num 4],
    [Value.str "b", Value.str "s", Value.num 3, Value.num 2, Value.num 1,
     Value.num 1, Value.num 2, Value.null, Value.num 2, Value.num 3,
     Value.num 4, Value.num 5]]⟩

/-- The complete row of `C3f`. -/
def C3ra : List Value :=
  [Value.str "a", Value.str "s", Value.num 5, Value.num 4, Value.num 3,
   Value.num 2, Value.num 1, Value.num 6, Value.num 1, Value.num 2,
   Value.num 3, Value.num 4]

/-- The row of `C3f` with the missing `DBPM` value. -/
def C3rb : List Value :=
  [Value.str "b", Value.str "s", Value.num 3, Value.num 2, Value.num 1,
   Value.num 1, Value.num 2, Value.null, Value.num 2, Value.num 3,
   Value.num 4, Value.num 5]

/-- The season-then-composite-rank comparison of two key tuples
`[season, average_rank]`: season descending first, then `average_rank`
ascending, as `sort_values(by=['Season', 'average_rank'],
ascending=[False, True])` orders rows. -/
def pairCmp (e1 e2 : List Value) : Ordering :=
  match e1, e2 with
  | [s1, a1], [s2, a2] =>
    match cmpKey false s1 s2 with
    | Ordering.eq => cmpKey true a1 a2
    | o => o
  | _, _ => Ordering.eq

/-- `e1` does not come strictly after `e2` in the final sort order. -/
def pairLe (e1 e2 : List Value) : Prop := pairCmp e1 e2 ≠ Ordering.gt

theorem denQ_pos (a : ℚ) : (0 : ℚ) < (a.den : ℚ) := by exact_mod_cast a.pos

theorem qMk_eq (n d : ℤ) : qMk n d = (n : ℚ) / (d : ℚ) := by
  unfold qMk
  by_cases h : d < 0
  · rw [if_pos h, Rat.mkRat_eq_div]
    rw [Int.cast_natAbs]
    push_cast
    rw [abs_of_neg (by exact_mod_cast h : (d : ℚ) < 0)]
    rw [div_neg, neg_div, neg_neg]
  · rw [if_neg h, Rat.mkRat_eq_div]
    rw [Int.cast_natAbs]
    push_cast
    rw [abs_of_nonneg (by exact_mod_cast not_lt.mp h : (0 : ℚ) ≤ (d : ℚ))]

theorem qAdd_eq (a b : ℚ) : qAdd a b = a + b := by
  unfold qAdd
  rw [Rat.mkRat_eq_div]
  push_cast
  conv_rhs => rw [← Rat.num_div_den a, ← Rat.num_div_den b]
  rw [div_add_div _ _ (ne_of_gt (denQ_pos a)) (ne_of_gt (denQ_pos b))]
  ring_nf

theorem qMul_eq (a b : ℚ) : qMul a b = a * b := by
  unfold qMul
  rw [Rat.mkRat_eq_div]
  push_cast
  conv_rhs => rw [← Rat.num_div_den a, ← Rat.num_div_den b]
  rw [div_mul_div_comm]

theorem qDiv_eq (a b : ℚ) : qDiv a b = a / b := by
  unfold qDiv
  rw [qMk_eq]
  push_cast
  conv_rhs => rw [← Rat.num_div_den a, ← Rat.num_div_den b]
  conv_rhs => rw [div_eq_mul_inv, inv_div, div_mul_div_comm]

theorem qLtB_iff (a b : ℚ) : qLtB a b = true ↔ a < b := by
  unfold qLtB
  rw [decide_eq_true_iff]
  conv_rhs => rw [← Rat.num_div_den a, ← Rat.num_div_den b]
  rw [div_lt_div_iff₀ (denQ_pos a) (denQ_pos b)]
  constructor
  · intro h; exact_mod_cast h
  · intro h; exact_mod_cast h

/-! ### Claim C4 -/

/-- C4 counterexample: the height conversion `convert_height_to_inches`,
whose regex demands a two-apostrophe terminator, does not map `6' 9.5"`
(double-quote form) to 81.5 inches — it fails to match and yields null. -/
theorem c4_counterexample :
    convert_height_to_inches "6' 9.5\"" ≠ some ((163 : ℚ) / 2) ∧
    convert_height_to_inches "6' 9.5\"" = none := by
  have h : convert_height_to_inches "6' 9.5\"" = none := by decide
  exact ⟨by rw [h]; simp, h⟩

/-- C4 amended: `wingspan_to_inches` maps `6' 9.5"` to 81.5 inches and the
non-matching `N/A` to null without raising; `convert_height_to_inches`
expects the two-apostrophe form and maps `6' 9.5''` to 81.5 inches, while
`6' 9.5"` (double-quote form) and `N/A` map to null without raising. -/
theorem c4_amended :
    wingspan_to_inches "6' 9.5\"" = some ((163 : ℚ) / 2) ∧
    wingspan_to_inches "N/A" = none ∧
    convert_height_to_inches "6' 9.5''" = some ((163 : ℚ) / 2) ∧
    convert_height_to_inches "6' 9.5\"" = none ∧
    convert_height_to_inches "N/A" = none := by
  have h1 : wingspan_to_inches "6' 9.5\"" = some (mkRat 163 2) := by decide
  have h2 : convert_height_to_inches "6' 9.5''" = some (mkRat 163 2) := by decide
  have he : mkRat 163 2 = (163 : ℚ) / 2 := by
    rw [Rat.mkRat_eq_div]; norm_num
  refine ⟨?_, by decide, ?_, by decide, by decide⟩
  · rw [h1, he]
  · rw [h2, he]

/-! ### Claim C5 -/

/-- C5 counterexample: the malformed roster height `N/A` does not produce a
null cell — `height_to_inches` raises on it, and a pipeline run whose roster
table contains it aborts with that error. -/
theorem c5_counterexample :
    height_to_inches "N/A" = Except.error "not enough values to unpack" ∧
    pipeline Tdd Tbo Td2 Td3 Ths Tdv Ttd Tta Tpa Tpl Tcm Tws TroBad =
      Except.error "not enough values to unpack" := by
  constructor
  · decide
  · decide

/-- C5 amended: the regex-based converters recover malformed combine and
wingspan text as null and those stages can never abort (whenever the roster
heights all parse, the pipeline succeeds); the roster height parser has no
such recovery, and one malformed roster height aborts the entire run. -/
theorem c5_amended (dd bo d2 d3 hs dv td ta pa pl cm ws ro : Frame) :
    (∀ e, rostersStage ro = Except.error e →
      pipeline dd bo d2 d3 hs dv td ta pa pl cm ws ro = Except.error e) ∧
    (∀ roF, rostersStage ro = Except.ok roF →
      pipeline dd bo d2 d3 hs dv td ta pa pl cm ws ro =
        Except.ok
          (finalStage
            (teamMergeStage (rankStage (mergeStage dd bo d2 d3 hs dv)) td ta pa)
            roF pl cm ws)) := by
  constructor
  · intro e he
    unfold pipeline
    rw [he]
  · intro roF he
    unfold pipeline
    rw [he]

/-- C5 witness: at the concrete tables, the malformed-roster run aborts with
the unpack error and the well-formed run completes. -/
theorem c5_witness :
    pipeline Tdd Tbo Td2 Td3 Ths Tdv Ttd Tta Tpa Tpl Tcm Tws TroBad =
      Except.error "not enough values to unpack" ∧
    ∃ f, pipeline Tdd Tbo Td2 Td3 Ths Tdv Ttd Tta Tpa Tpl Tcm Tws Tro =
      Except.ok f :=
  ⟨(c5_amended Tdd Tbo Td2 Td3 Ths Tdv Ttd Tta Tpa Tpl Tcm Tws TroBad).1
      "not enough values to unpack" (by decide),
   ⟨_, (c5_amended Tdd Tbo Td2 Td3 Ths Tdv Ttd Tta Tpa Tpl Tcm Tws Tro).2
      _ rfl⟩⟩

/-! ### Claim C6 -/

theorem alookup_mem {α β : Type} [DecidableEq α] {a : α} {b : β}
    {l : List (α × β)} (h : alookup a l = some b) : (a, b) ∈ l := by
  induction l with
  | nil => simp [alookup] at h
  | cons p t ih =>
    obtain ⟨k, v⟩ := p
    by_cases hk : k = a
    · subst hk
      simp [alookup] at h
      simp [h]
    · simp [alookup, hk] at h
      exact List.mem_cons_of_mem _ (ih h)

theorem translit_ascii : ∀ p ∈ translitTable, ∀ d ∈ p.2, d.toNat < 128 := by
  decide

theorem unidecode_ascii {c d : Char} (h : d ∈ unidecodeChar c) :
    d.toNat < 128 := by
  unfold unidecodeChar at h
  by_cases hc : c.toNat < 128
  · rw [if_pos hc] at h
    simp at h
    subst h
    exact hc
  · rw [if_neg hc] at h
    cases hl : alookup c translitTable with
    | none => rw [hl] at h; simp at h
    | some l =>
      rw [hl] at h
      exact translit_ascii _ (alookup_mem hl) _ h

theorem toNat_charOfNat_le {n : ℕ} (h : n ≤ 122) : (Char.ofNat n).toNat = n := by
  have hv : n.isValidChar := Or.inl (by omega)
  rw [Char.ofNat, dif_pos hv]
  rfl

theorem lowChar_toNat (c : Char) :
    (lowChar c).toNat =
      if 65 ≤ c.toNat ∧ c.toNat ≤ 90 then c.toNat + 32 else c.toNat := by
  unfold lowChar
  by_cases h : 65 ≤ c.toNat ∧ c.toNat ≤ 90
  · rw [if_pos h, if_pos h, toNat_charOfNat_le (by omega)]
  · rw [if_neg h, if_neg h]

theorem lowChar_ascii {c : Char} (h : c.toNat < 128) :
    (lowChar c).toNat < 128 := by
  rw [lowChar_toNat]
  by_cases h90 : 65 ≤ c.toNat ∧ c.toNat ≤ 90
  · rw [if_pos h90]; omega
  · rw [if_neg h90]; exact h

theorem lowChar_idem (c : Char) : lowChar (lowChar c) = lowChar c := by
  by_cases h : 65 ≤ c.toNat ∧ c.toNat ≤ 90
  · have ht : (lowChar c).toNat = c.toNat + 32 := by
      rw [lowChar_toNat, if_pos h]
    have hno : ¬(65 ≤ (lowChar c).toNat ∧ (lowChar c).toNat ≤ 90) := by omega
    show (if 65 ≤ (lowChar c).toNat ∧ (lowChar c).toNat ≤ 90 then
        Char.ofNat ((lowChar c).toNat + 32) else lowChar c) = lowChar c
    rw [if_neg hno]
  · have ht : lowChar c = c := by
      unfold lowChar; rw [if_neg h]
    rw [ht, ht]

theorem unidecode_fix {c : Char} (h : c.toNat < 128) : unidecodeChar c = [c] := by
  unfold unidecodeChar
  rw [if_pos h]

theorem flatMap_unidecode_fix {l : List Char} (h : ∀ c ∈ l, c.toNat < 128) :
    l.flatMap unidecodeChar = l := by
  induction l with
  | nil => rfl
  | cons c t ih =>
    rw [List.flatMap_cons, unidecode_fix (h c (List.mem_cons_self c t)),
      ih (fun d hd => h d (List.mem_cons_of_mem c hd))]
    rfl

theorem cleanName_idem (s : String) : cleanName (cleanName s) = cleanName s := by
  unfold cleanName
  congr 1
  have hmem : ∀ c ∈ ((s.data.flatMap unidecodeChar).map lowChar).filter
      (fun c => isWordChar c || isSpaceCh c),
      c.toNat < 128 ∧ lowChar c = c ∧ (isWordChar c || isSpaceCh c) = true := by
    intro c hc
    have hp := List.of_mem_filter hc
    have hm := (List.mem_filter.mp hc).1
    obtain ⟨d, hd, hcd⟩ := List.mem_map.mp hm
    obtain ⟨e, _, hde⟩ := List.mem_flatMap.mp hd
    have hascii : d.toNat < 128 := unidecode_ascii hde
    refine ⟨?_, ?_, hp⟩
    · rw [← hcd]; exact lowChar_ascii hascii
    · rw [← hcd]; exact lowChar_idem d
  set l := ((s.data.flatMap unidecodeChar).map lowChar).filter
    (fun c => isWordChar c || isSpaceCh c) with hl
  have hmap : ∀ m : List Char, (∀ c ∈ m, lowChar c = c) →
      List.map lowChar m = m := by
    intro m hm
    induction m with
    | nil => rfl
    | cons a t ih =>
      rw [List.map_cons, hm a (List.mem_cons_self a t),
        ih (fun c hc => hm c (List.mem_cons_of_mem a hc))]
  rw [flatMap_unidecode_fix (fun c hc => (hmem c hc).1)]
  rw [hmap l (fun c hc => (hmem c hc).2.1)]
  rw [List.filter_eq_self.mpr (fun c hc => (hmem c hc).2.2)]

theorem cleanVal_idem (v : Value) : cleanVal (cleanVal v) = cleanVal v := by
  cases v with
  | str s => simp [cleanVal, cleanName_idem]
  | num q => rfl
  | null => rfl

theorem frame_eq {f g : Frame} (hc : f.cols = g.cols) (hr : f.rows = g.rows) :
    f = g := by
  calc f = ⟨f.cols, f.rows⟩ := rfl
    _ = ⟨g.cols, g.rows⟩ := by rw [hc, hr]
    _ = g := rfl

theorem mapCol_cols (f : Frame) (c : String) (g : Value → Value) :
    (mapCol f c g).cols = f.cols := rfl

theorem mapCol_rows_none {f : Frame} {c : String} (g : Value → Value)
    (h : colIdx? f.cols c = none) : (mapCol f c g).rows = f.rows := by
  unfold mapCol
  simp only
  rw [h]

theorem mapCol_rows_some {f : Frame} {c : String} {i : ℕ} (g : Value → Value)
    (h : colIdx? f.cols c = some i) :
    (mapCol f c g).rows =
      f.rows.map (fun r => r.set i (g (r.getD i Value.null))) := by
  unfold mapCol
  simp only
  rw [h]

theorem mapCol_idem (f : Frame) (c : String) (g : Value → Value)
    (hg : ∀ v, g (g v) = g v) : mapCol (mapCol f c g) c g = mapCol f c g := by
  refine frame_eq rfl ?_
  cases h : colIdx? f.cols c with
  | none =>
    have h' : colIdx? (mapCol f c g).cols c = none := h
    rw [mapCol_rows_none g h', mapCol_rows_none g h]
  | some i =>
    have h' : colIdx? (mapCol f c g).cols c = some i := h
    rw [mapCol_rows_some g h', mapCol_rows_some g h, List.map_map]
    apply List.map_congr_left
    intro r _
    simp only [Function.comp]
    by_cases hlen : i < r.length
    · have hget : (r.set i (g (r.getD i Value.null))).getD i Value.null =
          g (r.getD i Value.null) := by
        rw [List.getD_eq_getElem?_getD, List.getElem?_set_self hlen]
        rfl
      rw [hget, List.set_set, hg]
    · have hset : ∀ v, r.set i v = r :=
        fun v => List.set_eq_of_length_le (by omega)
      simp only [hset]

/-- C6 confirmed: `clean_player_column` is idempotent on every table, and the
underlying name normalisation is idempotent on every string. -/
theorem c6_idem :
    (∀ f : Frame, clean_player_column (clean_player_column f) =
      clean_player_column f) ∧
    (∀ s : String, cleanName (cleanName s) = cleanName s) :=
  ⟨fun f => mapCol_idem f "Player" cleanVal cleanVal_idem, cleanName_idem⟩

/-! ### Claim C2 -/

/-- C2 counterexample: the join engine performs no key-uniqueness check—
merging a one-row table against a right table with a duplicated key silently
yields two rows instead of aborting with an error. -/
theorem c2_counterexample :
    ¬ (keyList keyPS C2r).Nodup ∧
    C2l.rows.length = 1 ∧
    (mergeOn C2l C2r keyPS false).rows.length = 2 := by decide

/-- C2 amended: no uniqueness validation happens before any join and a join
can never abort: for every pair of tables the merge always returns a frame
whose row count is the sum over left rows of the number of matching right
rows (with an unmatched left row contributing one row under a left join and
zero under an inner join)—so duplicate right-hand keys silently fan out. -/
theorem c2_amended (l r : Frame) (keys : List String) (inner : Bool) :
    (mergeOn l r keys inner).rows.length =
      (l.rows.map (fun lr =>
        let m := (r.rows.filter (fun rr =>
          keys.all (fun k =>
            decide (cellOf r.cols rr k = cellOf l.cols lr k)))).length
        if m = 0 then (if inner then 0 else 1) else m)).sum := by
  unfold mergeOn
  simp only
  rw [List.length_flatMap]
  congr 1
  apply List.map_congr_left
  intro lr _
  simp only [Function.comp]
  unfold mergeBlock
  cases hms : matchRows l r keys lr with
  | nil =>
    have : (r.rows.filter (fun rr =>
        keys.all (fun k =>
          decide (cellOf r.cols rr k = cellOf l.cols lr k)))).length = 0 := by
      rw [show (r.rows.filter (fun rr => keys.all (fun k =>
        decide (cellOf r.cols rr k = cellOf l.cols lr k)))) =
          matchRows l r keys lr from rfl, hms]
      rfl
    rw [this]
    cases inner <;> simp
  | cons a t =>
    have : (r.rows.filter (fun rr =>
        keys.all (fun k =>
          decide (cellOf r.cols rr k = cellOf l.cols lr k)))) = a :: t := by
      rw [show (r.rows.filter (fun rr => keys.all (fun k =>
        decide (cellOf r.cols rr k = cellOf l.cols lr k)))) =
          matchRows l r keys lr from rfl, hms]
    rw [this]
    simp only [List.length_map, List.length_cons]
    rw [if_neg (by omega)]

/-! ### Claim C10 -/

theorem replVal_cases (v : Value) :
    replVal replacements v =
      (if v = Value.str "C-F" then Value.str "C"
       else if v = Value.str "F-C" then Value.str "F"
       else if v = Value.str "F-G" then Value.str "F"
       else if v = Value.str "G-F" then Value.str "G"
       else v) := by
  cases v with
  | num q => rfl
  | null => rfl
  | str s =>
    by_cases h1 : s = "C-F"
    · subst h1; decide
    by_cases h2 : s = "F-C"
    · subst h2; decide
    by_cases h3 : s = "F-G"
    · subst h3; decide
    by_cases h4 : s = "G-F"
    · subst h4; decide
    have g1 : (("C-F" : String) = s) = False := eq_false (fun h => h1 h.symm)
    have g2 : (("F-C" : String) = s) = False := eq_false (fun h => h2 h.symm)
    have g3 : (("F-G" : String) = s) = False := eq_false (fun h => h3 h.symm)
    have g4 : (("G-F" : String) = s) = False := eq_false (fun h => h4 h.symm)
    simp [replVal, replacements, alookup, g1, g2, g3, g4, Value.str.injEq,
      h1, h2, h3, h4]

/-- C10 confirmed: the replacement step is applied by `finalStage` to the
whole merged table, and it rewrites every cell of every column that equals
one of the four position codes (`C-F`, `F-C`, `F-G`, `G-F`) to its
replacement while leaving every other cell, the column list, and the row
count unchanged. -/
theorem c10_replace :
    (∀ data roF pl : Frame,
      fsC data roF pl = replaceAll (fsB data roF pl) replacements) ∧
    ∀ f : Frame,
      (replaceAll f replacements).cols = f.cols ∧
      (replaceAll f replacements).rows = f.rows.map (List.map (fun v =>
        if v = Value.str "C-F" then Value.str "C"
        else if v = Value.str "F-C" then Value.str "F"
        else if v = Value.str "F-G" then Value.str "F"
        else if v = Value.str "G-F" then Value.str "G"
        else v)) := by
  refine ⟨fun _ _ _ => rfl, fun f => ⟨rfl, ?_⟩⟩
  show f.rows.map (List.map (replVal replacements)) = _
  apply List.map_congr_left
  intro r _
  apply List.map_congr_left
  intro v _
  exact replVal_cases v

/-! ### Column lookup lemmas -/

theorem colIdx?_lt {cols : List String} {c : String} {i : ℕ}
    (h : colIdx? cols c = some i) : i < cols.length := by
  induction cols generalizing i with
  | nil => simp [colIdx?] at h
  | cons c' rest ih =>
    unfold colIdx? at h
    simp only [List.length_cons]
    by_cases hc : c' = c
    · rw [if_pos hc] at h
      simp at h
      omega
    · rw [if_neg hc, Option.map_eq_some'] at h
      obtain ⟨j, hj, hij⟩ := h
      have := ih hj
      omega

theorem colIdx?_getD {cols : List String} {c : String} {i : ℕ}
    (h : colIdx? cols c = some i) : cols.getD i "" = c := by
  induction cols generalizing i with
  | nil => simp [colIdx?] at h
  | cons c' rest ih =>
    unfold colIdx? at h
    by_cases hc : c' = c
    · rw [if_pos hc] at h
      simp at h
      subst h
      simpa using hc
    · rw [if_neg hc, Option.map_eq_some'] at h
      obtain ⟨j, hj, hij⟩ := h
      subst hij
      simpa using ih hj

theorem colIdx?_eq_none {cols : List String} {c : String} :
    colIdx? cols c = none ↔ c ∉ cols := by
  induction cols with
  | nil => simp [colIdx?]
  | cons c' rest ih =>
    by_cases hc : c' = c
    · simp [colIdx?, hc]
    · simp [colIdx?, hc, ih, Ne.symm hc]

theorem colIdx?_append_left {l l' : List String} {c : String} {i : ℕ}
    (h : colIdx? l c = some i) : colIdx? (l ++ l') c = some i := by
  induction l generalizing i with
  | nil => simp [colIdx?] at h
  | cons c' rest ih =>
    rw [List.cons_append]
    unfold colIdx? at h ⊢
    by_cases hc : c' = c
    · rwa [if_pos hc] at h ⊢
    · rw [if_neg hc] at h ⊢
      rw [Option.map_eq_some'] at h
      obtain ⟨j, hj, hij⟩ := h
      rw [ih hj]
      simp [hij]

theorem colIdx?_append_none {l l' : List String} {c : String}
    (h : colIdx? l c = none) :
    colIdx? (l ++ l') c = (colIdx? l' c).map (· + l.length) := by
  induction l with
  | nil => simp
  | cons c' rest ih =>
    by_cases hc : c' = c
    · unfold colIdx? at h
      rw [if_pos hc] at h
      simp at h
    · have h' : colIdx? rest c = none := by
        unfold colIdx? at h
        rw [if_neg hc] at h
        exact Option.map_eq_none'.mp h
      have l1 : colIdx? ((c' :: rest) ++ l') c =
          (colIdx? (rest ++ l') c).map (· + 1) := by
        show (if c' = c then some 0
            else (colIdx? (rest ++ l') c).map (· + 1)) =
          (colIdx? (rest ++ l') c).map (· + 1)
        rw [if_neg hc]
      rw [l1, ih h', Option.map_map]
      cases colIdx? l' c with
      | none => rfl
      | some j =>
        simp only [Option.map_some', Function.comp, List.length_cons]
        exact congrArg some (by omega)

theorem colIdx?_map_iff {h : String → String} {cols : List String} {k : String}
    (hh : ∀ x ∈ cols, h x = k ↔ x = k) :
    colIdx? (cols.map h) k = colIdx? cols k := by
  induction cols with
  | nil => rfl
  | cons c' rest ih =>
    have hc' := hh c' (List.mem_cons_self c' rest)
    by_cases hc : c' = k
    · subst hc
      have hfix : h c' = c' := hc'.mpr rfl
      simp [colIdx?, hfix]
    · have hne : ¬(h c' = k) := fun he => hc (hc'.mp he)
      simp only [List.map_cons, colIdx?, if_neg hne, if_neg hc]
      rw [ih (fun x hx => hh x (List.mem_cons_of_mem c' hx))]

theorem cellOf_not_mem {cols : List String} {r : List Value} {c : String}
    (h : c ∉ cols) : cellOf cols r c = Value.null := by
  unfold cellOf
  rw [colIdx?_eq_none.mpr h]

theorem cellOf_cons {c0 : String} {rest : List String} {v : Value}
    {rv : List Value} {k : String} :
    cellOf (c0 :: rest) (v :: rv) k =
      if c0 = k then v else cellOf rest rv k := by
  by_cases hc : c0 = k
  · simp [cellOf, colIdx?, hc]
  · simp only [cellOf, colIdx?, if_neg hc]
    cases h : colIdx? rest k with
    | none => simp [h]
    | some j => simp [h]

theorem cellOf_append_left {cols cols' : List String} {r ext : List Value}
    {c : String} (hmem : c ∈ cols) (hlen : cols.length ≤ r.length) :
    cellOf (cols ++ cols') (r ++ ext) c = cellOf cols r c := by
  have hne : colIdx? cols c ≠ none := fun hn => (colIdx?_eq_none.mp hn) hmem
  cases h : colIdx? cols c with
  | none => exact absurd h hne
  | some i =>
    have hi := colIdx?_lt h
    unfold cellOf
    rw [colIdx?_append_left h, h]
    show (r ++ ext).getD i Value.null = r.getD i Value.null
    rw [List.getD_eq_getElem?_getD, List.getD_eq_getElem?_getD,
      List.getElem?_append_left (by omega)]

theorem getD_map_of_fixed {g : Value → Value} (hg : g Value.null = Value.null)
    (r : List Value) (j : ℕ) :
    (r.map g).getD j Value.null = g (r.getD j Value.null) := by
  rw [List.getD_eq_getElem?_getD, List.getD_eq_getElem?_getD,
    List.getElem?_map]
  cases h : r[j]? with
  | none => simp [hg]
  | some v => simp

/-! ### Merge column analysis -/

theorem ne_append_two {a b : List Char} {x1 x2 y1 y2 : Char}
    (h : ¬(x1 = y1 ∧ x2 = y2)) : a ++ [x1, x2] ≠ b ++ [y1, y2] := by
  intro he
  have hrev := congrArg List.reverse he
  simp only [List.reverse_append, List.reverse_cons, List.reverse_nil,
    List.nil_append, List.cons_append, List.append_assoc] at hrev
  simp at hrev
  exact h ⟨hrev.2.1, hrev.1⟩

theorem sufSafe_of_last_two {k : String} (p q : Char) (pre : List Char)
    (hk : k.data = pre ++ [p, q]) (hx : ¬(p = '_' ∧ q = 'x'))
    (hy : ¬(p = '_' ∧ q = 'y')) : sufSafe k := by
  constructor
  · intro c he
    have hd := congrArg String.data he
    rw [String.data_append, hk] at hd
    exact ne_append_two (fun hpq => hx ⟨hpq.1.symm, hpq.2.symm⟩) hd
  · intro c he
    have hd := congrArg String.data he
    rw [String.data_append, hk] at hd
    exact ne_append_two (fun hpq => hy ⟨hpq.1.symm, hpq.2.symm⟩) hd

theorem sufSafe_Player : sufSafe "Player" :=
  sufSafe_of_last_two 'e' 'r' ['P', 'l', 'a', 'y'] rfl (by decide) (by decide)

theorem sufSafe_Season : sufSafe "Season" :=
  sufSafe_of_last_two 'o' 'n' ['S', 'e', 'a', 's'] rfl (by decide) (by decide)

theorem sufSafe_avg : sufSafe "average_rank" :=
  sufSafe_of_last_two 'n' 'k'
    ['a', 'v', 'e', 'r', 'a', 'g', 'e', '_', 'r', 'a'] rfl (by decide)
    (by decide)

theorem sufSafe_DPOY : sufSafe "DPOY" :=
  sufSafe_of_last_two 'O' 'Y' ['D', 'P'] rfl (by decide) (by decide)

theorem sufSafe_First : sufSafe "First" :=
  sufSafe_of_last_two 's' 't' ['F', 'i', 'r'] rfl (by decide) (by decide)

theorem sufSafe_PtsWon : sufSafe "Pts Won" :=
  sufSafe_of_last_two 'o' 'n' ['P', 't', 's', ' ', 'W'] rfl (by decide)
    (by decide)

theorem sufSafe_PtsMax : sufSafe "Pts Max" :=
  sufSafe_of_last_two 'a' 'x' ['P', 't', 's', ' ', 'M'] rfl (by decide)
    (by decide)

theorem sufSafe_Share : sufSafe "Share" :=
  sufSafe_of_last_two 'r' 'e' ['S', 'h', 'a'] rfl (by decide) (by decide)

/-- Looking up a suffix-safe column that is a key or absent on the right:
the merged column list gives it the same index as the left column list. -/
theorem mergedCols_colIdx {lc rc keys : List String} {k : String}
    (hsafe : sufSafe k) (hk : k ∈ keys ∨ k ∉ rc) :
    colIdx? (mergedCols lc rc keys) k = colIdx? lc k := by
  unfold mergedCols
  have hiff : ∀ x ∈ lc,
      (if x ∉ keys ∧ x ∈ rc then x ++ "_x" else x) = k ↔ x = k := by
    intro x _
    constructor
    · intro he
      by_cases hcond : x ∉ keys ∧ x ∈ rc
      · rw [if_pos hcond] at he
        exact absurd he (hsafe.1 x)
      · rwa [if_neg hcond] at he
    · intro he
      subst he
      have hcond : ¬(x ∉ keys ∧ x ∈ rc) := by
        cases hk with
        | inl hmem => intro hc; exact hc.1 hmem
        | inr hnot => intro hc; exact hnot hc.2
      rw [if_neg hcond]
  cases hl : colIdx? lc k with
  | some i =>
    have : colIdx? (lc.map (fun c =>
        if c ∉ keys ∧ c ∈ rc then c ++ "_x" else c)) k = some i := by
      rw [colIdx?_map_iff hiff, hl]
    exact colIdx?_append_left this
  | none =>
    have hleft : colIdx? (lc.map (fun c =>
        if c ∉ keys ∧ c ∈ rc then c ++ "_x" else c)) k = none := by
      rw [colIdx?_map_iff hiff, hl]
    rw [colIdx?_append_none hleft]
    have hright : colIdx? ((rc.filter (fun c => c ∉ keys)).map
        (fun c => if c ∈ lc then c ++ "_y" else c)) k = none := by
      rw [colIdx?_eq_none]
      intro hmem
      obtain ⟨x, hx, hxe⟩ := List.mem_map.mp hmem
      have hxr := (List.mem_filter.mp hx).1
      have hxnk : x ∉ keys := by
        have := (List.mem_filter.mp hx).2
        simpa using this
      by_cases hcond : x ∈ lc
      · rw [if_pos hcond] at hxe
        exact hsafe.2 x hxe
      · rw [if_neg hcond] at hxe
        subst hxe
        cases hk with
        | inl hmem' => exact hxnk hmem'
        | inr hnot => exact hnot hxr
    rw [hright]
    rfl

/-- Cells of a suffix-safe tracked column survive a merge unchanged: on every
output row `lr ++ ext` the tracked cell equals the left row's cell. -/
theorem mergeCell_left {l r : Frame} {keys : List String} {k : String}
    {lr ext : List Value} (hlen : l.cols.length ≤ lr.length)
    (hsafe : sufSafe k) (hk : k ∈ keys ∨ k ∉ r.cols) :
    cellOf (mergedCols l.cols r.cols keys) (lr ++ ext) k =
      cellOf l.cols lr k := by
  unfold cellOf
  rw [mergedCols_colIdx hsafe hk]
  cases h : colIdx? l.cols k with
  | none => rfl
  | some i =>
    have hi := colIdx?_lt h
    show (lr ++ ext).getD i Value.null = lr.getD i Value.null
    rw [List.getD_eq_getElem?_getD, List.getD_eq_getElem?_getD,
      List.getElem?_append_left (by omega)]

/-- Every row a left row contributes to a merge extends that left row. -/
theorem mergeBlock_shape {l r : Frame} {keys : List String} {inner : Bool}
    {lr x : List Value} (hx : x ∈ mergeBlock l r keys inner lr) :
    ∃ ext, x = lr ++ ext ∧ ext.length = (nonKeyCols r keys).length := by
  unfold mergeBlock at hx
  cases hms : matchRows l r keys lr with
  | nil =>
    rw [hms] at hx
    cases inner with
    | true => simp at hx
    | false =>
      simp at hx
      exact ⟨_, hx, by simp⟩
  | cons a t =>
    rw [hms] at hx
    obtain ⟨rr, _, hxe⟩ := List.mem_map.mp hx
    exact ⟨_, hxe.symm, by simp⟩

/-- Rows of a merge output. -/
theorem mergeOn_rows (l r : Frame) (keys : List String) (inner : Bool) :
    (mergeOn l r keys inner).rows = l.rows.flatMap (mergeBlock l r keys inner) :=
  rfl

/-- Columns of a merge output. -/
theorem mergeOn_cols (l r : Frame) (keys : List String) (inner : Bool) :
    (mergeOn l r keys inner).cols = mergedCols l.cols r.cols keys :=
  rfl

/-- A merge of a well-formed left frame is well formed. -/
theorem mergeOn_WF {l : Frame} (r : Frame) (keys : List String) (inner : Bool)
    (h : l.WF) : (mergeOn l r keys inner).WF := by
  intro x hx
  rw [mergeOn_rows] at hx
  obtain ⟨lr, hlr, hblk⟩ := List.mem_flatMap.mp hx
  obtain ⟨ext, hxe, hextlen⟩ := mergeBlock_shape hblk
  subst hxe
  rw [mergeOn_cols]
  unfold mergedCols
  rw [List.length_append, List.length_append, List.length_map,
    List.length_map, h lr hlr, hextlen]
  rfl

/-! ### Well-formedness preservation -/

theorem mapCol_WF {f : Frame} (c : String) (g : Value → Value) (h : f.WF) :
    (mapCol f c g).WF := by
  intro x hx
  rw [mapCol_cols]
  cases hc : colIdx? f.cols c with
  | none =>
    rw [mapCol_rows_none g hc] at hx
    exact h x hx
  | some i =>
    rw [mapCol_rows_some g hc] at hx
    obtain ⟨r, hr, hre⟩ := List.mem_map.mp hx
    subst hre
    simpa [List.length_set] using h r hr

theorem assignCol_cols (f : Frame) (c : String) (g : List Value → Value) :
    (assignCol f c g).cols = assignCols f.cols c := rfl

theorem assignCols_some {cols : List String} {c : String} {i : ℕ}
    (h : colIdx? cols c = some i) : assignCols cols c = cols := by
  unfold assignCols
  rw [h]

theorem assignCols_none {cols : List String} {c : String}
    (h : colIdx? cols c = none) : assignCols cols c = cols ++ [c] := by
  unfold assignCols
  rw [h]

theorem assignCol_rows_some {f : Frame} {c : String} {i : ℕ}
    (g : List Value → Value) (h : colIdx? f.cols c = some i) :
    (assignCol f c g).rows = f.rows.map (fun r => r.set i (g r)) := by
  unfold assignCol
  simp only
  rw [h]

theorem assignCol_rows_none {f : Frame} {c : String} (g : List Value → Value)
    (h : colIdx? f.cols c = none) :
    (assignCol f c g).rows = f.rows.map (fun r => r ++ [g r]) := by
  unfold assignCol
  simp only
  rw [h]

theorem assignCol_WF {f : Frame} (c : String) (g : List Value → Value)
    (h : f.WF) : (assignCol f c g).WF := by
  intro x hx
  rw [assignCol_cols]
  cases hc : colIdx? f.cols c with
  | some i =>
    rw [assignCol_rows_some g hc] at hx
    rw [assignCols_some hc]
    obtain ⟨r, hr, hre⟩ := List.mem_map.mp hx
    subst hre
    simpa [List.length_set] using h r hr
  | none =>
    rw [assignCol_rows_none g hc] at hx
    rw [assignCols_none hc]
    obtain ⟨r, hr, hre⟩ := List.mem_map.mp hx
    subst hre
    simp [h r hr]

theorem sortValues_WF {f : Frame} (ks : List (String × Bool)) (h : f.WF) :
    (sortValues f ks).WF := by
  intro x hx
  unfold sortValues at hx
  simp only [List.mem_insertionSort] at hx
  exact h x hx

theorem renameCols_WF {f : Frame} (m : List (String × String)) (h : f.WF) :
    (renameCols f m).WF := by
  intro x hx
  unfold renameCols at hx ⊢
  simp only at hx ⊢
  simpa using h x hx

theorem zip_filter_length {cs : List String} (cols : List String)
    (r : List Value) (hlen : r.length = cols.length) :
    (((cols.zip r).filter (fun p => p.1 ∉ cs)).map Prod.snd).length =
      (cols.filter (fun c => c ∉ cs)).length := by
  induction cols generalizing r with
  | nil => cases r <;> simp_all
  | cons c0 rest ih =>
    cases r with
    | nil => simp at hlen
    | cons v rv =>
      have hlen' : rv.length = rest.length := by simpa using hlen
      by_cases hc : c0 ∈ cs
      · simp only [List.zip_cons_cons, List.filter_cons]
        rw [if_neg (by simpa using hc), if_neg (by simpa using hc)]
        exact ih rv hlen'
      · simp only [List.zip_cons_cons, List.filter_cons]
        rw [if_pos (by simpa using hc), if_pos (by simpa using hc)]
        simpa using ih rv hlen'

theorem dropCols_WF {f : Frame} (cs : List String) (h : f.WF) :
    (dropCols f cs).WF := by
  intro x hx
  unfold dropCols at hx ⊢
  simp only at hx ⊢
  obtain ⟨r, hr, hre⟩ := List.mem_map.mp hx
  subst hre
  exact @zip_filter_length cs f.cols r (h r hr)

theorem selectCols_WF (f : Frame) (cs : List String) : (selectCols f cs).WF := by
  intro x hx
  unfold selectCols at hx ⊢
  simp only at hx ⊢
  obtain ⟨r, _, hre⟩ := List.mem_map.mp hx
  subst hre
  simp

theorem fillnaCols_WF {f : Frame} (cs : List String) (h : f.WF) :
    (fillnaCols f cs).WF := by
  intro x hx
  unfold fillnaCols at hx ⊢
  simp only at hx ⊢
  obtain ⟨r, hr, hre⟩ := List.mem_map.mp hx
  subst hre
  simp [List.length_zip, h r hr]

theorem replaceAll_WF {f : Frame} (m : List (String × String)) (h : f.WF) :
    (replaceAll f m).WF := by
  intro x hx
  unfold replaceAll at hx ⊢
  simp only at hx ⊢
  obtain ⟨r, hr, hre⟩ := List.mem_map.mp hx
  subst hre
  simpa using h r hr

/-! ### Tracked-cell preservation through the frame operations -/

theorem cellOf_set_ne {cols : List String} {r : List Value} {c k : String}
    {i : ℕ} (hi : colIdx? cols c = some i) (hck : c ≠ k) (v : Value) :
    cellOf cols (r.set i v) k = cellOf cols r k := by
  unfold cellOf
  cases hj : colIdx? cols k with
  | none => rfl
  | some j =>
    have hij : i ≠ j := by
      intro he
      subst he
      exact hck ((colIdx?_getD hi).symm.trans (colIdx?_getD hj))
    show (r.set i v).getD j Value.null = r.getD j Value.null
    rw [List.getD_eq_getElem?_getD, List.getD_eq_getElem?_getD,
      List.getElem?_set_ne hij]

theorem cellOf_append_single {cols : List String} {r : List Value}
    {c k : String} {v : Value} (hck : c ≠ k) (hlen : cols.length ≤ r.length) :
    cellOf (cols ++ [c]) (r ++ [v]) k = cellOf cols r k := by
  by_cases hmem : k ∈ cols
  · exact cellOf_append_left hmem hlen
  · rw [cellOf_not_mem hmem, cellOf_not_mem]
    intro hk
    rcases List.mem_append.mp hk with h | h
    · exact hmem h
    · simp at h
      exact hck h.symm

theorem cellOf_map_cols {h : String → String} {cols : List String}
    {r : List Value} {k : String} (hh : ∀ x ∈ cols, h x = k ↔ x = k) :
    cellOf (cols.map h) r k = cellOf cols r k := by
  unfold cellOf
  rw [colIdx?_map_iff hh]

/-- The key tuples are unchanged by a column assignment away from the keys. -/
theorem keyList_assignCol {f : Frame} {c : String} {g : List Value → Value}
    {ks : List String} (hck : ∀ k ∈ ks, k ≠ c) (hwf : f.WF) :
    keyList ks (assignCol f c g) = keyList ks f := by
  unfold keyList
  cases hc : colIdx? f.cols c with
  | some i =>
    rw [assignCol_rows_some g hc, assignCol_cols, assignCols_some hc,
      List.map_map]
    apply List.map_congr_left
    intro r _
    apply List.map_congr_left
    intro k hk
    exact cellOf_set_ne hc (fun he => hck k hk he.symm) (g r)
  | none =>
    rw [assignCol_rows_none g hc, assignCol_cols, assignCols_none hc,
      List.map_map]
    apply List.map_congr_left
    intro r hr
    apply List.map_congr_left
    intro k hk
    exact cellOf_append_single (fun he => hck k hk he.symm)
      (le_of_eq (hwf r hr).symm)

/-- The key tuples are unchanged by a rename that neither touches a key nor
renames another column to a key name. -/
theorem keyList_renameCols {f : Frame} {m : List (String × String)}
    {ks : List String} (h1 : ∀ k ∈ ks, alookup k m = none)
    (h2 : ∀ k ∈ ks, ∀ p ∈ m, p.2 ≠ k) :
    keyList ks (renameCols f m) = keyList ks f := by
  unfold keyList renameCols
  simp only
  apply List.map_congr_left
  intro r _
  apply List.map_congr_left
  intro k hk
  apply cellOf_map_cols
  intro x _
  constructor
  · intro he
    cases ha : alookup x m with
    | some y =>
      rw [ha] at he
      exact absurd he (h2 k hk (x, y) (alookup_mem ha))
    | none =>
      rw [ha] at he
      exact he
  · intro he
    subst he
    rw [h1 x hk]
    rfl

/-- Cells of a kept column are unchanged by a column drop. -/
theorem dropRow_cell {cs : List String} (cols : List String) (r : List Value)
    {k : String} (hk : k ∉ cs) (hlen : r.length = cols.length) :
    cellOf (cols.filter (fun c => c ∉ cs))
      (((cols.zip r).filter (fun p => p.1 ∉ cs)).map Prod.snd) k =
      cellOf cols r k := by
  induction cols generalizing r with
  | nil =>
    cases r with
    | nil => rfl
    | cons v rv => simp at hlen
  | cons c0 rest ih =>
    cases r with
    | nil => simp at hlen
    | cons v rv =>
      have hlen' : rv.length = rest.length := by simpa using hlen
      by_cases hc : c0 ∈ cs
      · have hc0k : c0 ≠ k := fun he => hk (he ▸ hc)
        simp only [List.zip_cons_cons, List.filter_cons]
        rw [if_neg (by simpa using hc), if_neg (by simpa using hc)]
        rw [ih rv hlen', cellOf_cons, if_neg hc0k]
      · simp only [List.zip_cons_cons, List.filter_cons]
        rw [if_pos (by simpa using hc), if_pos (by simpa using hc)]
        simp only [List.map_cons]
        rw [cellOf_cons, cellOf_cons, ih rv hlen']

/-- The key tuples are unchanged by dropping non-key columns. -/
theorem keyList_dropCols {f : Frame} {cs ks : List String}
    (hk : ∀ k ∈ ks, k ∉ cs) (hwf : f.WF) :
    keyList ks (dropCols f cs) = keyList ks f := by
  unfold keyList dropCols
  simp only [List.map_map]
  apply List.map_congr_left
  intro r hr
  apply List.map_congr_left
  intro k hkk
  exact dropRow_cell f.cols r (hk k hkk) (hwf r hr)

/-- Value at one index of the zipped-and-mapped row used by the zero fill. -/
theorem zipMap_getD {cols : List String} {r : List Value} {j : ℕ}
    (trans : String × Value → Value) (hj : j < cols.length)
    (hjr : j < r.length) :
    ((cols.zip r).map trans).getD j Value.null =
      trans (cols.getD j "", r.getD j Value.null) := by
  induction cols generalizing r j with
  | nil => simp at hj
  | cons c0 rest ih =>
    cases r with
    | nil => simp at hjr
    | cons v rv =>
      cases j with
      | zero => rfl
      | succ j' =>
        simp only [List.zip_cons_cons, List.map_cons, List.getD_cons_succ]
        exact ih (by simpa using hj) (by simpa using hjr)

/-- Cells of columns outside the fill list are unchanged by the zero fill. -/
theorem fillna_cell_not_mem {f : Frame} {cs : List String} {r : List Value}
    {k : String} (hk : k ∉ cs) (hlen : r.length = f.cols.length) :
    cellOf f.cols ((f.cols.zip r).map (fun p =>
      if p.1 ∈ cs ∧ p.2 = Value.null then Value.num (mkRat 0 1) else p.2)) k =
      cellOf f.cols r k := by
  unfold cellOf
  cases hj : colIdx? f.cols k with
  | none => rfl
  | some j =>
    have hjl := colIdx?_lt hj
    show ((f.cols.zip r).map (fun p =>
        if p.1 ∈ cs ∧ p.2 = Value.null then Value.num (mkRat 0 1)
        else p.2)).getD j Value.null = r.getD j Value.null
    rw [zipMap_getD _ hjl (by omega), colIdx?_getD hj]
    rw [if_neg (fun hc => hk hc.1)]

/-- The key tuples are unchanged by a zero fill of disjoint columns. -/
theorem keyList_fillnaCols {f : Frame} {cs ks : List String}
    (hk : ∀ k ∈ ks, k ∉ cs) (hwf : f.WF) :
    keyList ks (fillnaCols f cs) = keyList ks f := by
  unfold keyList fillnaCols
  simp only [List.map_map]
  apply List.map_congr_left
  intro r hr
  apply List.map_congr_left
  intro k hkk
  exact fillna_cell_not_mem (hk k hkk) (hwf r hr)

/-- Cells of a filled column are never null after the zero fill. -/
theorem fillna_cell_nonnull {f : Frame} {k : String} {cs : List String}
    (hmem : k ∈ f.cols) (hcs : k ∈ cs) (hwf : f.WF) :
    ∀ x ∈ (fillnaCols f cs).rows,
      cellOf (fillnaCols f cs).cols x k ≠ Value.null := by
  intro x hx
  unfold fillnaCols at hx ⊢
  simp only at hx ⊢
  obtain ⟨r, hr, hre⟩ := List.mem_map.mp hx
  subst hre
  have hne : colIdx? f.cols k ≠ none := fun hn => (colIdx?_eq_none.mp hn) hmem
  cases hj : colIdx? f.cols k with
  | none => exact absurd hj hne
  | some j =>
    have hjl := colIdx?_lt hj
    unfold cellOf
    rw [hj]
    show ((f.cols.zip r).map (fun p =>
        if p.1 ∈ cs ∧ p.2 = Value.null then Value.num (mkRat 0 1)
        else p.2)).getD j Value.null ≠ Value.null
    rw [zipMap_getD _ hjl (by rw [hwf r hr]; omega), colIdx?_getD hj]
    by_cases hnull : r.getD j Value.null = Value.null
    · rw [if_pos ⟨hcs, hnull⟩]
      simp
    · rw [if_neg (fun hc => hnull hc.2)]
      exact hnull

/-- Every cell of the replacement output is the replacement of the input
cell. -/
theorem cellOf_replaceAll {f : Frame} {m : List (String × String)}
    {r : List Value} {k : String} :
    cellOf f.cols (r.map (replVal m)) k = replVal m (cellOf f.cols r k) := by
  unfold cellOf
  cases hj : colIdx? f.cols k with
  | none => rfl
  | some j => exact getD_map_of_fixed rfl r j

/-- The key tuples of the replacement output. -/
theorem keyList_replaceAll {f : Frame} {m : List (String × String)}
    {ks : List String} :
    keyList ks (replaceAll f m) = (keyList ks f).map (List.map (replVal m)) := by
  unfold keyList replaceAll
  simp only [List.map_map]
  apply List.map_congr_left
  intro r _
  simp only [Function.comp]
  rw [List.map_map]
  apply List.map_congr_left
  intro k _
  exact cellOf_replaceAll

/-- The key tuples of a sort are a permutation of the input's. -/
theorem keyList_sortValues {f : Frame} {ks' : List (String × Bool)}
    {ks : List String} : (keyList ks (sortValues f ks')).Perm (keyList ks f) :=
  (List.perm_insertionSort _ f.rows).map _

/-! ### Key tuples across merges -/

/-- The key tuple of a merge output row is the key tuple of its left row. -/
theorem mergeProj {l r : Frame} {keys : List String} {lr ext : List Value}
    {ks : List String} (hts : trackSafe ks r keys)
    (hlen : l.cols.length ≤ lr.length) :
    ks.map (cellOf (mergedCols l.cols r.cols keys) (lr ++ ext)) =
      ks.map (cellOf l.cols lr) := by
  apply List.map_congr_left
  intro k hk
  exact mergeCell_left hlen (hts k hk).1 (hts k hk).2

/-- Every key tuple of a merge output is a key tuple of the left table. -/
theorem keyList_mergeOn_mem {l r : Frame} {keys : List String} {inner : Bool}
    {ks : List String} (hts : trackSafe ks r keys) (hwf : l.WF) :
    ∀ e ∈ keyList ks (mergeOn l r keys inner), e ∈ keyList ks l := by
  intro e he
  unfold keyList at he ⊢
  obtain ⟨x, hx, hxe⟩ := List.mem_map.mp he
  rw [mergeOn_rows] at hx
  obtain ⟨lr, hlr, hblk⟩ := List.mem_flatMap.mp hx
  obtain ⟨ext, hxeq, _⟩ := mergeBlock_shape hblk
  subst hxeq
  subst hxe
  rw [mergeOn_cols, mergeProj hts (le_of_eq (hwf lr hlr).symm)]
  exact List.mem_map.mpr ⟨lr, hlr, rfl⟩

theorem all_decide_eq_decide_map {α β : Type} [DecidableEq β]
    (keys : List α) (f g : α → β) :
    (keys.all (fun k => decide (f k = g k))) =
      decide (keys.map f = keys.map g) := by
  induction keys with
  | nil => simp
  | cons k rest ih =>
    rw [List.all_cons, ih]
    simp [List.cons_eq_cons, Bool.decide_and]

theorem filter_map_nodup_len {α β : Type} [DecidableEq β] {g : α → β}
    {xs : List α} (h : (xs.map g).Nodup) (t : β) :
    (xs.filter (fun x => decide (g x = t))).length ≤ 1 := by
  induction xs with
  | nil => simp
  | cons a rest ih =>
    rw [List.map_cons, List.nodup_cons] at h
    rw [List.filter_cons]
    by_cases hg : g a = t
    · rw [if_pos (by simpa using hg)]
      have hnil : rest.filter (fun x => decide (g x = t)) = [] := by
        rw [List.filter_eq_nil_iff]
        intro x hx hgx
        apply h.1
        rw [decide_eq_true_iff] at hgx
        exact List.mem_map.mpr ⟨x, hx, by rw [hgx, hg]⟩
      rw [hnil]
      simp
    · rw [if_neg (by simpa using hg)]
      exact ih h.2

/-- With unique right-hand keys, at most one right row matches a left row. -/
theorem matchRows_len_le_one {l r : Frame} {keys : List String}
    {lr : List Value} (hu : (keyList keys r).Nodup) :
    (matchRows l r keys lr).length ≤ 1 := by
  unfold matchRows
  have hcong : (r.rows.filter (fun rr =>
      keys.all (fun k => decide (cellOf r.cols rr k = cellOf l.cols lr k)))) =
      (r.rows.filter (fun rr =>
        decide (keys.map (cellOf r.cols rr) = keys.map (cellOf l.cols lr)))) :=
    List.filter_congr (fun rr _ => all_decide_eq_decide_map keys _ _)
  rw [hcong]
  exact filter_map_nodup_len hu _

theorem flatMap_singleton_map {α β γ : Type} {xs : List α} {g : α → List β}
    {p : β → γ} {q : α → γ} (h : ∀ x ∈ xs, (g x).map p = [q x]) :
    (xs.flatMap g).map p = xs.map q := by
  induction xs with
  | nil => rfl
  | cons a rest ih =>
    rw [List.flatMap_cons, List.map_append,
      h a (List.mem_cons_self a rest), List.map_cons,
      ih (fun x hx => h x (List.mem_cons_of_mem a hx))]
    rfl

theorem flatMap_sub_map {α β γ : Type} {xs : List α} {g : α → List β}
    {p : β → γ} {q : α → γ}
    (h : ∀ x ∈ xs, (g x).map p = [] ∨ (g x).map p = [q x]) :
    ((xs.flatMap g).map p).Sublist (xs.map q) := by
  induction xs with
  | nil => simp
  | cons a rest ih =>
    rw [List.flatMap_cons, List.map_append, List.map_cons]
    rcases h a (List.mem_cons_self a rest) with ha | ha
    · rw [ha]
      exact List.Sublist.cons _ (ih (fun x hx => h x (List.mem_cons_of_mem a hx)))
    · rw [ha]
      exact List.Sublist.cons₂ _ (ih (fun x hx => h x (List.mem_cons_of_mem a hx)))

/-- The key tuple each left row contributes under a left join with unique
right keys: exactly its own. -/
theorem mergeBlock_proj_left {l r : Frame} {keys : List String}
    {lr : List Value} {ks : List String} (hts : trackSafe ks r keys)
    (hlen : l.cols.length ≤ lr.length) (hu : (keyList keys r).Nodup) :
    (mergeBlock l r keys false lr).map
        (fun x => ks.map (cellOf (mergedCols l.cols r.cols keys) x)) =
      [ks.map (cellOf l.cols lr)] := by
  unfold mergeBlock
  cases hms : matchRows l r keys lr with
  | nil =>
    simp only [Bool.false_eq_true, if_false, List.map_cons, List.map_nil]
    rw [mergeProj hts hlen]
  | cons a t =>
    have hle := @matchRows_len_le_one l r keys lr hu
    rw [hms] at hle
    have ht : t = [] := by
      rw [List.length_cons] at hle
      exact List.eq_nil_of_length_eq_zero (by omega)
    subst ht
    simp only [List.map_cons, List.map_nil]
    rw [mergeProj hts hlen]

/-- The key tuples of a left join with unique right keys equal the left
table's. -/
theorem keyList_mergeOn_left_unique {l r : Frame} {keys : List String}
    {ks : List String} (hts : trackSafe ks r keys) (hwf : l.WF)
    (hu : (keyList keys r).Nodup) :
    keyList ks (mergeOn l r keys false) = keyList ks l := by
  unfold keyList
  rw [mergeOn_rows, mergeOn_cols]
  exact flatMap_singleton_map (fun lr hlr =>
    mergeBlock_proj_left hts (le_of_eq (hwf lr hlr).symm) hu)

/-- The key tuples of an inner join with unique right keys form a sublist of
the left table's. -/
theorem keyList_mergeOn_inner_unique {l r : Frame} {keys : List String}
    {ks : List String} (hts : trackSafe ks r keys) (hwf : l.WF)
    (hu : (keyList keys r).Nodup) :
    (keyList ks (mergeOn l r keys true)).Sublist (keyList ks l) := by
  unfold keyList
  rw [mergeOn_rows, mergeOn_cols]
  apply flatMap_sub_map
  intro lr hlr
  have hlen : l.cols.length ≤ lr.length := le_of_eq (hwf lr hlr).symm
  unfold mergeBlock
  cases hms : matchRows l r keys lr with
  | nil => left; simp
  | cons a t =>
    have hle := @matchRows_len_le_one l r keys lr hu
    rw [hms] at hle
    have ht : t = [] := by
      rw [List.length_cons] at hle
      exact List.eq_nil_of_length_eq_zero (by omega)
    subst ht
    right
    simp only [List.map_cons, List.map_nil]
    rw [mergeProj hts hlen]

theorem pairwise_flatMap {α β : Type} {g : α → List β} {xs : List α}
    {P : β → β → Prop}
    (hxs : xs.Pairwise (fun a b => ∀ u ∈ g a, ∀ v ∈ g b, P u v))
    (hself : ∀ x ∈ xs, ∀ u ∈ g x, ∀ v ∈ g x, P u v) :
    (xs.flatMap g).Pairwise P := by
  induction xs with
  | nil => simp
  | cons a rest ih =>
    rw [List.flatMap_cons, List.pairwise_append]
    rw [List.pairwise_cons] at hxs
    refine ⟨?_, ih hxs.2 (fun x hx => hself x (List.mem_cons_of_mem a hx)), ?_⟩
    · exact List.pairwise_iff_forall_sublist.mpr (fun {u v} hs =>
        hself a (List.mem_cons_self a rest) u
          (hs.subset (List.mem_cons_self u [v]))
          v (hs.subset (List.mem_cons_of_mem u (List.mem_cons_self v []))))
    · intro u hu v hv
      obtain ⟨b, hb, hvb⟩ := List.mem_flatMap.mp hv
      exact hxs.1 b hb u hu v hvb

/-- A pairwise relation on the key tuples survives any merge (with or
without fan-out): fanned-out copies share their left row's key tuple. -/
theorem pairwise_keyList_mergeOn {l r : Frame} {keys : List String}
    {inner : Bool} {ks : List String} {Q : List Value → List Value → Prop}
    (hts : trackSafe ks r keys) (hwf : l.WF) (hrefl : ∀ x, Q x x)
    (h : (keyList ks l).Pairwise Q) :
    (keyList ks (mergeOn l r keys inner)).Pairwise Q := by
  unfold keyList at h ⊢
  rw [mergeOn_rows, mergeOn_cols, List.pairwise_map]
  rw [List.pairwise_map] at h
  apply pairwise_flatMap
  · refine List.Pairwise.imp_of_mem ?_ h
    intro a b ha hb hab u hu v hv
    obtain ⟨eu, huq, _⟩ := mergeBlock_shape hu
    obtain ⟨ev, hvq, _⟩ := mergeBlock_shape hv
    subst huq
    subst hvq
    rw [mergeProj hts (le_of_eq (hwf a ha).symm),
      mergeProj hts (le_of_eq (hwf b hb).symm)]
    exact hab
  · intro x hx u hu v hv
    obtain ⟨eu, huq, _⟩ := mergeBlock_shape hu
    obtain ⟨ev, hvq, _⟩ := mergeBlock_shape hv
    subst huq
    subst hvq
    rw [mergeProj hts (le_of_eq (hwf x hx).symm)]
    rw [mergeProj hts (le_of_eq (hwf x hx).symm)]
    exact hrefl _

/-! ### Claim C1 -/

theorem dropCols_not_mem {f : Frame} {cs : List String} {c : String}
    (h : c ∈ cs) : c ∉ (dropCols f cs).cols := by
  intro hmem
  unfold dropCols at hmem
  simp only at hmem
  have := (List.mem_filter.mp hmem).2
  simp at this
  exact this h

theorem rank_ne_Player (c : String) : c ++ "_rank" ≠ "Player" := by
  intro he
  have hd := congrArg String.data he
  rw [String.data_append] at hd
  have h2 : (c.data ++ ['_', 'r', 'a']) ++ (['n', 'k'] : List Char) =
      (['P', 'l', 'a', 'y'] : List Char) ++ ['e', 'r'] := by
    rw [List.append_assoc]
    exact hd
  exact ne_append_two (by decide) h2

theorem rank_ne_Season (c : String) : c ++ "_rank" ≠ "Season" := by
  intro he
  have hd := congrArg String.data he
  rw [String.data_append] at hd
  have h2 : (c.data ++ ['_', 'r', 'a']) ++ (['n', 'k'] : List Char) =
      (['S', 'e', 'a', 's'] : List Char) ++ ['o', 'n'] := by
    rw [List.append_assoc]
    exact hd
  exact ne_append_two (by decide) h2

theorem trackSafe_PS_self (r : Frame) : trackSafe keyPS r keyPS := by
  intro k hk
  simp only [keyPS, List.mem_cons, List.mem_singleton] at hk
  rcases hk with rfl | rfl | h
  · exact ⟨sufSafe_Player, Or.inl (by simp [keyPS])⟩
  · exact ⟨sufSafe_Season, Or.inl (by simp [keyPS])⟩
  · simp at h

theorem trackSafe_PS_TS {r : Frame} (hP : "Player" ∉ r.cols) :
    trackSafe keyPS r keyTS := by
  intro k hk
  simp only [keyPS, List.mem_cons, List.mem_singleton] at hk
  rcases hk with rfl | rfl | h
  · exact ⟨sufSafe_Player, Or.inr hP⟩
  · exact ⟨sufSafe_Season, Or.inl (by simp [keyTS])⟩
  · simp at h

theorem trackSafe_PS_P {r : Frame} (hS : "Season" ∉ r.cols) :
    trackSafe keyPS r ["Player"] := by
  intro k hk
  simp only [keyPS, List.mem_cons, List.mem_singleton] at hk
  rcases hk with rfl | rfl | h
  · exact ⟨sufSafe_Player, Or.inl (by simp)⟩
  · exact ⟨sufSafe_Season, Or.inr hS⟩
  · simp at h

/-- Each ranking-loop iteration keeps the frame well formed and the key
tuples unchanged. -/
theorem keyList_foldl_rank {ks : List String}
    (hk : ∀ k ∈ ks, ∀ c : String, k ≠ c ++ "_rank") (L : List String)
    (asc : Bool) :
    ∀ f : Frame, f.WF →
      (L.foldl (fun g c => addRankCol g c asc) f).WF ∧
      keyList ks (L.foldl (fun g c => addRankCol g c asc) f) = keyList ks f := by
  induction L with
  | nil => exact fun f hwf => ⟨hwf, rfl⟩
  | cons c rest ih =>
    intro f hwf
    rw [List.foldl_cons]
    have hstep : (addRankCol f c asc).WF := assignCol_WF _ _ hwf
    obtain ⟨hw, he⟩ := ih (addRankCol f c asc) hstep
    refine ⟨hw, he.trans ?_⟩
    exact keyList_assignCol (fun k hkk => hk k hkk c) hwf

theorem nodup_of_subperm {l₁ l₂ : List (List Value)} (h : l₁.Subperm l₂)
    (hnd : l₂.Nodup) : l₁.Nodup := by
  obtain ⟨l, hperm, hsub⟩ := h
  exact (List.Perm.nodup_iff hperm).mp (hsub.nodup hnd)

/-- C1 amended: provided every right-hand table of the join sequence has at
most one row per its join key (including at most one combine row and one
wingspan row per player), the base table has unique `(Player, Season)` keys
after name cleaning, the team tables carry no `Player` column, the wingspan
table carries no `Season` column, and no key cell collides with a position
code, the final output has at most one row per `(Player, Season)`.  The
uniqueness hypotheses are essential: they are exactly what the silent merge
fan-out of `pd.merge` violates (see the counterexample). -/
theorem c1_unique (dd bo d2 d3 hs dv td ta pa pl cm ws ro roF : Frame)
    (hwf : dd.WF)
    (hnd : (keyList keyPS (clean_player_column dd)).Nodup)
    (h_bo : (keyList keyPS (boP bo)).Nodup)
    (h_d2 : (keyList keyPS (d2P d2)).Nodup)
    (h_d3 : (keyList keyPS (d3P d3)).Nodup)
    (h_hs : (keyList keyPS (hsP hs)).Nodup)
    (h_dv : (keyList keyPS (dvP dv)).Nodup)
    (h_td : (keyList keyTS (teamsDataStage td)).Nodup)
    (h_ta : (keyList keyTS (teamsAdvStage ta)).Nodup)
    (h_pa : (keyList keyPS (paSel pa)).Nodup)
    (h_ro : rostersStage ro = Except.ok roF)
    (h_rou : (keyList keyPS (roSel roF)).Nodup)
    (h_pl : (keyList keyPS (plSel pl)).Nodup)
    (h_cm : (keyList ["Player"] (cmP cm)).Nodup)
    (h_ws : (keyList ["Player"] (wsP ws)).Nodup)
    (h_tdP : "Player" ∉ (teamsDataStage td).cols)
    (h_taP : "Player" ∉ (teamsAdvStage ta).cols)
    (h_wsS : "Season" ∉ (wsP ws).cols)
    (h_rep : ∀ e ∈ keyList keyPS (clean_player_column dd),
      e.map (replVal replacements) = e) :
    ∀ final, pipeline dd bo d2 d3 hs dv td ta pa pl cm ws ro =
      Except.ok final → (keyList keyPS final).Nodup := by
  intro final hfin
  have hpipe : pipeline dd bo d2 d3 hs dv td ta pa pl cm ws ro =
      Except.ok (finalStage
        (teamMergeStage (rankStage (mergeStage dd bo d2 d3 hs dv)) td ta pa)
        roF pl cm ws) := by
    unfold pipeline
    rw [h_ro]
  rw [hpipe] at hfin
  have hfe : final = finalStage
      (teamMergeStage (rankStage (mergeStage dd bo d2 d3 hs dv)) td ta pa)
      roF pl cm ws := ((Except.ok.injEq _ _).mp hfin).symm
  subst hfe
  -- the cleaned base table
  set base := clean_player_column dd with hbase
  have wf0 : base.WF := mapCol_WF _ _ hwf
  -- the five player-keyed left merges (lines 74-82)
  have e1 : keyList keyPS (dataM1 dd bo) = keyList keyPS base :=
    keyList_mergeOn_left_unique (trackSafe_PS_self _) wf0 h_bo
  have w1 : (dataM1 dd bo).WF := mergeOn_WF _ _ _ wf0
  have e2 : keyList keyPS (dataM2 dd bo d2) = keyList keyPS (dataM1 dd bo) :=
    keyList_mergeOn_left_unique (trackSafe_PS_self _) w1 h_d2
  have w2 : (dataM2 dd bo d2).WF := mergeOn_WF _ _ _ w1
  have e3 : keyList keyPS (dataM3 dd bo d2 d3) =
      keyList keyPS (dataM2 dd bo d2) :=
    keyList_mergeOn_left_unique (trackSafe_PS_self _) w2 h_d3
  have w3 : (dataM3 dd bo d2 d3).WF := mergeOn_WF _ _ _ w2
  have e4 : keyList keyPS (dataM4 dd bo d2 d3 hs) =
      keyList keyPS (dataM3 dd bo d2 d3) :=
    keyList_mergeOn_left_unique (trackSafe_PS_self _) w3 h_hs
  have w4 : (dataM4 dd bo d2 d3 hs).WF := mergeOn_WF _ _ _ w3
  have e5 : keyList keyPS (dataM5 dd bo d2 d3 hs dv) =
      keyList keyPS (dataM4 dd bo d2 d3 hs) :=
    keyList_mergeOn_left_unique (trackSafe_PS_self _) w4 h_dv
  have w5 : (dataM5 dd bo d2 d3 hs dv).WF := mergeOn_WF _ _ _ w4
  -- sorts, rename and total-stat columns (lines 84-93)
  have pMerge : (keyList keyPS (mergeStage dd bo d2 d3 hs dv)).Perm
      (keyList keyPS base) := by
    unfold mergeStage
    simp only
    set s1 := sortValues (dataM5 dd bo d2 d3 hs dv)
      [("Season", false), ("Pts Won", false)] with hs1
    set s2 := sortValues s1 [("Season", false)] with hs2
    set rn := renameCols s2 [("BLK", "BPG"), ("STL", "SPG")] with hrn
    have ws1 : s1.WF := sortValues_WF _ w5
    have ws2 : s2.WF := sortValues_WF _ ws1
    have wrn : rn.WF := renameCols_WF _ ws2
    set b1 := assignCol rn "BLK"
      (fun r => mulV (cellOf rn.cols r "BPG") (cellOf rn.cols r "GP")) with hb1
    have wb1 : b1.WF := assignCol_WF _ _ wrn
    have eb2 : keyList keyPS (assignCol b1 "STL"
        (fun r => mulV (cellOf b1.cols r "SPG") (cellOf b1.cols r "GP"))) =
        keyList keyPS b1 :=
      keyList_assignCol (by decide) wb1
    have eb1 : keyList keyPS b1 = keyList keyPS rn :=
      keyList_assignCol (by decide) wrn
    have ern : keyList keyPS rn = keyList keyPS s2 :=
      keyList_renameCols (by decide) (by decide)
    have ps2 : (keyList keyPS s2).Perm (keyList keyPS s1) := keyList_sortValues
    have ps1 : (keyList keyPS s1).Perm
        (keyList keyPS (dataM5 dd bo d2 d3 hs dv)) := keyList_sortValues
    rw [eb2, eb1, ern]
    exact (ps2.trans ps1).trans (by rw [e5, e4, e3, e2, e1])
  have wMerge : (mergeStage dd bo d2 d3 hs dv).WF := by
    unfold mergeStage
    simp only
    exact assignCol_WF _ _ (assignCol_WF _ _ (renameCols_WF _
      (sortValues_WF _ (sortValues_WF _ w5))))
  -- ranking stage (lines 110-128)
  have hkrank : ∀ k ∈ keyPS, ∀ c : String, k ≠ c ++ "_rank" := by
    intro k hk c
    simp only [keyPS, List.mem_cons, List.mem_singleton] at hk
    rcases hk with rfl | rfl | h
    · exact fun he => rank_ne_Player c he.symm
    · exact fun he => rank_ne_Season c he.symm
    · simp at h
  have pRank : (keyList keyPS (rankStage (mergeStage dd bo d2 d3 hs dv))).Perm
      (keyList keyPS base) := by
    unfold rankStage addRanks
    simp only
    obtain ⟨whi, ehi⟩ := keyList_foldl_rank hkrank higher_is_better false
      (mergeStage dd bo d2 d3 hs dv) wMerge
    obtain ⟨wlo, elo⟩ := keyList_foldl_rank hkrank lower_is_better true _ whi
    have eav : keyList keyPS (assignCol
        (lower_is_better.foldl (fun g c => addRankCol g c true)
          (higher_is_better.foldl (fun g c => addRankCol g c false)
            (mergeStage dd bo d2 d3 hs dv))) "average_rank"
        (rankMean (lower_is_better.foldl (fun g c => addRankCol g c true)
          (higher_is_better.foldl (fun g c => addRankCol g c false)
            (mergeStage dd bo d2 d3 hs dv))))) =
        keyList keyPS (lower_is_better.foldl (fun g c => addRankCol g c true)
          (higher_is_better.foldl (fun g c => addRankCol g c false)
            (mergeStage dd bo d2 d3 hs dv))) :=
      keyList_assignCol (by decide) wlo
    refine List.Perm.trans keyList_sortValues ?_
    rw [eav, elo, ehi]
    exact pMerge
  have wRank : (rankStage (mergeStage dd bo d2 d3 hs dv)).WF := by
    unfold rankStage addRanks
    simp only
    obtain ⟨whi, _⟩ := keyList_foldl_rank hkrank higher_is_better false
      (mergeStage dd bo d2 d3 hs dv) wMerge
    obtain ⟨wlo, _⟩ := keyList_foldl_rank hkrank lower_is_better true _ whi
    exact sortValues_WF _ (assignCol_WF _ _ wlo)
  set rk := rankStage (mergeStage dd bo d2 d3 hs dv) with hrk
  -- team merges and zero fill (lines 185-198)
  have eA : keyList keyPS (tmA rk td) = keyList keyPS rk :=
    keyList_mergeOn_left_unique (trackSafe_PS_TS h_tdP) wRank h_td
  have wA : (tmA rk td).WF := mergeOn_WF _ _ _ wRank
  have eB : keyList keyPS (tmB rk td ta) = keyList keyPS (tmA rk td) :=
    keyList_mergeOn_left_unique (trackSafe_PS_TS h_taP) wA h_ta
  have wB : (tmB rk td ta).WF := mergeOn_WF _ _ _ wA
  have eC : keyList keyPS (tmC rk td ta) = keyList keyPS (tmB rk td ta) :=
    keyList_dropCols (by decide) wB
  have wC : (tmC rk td ta).WF := dropCols_WF _ wB
  have eD : keyList keyPS (tmD rk td ta pa) = keyList keyPS (tmC rk td ta) :=
    keyList_mergeOn_left_unique (trackSafe_PS_self _) wC h_pa
  have wD : (tmD rk td ta pa).WF := mergeOn_WF _ _ _ wC
  have eF : keyList keyPS (teamMergeStage rk td ta pa) =
      keyList keyPS (tmD rk td ta pa) :=
    keyList_fillnaCols (by decide) wD
  have wF : (teamMergeStage rk td ta pa).WF := fillnaCols_WF _ wD
  set tm := teamMergeStage rk td ta pa with htm
  have pTm : (keyList keyPS tm).Perm (keyList keyPS base) := by
    rw [htm, eF, eD, eC, eB, eA]
    exact pRank
  -- final stage (lines 247-256, 410-411)
  have sA : (keyList keyPS (fsA tm roF)).Sublist (keyList keyPS tm) :=
    keyList_mergeOn_inner_unique (trackSafe_PS_self _) wF h_rou
  have wfA : (fsA tm roF).WF := mergeOn_WF _ _ _ wF
  have sB : (keyList keyPS (fsB tm roF pl)).Sublist (keyList keyPS (fsA tm roF)) :=
    keyList_mergeOn_inner_unique (trackSafe_PS_self _) wfA h_pl
  have wfB : (fsB tm roF pl).WF := mergeOn_WF _ _ _ wfA
  have subB : (keyList keyPS (fsB tm roF pl)).Subperm (keyList keyPS base) :=
    ((sB.trans sA).subperm).trans pTm.subperm
  have eC' : keyList keyPS (fsC tm roF pl) = keyList keyPS (fsB tm roF pl) := by
    unfold fsC
    rw [keyList_replaceAll]
    conv_rhs => rw [← List.map_id (keyList keyPS (fsB tm roF pl))]
    apply List.map_congr_left
    intro e he
    exact h_rep e (subB.subset he)
  have wfC : (fsC tm roF pl).WF := replaceAll_WF _ wfB
  have eD' : keyList keyPS (fsD tm roF pl cm) = keyList keyPS (fsC tm roF pl) :=
    keyList_mergeOn_left_unique
      (trackSafe_PS_P (dropCols_not_mem (by decide))) wfC h_cm
  have wfD : (fsD tm roF pl cm).WF := mergeOn_WF _ _ _ wfC
  have eE' : keyList keyPS (finalStage tm roF pl cm ws) =
      keyList keyPS (fsD tm roF pl cm) :=
    keyList_mergeOn_left_unique (trackSafe_PS_P h_wsS) wfD h_ws
  have subFinal : (keyList keyPS (finalStage tm roF pl cm ws)).Subperm
      (keyList keyPS base) := by
    rw [eE', eD', eC']
    exact subB
  exact nodup_of_subperm subFinal hnd

/-- C1 counterexample: with two combine rows for one player, the pipeline
completes and its final table contains the key pair
`(joel embiid, 2023-24)` twice—the output keys are not unique. -/
theorem c1_counterexample :
    okWithKeys (pipeline Tdd Tbo Td2 Td3 Ths Tdv Ttd Tta Tpa Tpl TcmDup Tws Tro)
        keyPS [[vS "joel embiid", vS "2023-24"],
          [vS "joel embiid", vS "2023-24"]] = true ∧
    ¬ ([[vS "joel embiid", vS "2023-24"],
        [vS "joel embiid", vS "2023-24"]] : List (List Value)).Nodup := by
  constructor
  · decide
  · decide

/-- C1 witness: at the concrete tables every hypothesis of `c1_unique`
holds, the pipeline completes, and the final key pairs are unique. -/
theorem c1_witness :
    (match pipeline Tdd Tbo Td2 Td3 Ths Tdv Ttd Tta Tpa Tpl Tcm Tws Tro with
     | Except.ok f => (keyList keyPS f).Nodup
     | Except.error _ => False) := by
  cases hp : pipeline Tdd Tbo Td2 Td3 Ths Tdv Ttd Tta Tpa Tpl Tcm Tws Tro with
  | error e =>
    have hok : (match pipeline Tdd Tbo Td2 Td3 Ths Tdv Ttd Tta Tpa Tpl Tcm Tws
        Tro with
      | Except.ok _ => true
      | Except.error _ => false) = true := by decide
    rw [hp] at hok
    simp at hok
  | ok f =>
    exact c1_unique Tdd Tbo Td2 Td3 Ths Tdv Ttd Tta Tpa Tpl Tcm Tws Tro TroF
      (by decide) (by decide) (by decide) (by decide) (by decide) (by decide)
      (by decide) (by decide) (by decide) (by decide) (by decide) (by decide)
      (by decide) (by decide) (by decide) (by decide) (by decide) (by decide)
      (by decide) f hp

/-! ### Claim C9 -/

theorem mem_cols_assignCol {f : Frame} {c : String} {g : List Value → Value}
    {k : String} (h : k ∈ f.cols) : k ∈ (assignCol f c g).cols := by
  rw [assignCol_cols]
  cases hc : colIdx? f.cols c with
  | some i => rw [assignCols_some hc]; exact h
  | none => rw [assignCols_none hc]; exact List.mem_append.mpr (Or.inl h)

theorem mem_cols_mergeOn_left {l r : Frame} {keys : List String}
    {inner : Bool} {k : String} (h : k ∈ l.cols)
    (hk : k ∈ keys ∨ k ∉ r.cols) : k ∈ (mergeOn l r keys inner).cols := by
  rw [mergeOn_cols]
  unfold mergedCols
  apply List.mem_append.mpr
  left
  apply List.mem_map.mpr
  refine ⟨k, h, ?_⟩
  rw [if_neg]
  intro hc
  cases hk with
  | inl hm => exact hc.1 hm
  | inr hn => exact hn hc.2

theorem mem_cols_mergeOn_right {l r : Frame} {keys : List String}
    {inner : Bool} {k : String} (h : k ∈ r.cols) (hnk : k ∉ keys)
    (hnl : k ∉ l.cols) : k ∈ (mergeOn l r keys inner).cols := by
  rw [mergeOn_cols]
  unfold mergedCols
  apply List.mem_append.mpr
  right
  apply List.mem_map.mpr
  refine ⟨k, List.mem_filter.mpr ⟨h, by simpa using hnk⟩, ?_⟩
  rw [if_neg hnl]

theorem mem_cols_renameCols {f : Frame} {m : List (String × String)}
    {k : String} (ha : alookup k m = none) (h : k ∈ f.cols) :
    k ∈ (renameCols f m).cols := by
  unfold renameCols
  apply List.mem_map.mpr
  exact ⟨k, h, by rw [ha]; rfl⟩

theorem mem_cols_dropCols {f : Frame} {cs : List String} {k : String}
    (h : k ∈ f.cols) (hk : k ∉ cs) : k ∈ (dropCols f cs).cols := by
  unfold dropCols
  exact List.mem_filter.mpr ⟨h, by simpa using hk⟩

theorem mem_cols_foldl_rank {k : String} (L : List String) (asc : Bool) :
    ∀ f : Frame, k ∈ f.cols →
      k ∈ (L.foldl (fun g c => addRankCol g c asc) f).cols := by
  induction L with
  | nil => exact fun f h => h
  | cons c rest ih =>
    intro f h
    rw [List.foldl_cons]
    exact ih _ (mem_cols_assignCol h)

theorem replVal_ne_null {m : List (String × String)} {v : Value}
    (h : v ≠ Value.null) : replVal m v ≠ Value.null := by
  cases v with
  | str s =>
    unfold replVal
    cases ha : alookup s m with
    | some t => simp [ha]
    | none => simp [ha]
  | num q => exact h
  | null => exact absurd rfl h

/-- A property of a suffix-safe tracked cell transfers from the left table
to every merge output row. -/
theorem mergeOn_cell_prop {l r : Frame} {keys : List String} {inner : Bool}
    {k : String} (P : Value → Prop) (hsafe : sufSafe k)
    (hk : k ∈ keys ∨ k ∉ r.cols) (hwf : l.WF)
    (h : ∀ x ∈ l.rows, P (cellOf l.cols x k)) :
    ∀ y ∈ (mergeOn l r keys inner).rows,
      P (cellOf (mergeOn l r keys inner).cols y k) := by
  intro y hy
  rw [mergeOn_rows] at hy
  obtain ⟨lr, hlr, hblk⟩ := List.mem_flatMap.mp hy
  obtain ⟨ext, hxe, _⟩ := mergeBlock_shape hblk
  subst hxe
  rw [mergeOn_cols, mergeCell_left (le_of_eq (hwf lr hlr).symm) hsafe hk]
  exact h lr hlr

/-- A replacement-stable property of a tracked cell transfers across
`replaceAll`. -/
theorem replaceAll_cell_prop {f : Frame} {m : List (String × String)}
    {k : String} (P : Value → Prop) (hP : ∀ v, P v → P (replVal m v))
    (h : ∀ x ∈ f.rows, P (cellOf f.cols x k)) :
    ∀ y ∈ (replaceAll f m).rows, P (cellOf (replaceAll f m).cols y k) := by
  intro y hy
  unfold replaceAll at hy ⊢
  simp only at hy ⊢
  obtain ⟨x, hx, hxe⟩ := List.mem_map.mp hy
  subst hxe
  rw [@cellOf_replaceAll f m x k]
  exact hP _ (h x hx)

theorem foldl_rank_WF (L : List String) (asc : Bool) :
    ∀ f : Frame, f.WF → (L.foldl (fun g c => addRankCol g c asc) f).WF := by
  induction L with
  | nil => exact fun f h => h
  | cons c rest ih =>
    intro f h
    rw [List.foldl_cons]
    exact ih _ (assignCol_WF _ _ h)

theorem wf_mergeStage {dd : Frame} (bo d2 d3 hs dv : Frame) (hwf : dd.WF) :
    (mergeStage dd bo d2 d3 hs dv).WF := by
  unfold mergeStage
  simp only
  exact assignCol_WF _ _ (assignCol_WF _ _ (renameCols_WF _ (sortValues_WF _
    (sortValues_WF _ (mergeOn_WF _ _ _ (mergeOn_WF _ _ _ (mergeOn_WF _ _ _
      (mergeOn_WF _ _ _ (mergeOn_WF _ _ _ (mapCol_WF _ _ hwf))))))))))

theorem wf_rankStage {f : Frame} (hwf : f.WF) : (rankStage f).WF := by
  unfold rankStage addRanks
  simp only
  exact sortValues_WF _ (assignCol_WF _ _ (foldl_rank_WF _ _ _
    (foldl_rank_WF _ _ _ hwf)))

theorem wf_tmD {data : Frame} (td ta pa : Frame) (hwf : data.WF) :
    (tmD data td ta pa).WF :=
  mergeOn_WF _ _ _ (dropCols_WF _ (mergeOn_WF _ _ _ (mergeOn_WF _ _ _ hwf)))

theorem wf_teamMergeStage {data : Frame} (td ta pa : Frame) (hwf : data.WF) :
    (teamMergeStage data td ta pa).WF :=
  fillnaCols_WF _ (wf_tmD td ta pa hwf)

theorem mem_cols_mergeStage {dd bo d2 d3 hs dv : Frame} {c : String}
    (ha : alookup c [("BLK", "BPG"), ("STL", "SPG")] = none)
    (h : c ∈ (dataM5 dd bo d2 d3 hs dv).cols) :
    c ∈ (mergeStage dd bo d2 d3 hs dv).cols := by
  unfold mergeStage
  simp only
  exact mem_cols_assignCol (mem_cols_assignCol (mem_cols_renameCols ha h))

theorem mem_cols_rankStage {f : Frame} {c : String} (h : c ∈ f.cols) :
    c ∈ (rankStage f).cols := by
  have h2 := @mem_cols_foldl_rank c higher_is_better false f h
  have h1 : c ∈ (addRanks f).cols := by
    unfold addRanks
    exact @mem_cols_foldl_rank c lower_is_better true
      (higher_is_better.foldl (fun g c => addRankCol g c false) f) h2
  unfold rankStage
  show c ∈ (assignCol (addRanks f) "average_rank" (rankMean (addRanks f))).cols
  exact mem_cols_assignCol h1

/-- C9 amended? No—C9 as claimed: after the zero fill, the five award-voting
columns contain no nulls anywhere in the final output (provided the five
labels do not collide with columns of the other source tables, which would
trigger pandas suffixing), while the fill touches no other column, so
missing values elsewhere remain null. -/
theorem c9_fillna (dd bo d2 d3 hs dv td ta pa pl cm ws ro roF : Frame)
    (hwf : dd.WF)
    (h_ro : rostersStage ro = Except.ok roF)
    (h5A : ∀ c ∈ na_cols, c ∉ (dataM4 dd bo d2 d3 hs).cols)
    (h5td : ∀ c ∈ na_cols, c ∉ (teamsDataStage td).cols)
    (h5ta : ∀ c ∈ na_cols, c ∉ (teamsAdvStage ta).cols)
    (h5cm : ∀ c ∈ na_cols, c ∉ (cmP cm).cols)
    (h5ws : ∀ c ∈ na_cols, c ∉ (wsP ws).cols) :
    (∀ final, pipeline dd bo d2 d3 hs dv td ta pa pl cm ws ro =
        Except.ok final →
      ∀ c ∈ na_cols, ∀ x ∈ final.rows, cellOf final.cols x c ≠ Value.null) ∧
    (∀ g : Frame, g.WF → ∀ c, c ∉ na_cols →
      keyList [c] (fillnaCols g na_cols) = keyList [c] g) := by
  constructor
  · intro final hfin c hc
    have hpipe : pipeline dd bo d2 d3 hs dv td ta pa pl cm ws ro =
        Except.ok (finalStage
          (teamMergeStage (rankStage (mergeStage dd bo d2 d3 hs dv)) td ta pa)
          roF pl cm ws) := by
      unfold pipeline
      rw [h_ro]
    rw [hpipe] at hfin
    have hfe : final = finalStage
        (teamMergeStage (rankStage (mergeStage dd bo d2 d3 hs dv)) td ta pa)
        roF pl cm ws := ((Except.ok.injEq _ _).mp hfin).symm
    subst hfe
    set rk := rankStage (mergeStage dd bo d2 d3 hs dv) with hrk
    set tm := teamMergeStage rk td ta pa with htm
    -- the five labels are suffix safe
    have hsafec : sufSafe c := by
      simp only [na_cols, List.mem_cons, List.mem_singleton] at hc
      rcases hc with rfl | rfl | rfl | rfl | rfl | hfalse
      · exact sufSafe_DPOY
      · exact sufSafe_First
      · exact sufSafe_PtsWon
      · exact sufSafe_PtsMax
      · exact sufSafe_Share
      · simp at hfalse
    -- membership of the label in the voting columns and the merged table
    have m0 : c ∈ (dvP dv).cols := by
      rw [show (dvP dv).cols =
        ["Player", "Tm", "Season", "DPOY", "First", "Pts Won", "Pts Max",
         "Share", "G", "MP", "STL", "BLK", "DWS", "DBPM", "DRtg"] from rfl]
      have hall : ∀ c' ∈ na_cols, c' ∈
          ["Player", "Tm", "Season", "DPOY", "First", "Pts Won", "Pts Max",
           "Share", "G", "MP", "STL", "BLK", "DWS", "DBPM", "DRtg"] := by
        decide
      exact hall c hc
    have hckeys : c ∉ keyPS := by
      have hall : ∀ c' ∈ na_cols, c' ∉ keyPS := by decide
      exact hall c hc
    have m1 : c ∈ (dataM5 dd bo d2 d3 hs dv).cols :=
      mem_cols_mergeOn_right m0 hckeys (h5A c hc)
    have hcren : alookup c [("BLK", "BPG"), ("STL", "SPG")] = none := by
      have hall : ∀ c' ∈ na_cols,
          alookup c' [("BLK", "BPG"), ("STL", "SPG")] = none := by decide
      exact hall c hc
    have m2 : c ∈ rk.cols :=
      mem_cols_rankStage (mem_cols_mergeStage hcren m1)
    have mA : c ∈ (tmA rk td).cols :=
      mem_cols_mergeOn_left m2 (Or.inr (h5td c hc))
    have mB : c ∈ (tmB rk td ta).cols :=
      mem_cols_mergeOn_left mA (Or.inr (h5ta c hc))
    have hcdrop : c ∉ ["STL", "BLK", "DWS", "DBPM", "DRtg", "G", "MP", "Tm"] := by
      have hall : ∀ c' ∈ na_cols,
          c' ∉ ["STL", "BLK", "DWS", "DBPM", "DRtg", "G", "MP", "Tm"] := by
        decide
      exact hall c hc
    have mC : c ∈ (tmC rk td ta).cols := mem_cols_dropCols mB hcdrop
    have hcpa : c ∉ (paSel pa).cols := by
      rw [show (paSel pa).cols =
        ["Player", "Season", "STL", "BLK", "DWS", "DBPM", "DRtg"] from rfl]
      have hall : ∀ c' ∈ na_cols, c' ∉
          ["Player", "Season", "STL", "BLK", "DWS", "DBPM", "DRtg"] := by
        decide
      exact hall c hc
    have mD : c ∈ (tmD rk td ta pa).cols :=
      mem_cols_mergeOn_left mC (Or.inr hcpa)
    -- well-formedness of the accumulating table
    have wfRk : rk.WF := wf_rankStage (wf_mergeStage bo d2 d3 hs dv hwf)
    have wfD : (tmD rk td ta pa).WF := wf_tmD td ta pa wfRk
    have wfTm : tm.WF := wf_teamMergeStage td ta pa wfRk
    -- non-null from the zero fill onward
    have n0 : ∀ x ∈ tm.rows, cellOf tm.cols x c ≠ Value.null := by
      intro x hx
      exact fillna_cell_nonnull mD hc wfD x hx
    have hcro : c ∉ (roSel roF).cols := by
      rw [show (roSel roF).cols =
        ["Season", "Player", "Height", "Weight"] from rfl]
      have hall : ∀ c' ∈ na_cols, c' ∉
          ["Season", "Player", "Height", "Weight"] := by decide
      exact hall c hc
    have n1 := @mergeOn_cell_prop tm (roSel roF) keyPS true c
      (fun v => v ≠ Value.null) hsafec (Or.inr hcro) wfTm n0
    have wfA : (fsA tm roF).WF := mergeOn_WF _ _ _ wfTm
    have hcpl : c ∉ (plSel pl).cols := by
      rw [show (plSel pl).cols = ["Player", "Season", "DRB", "MP"] from rfl]
      have hall : ∀ c' ∈ na_cols, c' ∉ ["Player", "Season", "DRB", "MP"] := by
        decide
      exact hall c hc
    have n2 := @mergeOn_cell_prop (fsA tm roF) (plSel pl) keyPS true c
      (fun v => v ≠ Value.null) hsafec (Or.inr hcpl) wfA n1
    have wfB : (fsB tm roF pl).WF := mergeOn_WF _ _ _ wfA
    have n3 := @replaceAll_cell_prop (fsB tm roF pl) replacements c
      (fun v => v ≠ Value.null) (fun v hv => replVal_ne_null hv) n2
    have wfC : (fsC tm roF pl).WF := replaceAll_WF _ wfB
    have n4 := @mergeOn_cell_prop (fsC tm roF pl) (cmP cm) ["Player"] false c
      (fun v => v ≠ Value.null) hsafec (Or.inr (h5cm c hc)) wfC n3
    have wfD' : (fsD tm roF pl cm).WF := mergeOn_WF _ _ _ wfC
    have n5 := @mergeOn_cell_prop (fsD tm roF pl cm) (wsP ws) ["Player"] false
      c (fun v => v ≠ Value.null) hsafec (Or.inr (h5ws c hc)) wfD' n4
    exact n5
  · intro g hg c hcn
    apply keyList_fillnaCols ?_ hg
    intro k hk
    simp only [List.mem_singleton] at hk
    subst hk
    exact hcn

/-- C9 witness: at the concrete tables the pipeline completes and every
cell of the five voting columns in the final output is non-null. -/
theorem c9_witness :
    (match pipeline Tdd Tbo Td2 Td3 Ths Tdv Ttd Tta Tpa Tpl Tcm Tws Tro with
     | Except.ok f =>
        ∀ c ∈ na_cols, ∀ x ∈ f.rows, cellOf f.cols x c ≠ Value.null
     | Except.error _ => False) := by
  cases hp : pipeline Tdd Tbo Td2 Td3 Ths Tdv Ttd Tta Tpa Tpl Tcm Tws Tro with
  | error e =>
    have hok : (match pipeline Tdd Tbo Td2 Td3 Ths Tdv Ttd Tta Tpa Tpl Tcm Tws
        Tro with
      | Except.ok _ => true
      | Except.error _ => false) = true := by decide
    rw [hp] at hok
    simp at hok
  | ok f =>
    exact (c9_fillna Tdd Tbo Td2 Td3 Ths Tdv Ttd Tta Tpa Tpl Tcm Tws Tro TroF
      (by decide) (by decide) (by decide) (by decide) (by decide) (by decide)
      (by decide)).1 f hp

/-! ### C7: the season maximum of a higher-is-better metric ranks first -/

theorem cellOf_append_self {cols : List String} {r : List Value} {c : String}
    {v : Value} (hc : colIdx? cols c = none) (hlen : r.length = cols.length) :
    cellOf (cols ++ [c]) (r ++ [v]) c = v := by
  unfold cellOf
  rw [colIdx?_append_none hc]
  rw [show colIdx? [c] c = some 0 from by simp [colIdx?]]
  show (r ++ [v]).getD (0 + cols.length) Value.null = v
  rw [Nat.zero_add, List.getD_eq_getElem?_getD,
    List.getElem?_append_right (le_of_eq hlen), hlen, Nat.sub_self]
  rfl

/-- C7: for a configured higher-is-better metric `c`, a row `r` whose `c`
value `v` is maximal within its season group receives, as its appended
`c_rank` cell, the fractional rank `(t + 1) / 2` where `t` counts the rows
of the group tying that maximum; with a unique maximum the rank is
exactly 1. -/
theorem c7_max_rank (f : Frame) (c : String) (hc : c ∈ higher_is_better)
    (hwf : f.WF) (hnc : colIdx? f.cols (c ++ "_rank") = none)
    (r : List Value) (hr : r ∈ f.rows) (v : ℚ)
    (hv : cellOf f.cols r c = Value.num v)
    (hmax : ∀ r2 ∈ f.rows,
      cellOf f.cols r2 "Season" = cellOf f.cols r "Season" →
      ∀ w : ℚ, cellOf f.cols r2 c = Value.num w → qLtB v w = false)
    (t : ℕ)
    (ht : t = (((f.rows.filter (fun r2 => decide
        (cellOf f.cols r2 "Season" = cellOf f.cols r "Season"))).filterMap
        (fun r2 => toNum (cellOf f.cols r2 c))).filter
        (fun q => decide (q = v))).length) :
    (r ++ [fracRank f "Season" c false r]) ∈ (addRankCol f c false).rows ∧
    cellOf (addRankCol f c false).cols (r ++ [fracRank f "Season" c false r])
      (c ++ "_rank") = Value.num (mkRat (t + 1) 2) ∧
    (t = 1 → cellOf (addRankCol f c false).cols
      (r ++ [fracRank f "Season" c false r]) (c ++ "_rank") = Value.num 1) := by
  have hmem : (r ++ [fracRank f "Season" c false r]) ∈
      (addRankCol f c false).rows := by
    unfold addRankCol
    rw [assignCol_rows_none _ hnc]
    exact List.mem_map_of_mem _ hr
  have hcols : (addRankCol f c false).cols = f.cols ++ [c ++ "_rank"] := by
    unfold addRankCol
    rw [assignCol_cols, assignCols_none hnc]
  have hcell : cellOf (addRankCol f c false).cols
      (r ++ [fracRank f "Season" c false r]) (c ++ "_rank") =
      fracRank f "Season" c false r := by
    rw [hcols]
    exact cellOf_append_self hnc (hwf r hr)
  have hvals0 : ∀ q ∈ (f.rows.filter (fun r2 => decide
      (cellOf f.cols r2 "Season" = cellOf f.cols r "Season"))).filterMap
      (fun r2 => toNum (cellOf f.cols r2 c)), ¬ (qLtB v q = true) := by
    intro q hq
    obtain ⟨r2, hr2, htn⟩ := List.mem_filterMap.mp hq
    have hr2f : r2 ∈ f.rows := (List.mem_filter.mp hr2).1
    have hseason : cellOf f.cols r2 "Season" = cellOf f.cols r "Season" :=
      of_decide_eq_true (List.mem_filter.mp hr2).2
    have hcell2 : cellOf f.cols r2 c = Value.num q := by
      cases hcv : cellOf f.cols r2 c with
      | str s => rw [hcv] at htn; simp [toNum] at htn
      | null => rw [hcv] at htn; simp [toNum] at htn
      | num a =>
        rw [hcv] at htn
        simp [toNum] at htn
        rw [htn]
    rw [hmax r2 hr2f hseason q hcell2]
    exact Bool.false_ne_true
  have h1 : fracRank f "Season" c false r =
      Value.num (qAdd (mkRat ((((f.rows.filter (fun r2 => decide
          (cellOf f.cols r2 "Season" = cellOf f.cols r "Season"))).filterMap
          (fun r2 => toNum (cellOf f.cols r2 c))).filter
          (fun q => qLtB v q)).length) 1)
        (mkRat (((((f.rows.filter (fun r2 => decide
          (cellOf f.cols r2 "Season" = cellOf f.cols r "Season"))).filterMap
          (fun r2 => toNum (cellOf f.cols r2 c))).filter
          (fun q => decide (q = v))).length) + 1) 2)) := by
    unfold fracRank
    rw [hv]
    rfl
  have hempty : ((f.rows.filter (fun r2 => decide
      (cellOf f.cols r2 "Season" = cellOf f.cols r "Season"))).filterMap
      (fun r2 => toNum (cellOf f.cols r2 c))).filter
      (fun q => qLtB v q) = [] :=
    List.filter_eq_nil_iff.mpr hvals0
  have hz : (mkRat 0 1 : ℚ) = 0 := by decide
  have hfr : fracRank f "Season" c false r = Value.num (mkRat (t + 1) 2) := by
    rw [h1, hempty, ← ht]
    simp only [List.length_nil, Nat.cast_zero]
    rw [qAdd_eq, hz, zero_add]
  refine ⟨hmem, by rw [hcell, hfr], fun h1t => ?_⟩
  rw [hcell, hfr, h1t]
  decide

/-- C7 witness: in the concrete table the unique `BLK` maximum receives
`BLK_rank` equal to 1. -/
theorem c7_witness :
    (C7r ++ [fracRank C7f "Season" "BLK" false C7r]) ∈
        (addRankCol C7f "BLK" false).rows ∧
      cellOf (addRankCol C7f "BLK" false).cols
        (C7r ++ [fracRank C7f "Season" "BLK" false C7r]) ("BLK" ++ "_rank") =
        Value.num (mkRat (1 + 1) 2) ∧
      (1 = 1 → cellOf (addRankCol C7f "BLK" false).cols
        (C7r ++ [fracRank C7f "Season" "BLK" false C7r]) ("BLK" ++ "_rank") =
        Value.num 1) := by
  refine c7_max_rank C7f "BLK" (by decide) (by decide) (by decide) C7r
    (by decide) 3 (by decide) ?_ 1 (by decide)
  intro r2 hr2 _ w hw
  rcases List.mem_cons.mp hr2 with h1 | h1
  · subst h1
    rw [show cellOf C7f.cols [Value.str "a", Value.str "s", Value.num 3] "BLK"
      = Value.num 3 from by decide] at hw
    injection hw with h
    subst h
    decide
  rcases List.mem_cons.mp h1 with h2 | h2
  · subst h2
    rw [show cellOf C7f.cols [Value.str "b", Value.str "s", Value.num 2] "BLK"
      = Value.num 2 from by decide] at hw
    injection hw with h
    subst h
    decide
  simp at h2

/-! ### C3: `average_rank` is the skipna mean of the attached rank columns -/

theorem rankSuffixed_rank (c : String) : rankSuffixed (c ++ "_rank") = true := by
  cases c with
  | mk cd =>
    unfold rankSuffixed
    rw [decide_eq_true_eq]
    have hdata : (String.mk cd ++ "_rank").data =
        cd ++ ['_', 'r', 'a', 'n', 'k'] := rfl
    rw [hdata, List.reverse_append]
    rw [show (['_', 'r', 'a', 'n', 'k'] : List Char).reverse =
      ['k', 'n', 'a', 'r', '_'] from rfl]
    rw [show (5 : ℕ) = (['k', 'n', 'a', 'r', '_'] : List Char).length from rfl,
      List.take_left]

theorem foldl_qAdd (l : List ℚ) (z : ℚ) : l.foldl qAdd z = z + l.sum := by
  induction l generalizing z with
  | nil => simp
  | cons a t ih => rw [List.foldl_cons, ih, qAdd_eq, List.sum_cons, add_assoc]

theorem filterMap_congr_mem {α β : Type} {l : List α} {f g : α → Option β}
    (h : ∀ a ∈ l, f a = g a) : l.filterMap f = l.filterMap g := by
  induction l with
  | nil => rfl
  | cons a t ih =>
    rw [List.filterMap_cons, List.filterMap_cons, h a (List.mem_cons_self a t),
      ih (fun x hx => h x (List.mem_cons_of_mem a hx))]

theorem cellOf_append_head {cols : List String} {r : List Value} {c : String}
    {cs : List String} {v : Value} {vs : List Value}
    (hc : colIdx? cols c = none) (hlen : r.length = cols.length) :
    cellOf (cols ++ c :: cs) (r ++ v :: vs) c = v := by
  unfold cellOf
  rw [colIdx?_append_none hc]
  rw [show colIdx? (c :: cs) c = some 0 from by simp [colIdx?]]
  show (r ++ v :: vs).getD (0 + cols.length) Value.null = v
  rw [Nat.zero_add, List.getD_eq_getElem?_getD,
    List.getElem?_append_right (le_of_eq hlen), hlen, Nat.sub_self]
  simp

theorem cellOf_fresh_names {cols names : List String} {r ranks : List Value}
    (hnd : names.Nodup) (hdisj : ∀ n ∈ names, n ∉ cols)
    (hlen : r.length = cols.length) (hlen2 : ranks.length = names.length) :
    names.filterMap (fun c => toNum (cellOf (cols ++ names) (r ++ ranks) c)) =
      ranks.filterMap toNum := by
  induction names generalizing cols r ranks with
  | nil =>
    cases ranks with
    | nil => rfl
    | cons a l => simp at hlen2
  | cons n rest ih =>
    cases ranks with
    | nil => simp at hlen2
    | cons q qrest =>
      have hn : colIdx? cols n = none :=
        colIdx?_eq_none.mpr (hdisj n (List.mem_cons_self _ _))
      have hhead : cellOf (cols ++ n :: rest) (r ++ q :: qrest) n = q :=
        cellOf_append_head hn hlen
      have hrest : rest.filterMap (fun c =>
          toNum (cellOf (cols ++ n :: rest) (r ++ q :: qrest) c)) =
          qrest.filterMap toNum := by
        have hdisj2 : ∀ m ∈ rest, m ∉ cols ++ [n] := by
          intro m hm hmem
          rcases List.mem_append.mp hmem with h | h
          · exact hdisj m (List.mem_cons_of_mem _ hm) h
          · rw [List.mem_singleton] at h
            subst h
            exact (List.nodup_cons.mp hnd).1 hm
        have hlen2b : (r ++ [q]).length = (cols ++ [n]).length := by
          simp [hlen]
        have hih := @ih (cols ++ [n]) (r ++ [q]) qrest
          (List.nodup_cons.mp hnd).2 hdisj2 hlen2b (by simpa using hlen2)
        rw [List.append_assoc, List.append_assoc] at hih
        exact hih
      rw [List.filterMap_cons, List.filterMap_cons, hhead, hrest]

theorem fracRank_append {f g : Frame} {names : List String}
    {e : List Value → List Value} {gcol vcol : String} {asc : Bool}
    {r : List Value} (hwf : f.WF) (hr : r ∈ f.rows)
    (hgc : g.cols = f.cols ++ names)
    (hgr : g.rows = f.rows.map (fun x => x ++ e x))
    (hg : gcol ∈ f.cols) (hv : vcol ∈ f.cols) :
    fracRank g gcol vcol asc (r ++ e r) = fracRank f gcol vcol asc r := by
  have hcell : ∀ col ∈ f.cols, ∀ x ∈ f.rows,
      cellOf (f.cols ++ names) (x ++ e x) col = cellOf f.cols x col :=
    fun col hcol x hx => cellOf_append_left hcol (le_of_eq (hwf x hx).symm)
  have h1 : (f.rows.map (fun x => x ++ e x)).filter (fun r2 => decide
      (cellOf (f.cols ++ names) r2 gcol =
        cellOf (f.cols ++ names) (r ++ e r) gcol)) =
      (f.rows.filter (fun x => decide
        (cellOf f.cols x gcol = cellOf f.cols r gcol))).map (fun x => x ++ e x) := by
    rw [List.filter_map]
    congr 1
    apply List.filter_congr
    intro x hx
    simp only [Function.comp]
    rw [hcell gcol hg x hx, hcell gcol hg r hr]
  have hvals :
      ((f.rows.map (fun x => x ++ e x)).filter (fun r2 => decide
          (cellOf (f.cols ++ names) r2 gcol =
            cellOf (f.cols ++ names) (r ++ e r) gcol))).filterMap
        (fun r2 => toNum (cellOf (f.cols ++ names) r2 vcol)) =
      (f.rows.filter (fun r2 => decide
          (cellOf f.cols r2 gcol = cellOf f.cols r gcol))).filterMap
        (fun r2 => toNum (cellOf f.cols r2 vcol)) := by
    rw [h1, List.filterMap_map]
    exact filterMap_congr_mem (fun x hx => by
      simp only [Function.comp]
      rw [hcell vcol hv x (List.mem_of_mem_filter hx)])
  unfold fracRank
  rw [hgc, hgr, hcell vcol hv r hr, hvals]

theorem addRanks_eq_fold (f : Frame) :
    addRanks f = metricPairs.foldl (fun g p => addRankCol g p.1 p.2) f := by
  unfold addRanks metricPairs
  rw [List.foldl_append, List.foldl_map, List.foldl_map]

theorem foldl_addRankCol (ms : List (String × Bool)) (f : Frame)
    (hwf : f.WF) (hS : "Season" ∈ f.cols)
    (hmem : ∀ p ∈ ms, p.1 ∈ f.cols)
    (hfresh : ∀ p ∈ ms, (p.1 ++ "_rank") ∉ f.cols)
    (hnd : (ms.map (fun p => p.1 ++ "_rank")).Nodup) :
    ms.foldl (fun g p => addRankCol g p.1 p.2) f =
      ⟨f.cols ++ ms.map (fun p => p.1 ++ "_rank"),
       f.rows.map (fun r =>
         r ++ ms.map (fun p => fracRank f "Season" p.1 p.2 r))⟩ := by
  induction ms generalizing f with
  | nil =>
    refine (frame_eq ?_ ?_).symm
    · exact (List.append_nil _).symm.symm ▸ (List.append_nil f.cols)
    · show f.rows.map (fun r => r ++ []) = f.rows
      calc f.rows.map (fun r => r ++ []) = f.rows.map id := by
            apply List.map_congr_left
            intro x _
            exact List.append_nil x
        _ = f.rows := List.map_id f.rows
  | cons p ms ih =>
    rw [List.map_cons] at hnd
    obtain ⟨hpn, hndt⟩ := List.nodup_cons.mp hnd
    have hp1 : (p.1 ++ "_rank") ∉ f.cols := hfresh p (List.mem_cons_self _ _)
    have hnone : colIdx? f.cols (p.1 ++ "_rank") = none :=
      colIdx?_eq_none.mpr hp1
    have hf'c : (addRankCol f p.1 p.2).cols = f.cols ++ [p.1 ++ "_rank"] := by
      unfold addRankCol
      rw [assignCol_cols, assignCols_none hnone]
    have hf'r : (addRankCol f p.1 p.2).rows =
        f.rows.map (fun x => x ++ [fracRank f "Season" p.1 p.2 x]) := by
      unfold addRankCol
      exact assignCol_rows_none _ hnone
    have hwf' : (addRankCol f p.1 p.2).WF := by
      unfold addRankCol
      exact assignCol_WF _ _ hwf
    have ihap := ih (addRankCol f p.1 p.2) hwf'
      (by rw [hf'c]; exact List.mem_append_left _ hS)
      (fun q hq => by
        rw [hf'c]
        exact List.mem_append_left _ (hmem q (List.mem_cons_of_mem _ hq)))
      (fun q hq => by
        rw [hf'c]
        intro hmemq
        rcases List.mem_append.mp hmemq with h | h
        · exact hfresh q (List.mem_cons_of_mem _ hq) h
        · rw [List.mem_singleton] at h
          exact hpn (h ▸ List.mem_map_of_mem (fun q => q.1 ++ "_rank") hq))
      hndt
    show ms.foldl (fun g q => addRankCol g q.1 q.2) (addRankCol f p.1 p.2) = _
    rw [ihap]
    refine frame_eq ?_ ?_
    · show (addRankCol f p.1 p.2).cols ++ ms.map (fun q => q.1 ++ "_rank") =
        f.cols ++ (p :: ms).map (fun q => q.1 ++ "_rank")
      rw [hf'c, List.append_assoc]
      rfl
    · show (addRankCol f p.1 p.2).rows.map (fun r => r ++ ms.map
          (fun q => fracRank (addRankCol f p.1 p.2) "Season" q.1 q.2 r)) =
        f.rows.map (fun r =>
          r ++ (p :: ms).map (fun q => fracRank f "Season" q.1 q.2 r))
      rw [hf'r, List.map_map]
      apply List.map_congr_left
      intro x hx
      simp only [Function.comp]
      have hrk : ms.map (fun q => fracRank (addRankCol f p.1 p.2) "Season"
          q.1 q.2 (x ++ [fracRank f "Season" p.1 p.2 x])) =
          ms.map (fun q => fracRank f "Season" q.1 q.2 x) := by
        apply List.map_congr_left
        intro q hq
        exact fracRank_append hwf hx hf'c hf'r hS
          (hmem q (List.mem_cons_of_mem _ hq))
      rw [hrk, List.append_assoc]
      rfl

/-- C3 corrected: `rankings.mean(axis=1)` (line 126) skips nulls, so
`average_rank` is the mean of the player's PRESENT per-metric ranks, not of
all ten configured ones; it agrees with the all-metric mean only when every
rank is non-null.  For a table with no prior `_rank` columns, every row `r`
yields the output row `r ++ ranks ++ [mean]` with `mean` the skipna mean of
the ten fractional ranks, expressed as sum over count in the last conjunct;
ranks that are all 1 give `average_rank = 1`. -/
theorem c3_amended (f : Frame) (hwf : f.WF) (hS : "Season" ∈ f.cols)
    (hmem : ∀ p ∈ metricPairs, p.1 ∈ f.cols)
    (hnr : ∀ c ∈ f.cols, rankSuffixed c = false)
    (r : List Value) (hr : r ∈ f.rows) :
    (r ++ ranksOf f metricPairs r ++ [meanVal (ranksOf f metricPairs r)]) ∈
        (rankStage f).rows ∧
    cellOf (rankStage f).cols
        (r ++ ranksOf f metricPairs r ++ [meanVal (ranksOf f metricPairs r)])
        "average_rank" = meanVal (ranksOf f metricPairs r) ∧
    ((∀ v ∈ ranksOf f metricPairs r, v = Value.num 1) →
      meanVal (ranksOf f metricPairs r) = Value.num 1) ∧
    (∀ vs : List ℚ, (ranksOf f metricPairs r).filterMap toNum = vs →
      vs ≠ [] → meanVal (ranksOf f metricPairs r) =
        Value.num (vs.sum / (vs.length : ℚ))) := by
  have hfreshall : ∀ p ∈ metricPairs, (p.1 ++ "_rank") ∉ f.cols := by
    intro p hp hmem'
    have := hnr _ hmem'
    rw [rankSuffixed_rank] at this
    simp at this
  have hndall : (metricPairs.map (fun p => p.1 ++ "_rank")).Nodup := by decide
  have hG : addRanks f = ⟨f.cols ++ metricPairs.map (fun p => p.1 ++ "_rank"),
      f.rows.map (fun x => x ++ ranksOf f metricPairs x)⟩ := by
    rw [addRanks_eq_fold]
    exact foldl_addRankCol metricPairs f hwf hS hmem hfreshall hndall
  have hGc : (addRanks f).cols =
      f.cols ++ metricPairs.map (fun p => p.1 ++ "_rank") := by
    rw [hG]
  have hGr : (addRanks f).rows =
      f.rows.map (fun x => x ++ ranksOf f metricPairs x) := by
    rw [hG]
  have havg_not : "average_rank" ∉ (addRanks f).cols := by
    rw [hGc]
    intro hmem'
    rcases List.mem_append.mp hmem' with h | h
    · exact absurd (hnr _ h) (by decide)
    · exact absurd h (by decide)
  have hnone_avg : colIdx? (addRanks f).cols "average_rank" = none :=
    colIdx?_eq_none.mpr havg_not
  have hAc : (assignCol (addRanks f) "average_rank"
      (rankMean (addRanks f))).cols = (addRanks f).cols ++ ["average_rank"] := by
    rw [assignCol_cols, assignCols_none hnone_avg]
  have hAr : (assignCol (addRanks f) "average_rank"
      (rankMean (addRanks f))).rows = (addRanks f).rows.map
      (fun row => row ++ [rankMean (addRanks f) row]) :=
    assignCol_rows_none _ hnone_avg
  have hlenranks : (ranksOf f metricPairs r).length =
      (metricPairs.map (fun p => p.1 ++ "_rank")).length := by
    unfold ranksOf
    rw [List.length_map, List.length_map]
  have hfilF : f.cols.filter rankSuffixed = [] := by
    apply List.filter_eq_nil_iff.mpr
    intro c hc
    rw [hnr c hc]
    exact Bool.false_ne_true
  have hfilN : (metricPairs.map (fun p => p.1 ++ "_rank")).filter rankSuffixed =
      metricPairs.map (fun p => p.1 ++ "_rank") := by
    apply List.filter_eq_self.mpr
    intro n hn
    obtain ⟨p, hp, hpe⟩ := List.mem_map.mp hn
    rw [← hpe]
    exact rankSuffixed_rank p.1
  have hdisj : ∀ n ∈ metricPairs.map (fun p => p.1 ++ "_rank"), n ∉ f.cols := by
    intro n hn hmemn
    obtain ⟨p, hp, hpe⟩ := List.mem_map.mp hn
    subst hpe
    have := hnr _ hmemn
    rw [rankSuffixed_rank] at this
    simp at this
  have hmean : rankMean (addRanks f) (r ++ ranksOf f metricPairs r) =
      meanVal (ranksOf f metricPairs r) := by
    unfold rankMean meanVal
    rw [hGc, List.filter_append, hfilF, hfilN, List.nil_append,
      cellOf_fresh_names hndall hdisj (hwf r hr) hlenranks]
    cases hE : List.filterMap toNum (ranksOf f metricPairs r) with
    | nil => rfl
    | cons a l => rfl
  have hrow_in : (r ++ ranksOf f metricPairs r) ∈ (addRanks f).rows := by
    rw [hGr]
    exact List.mem_map_of_mem _ hr
  have hA_in : (r ++ ranksOf f metricPairs r ++
      [meanVal (ranksOf f metricPairs r)]) ∈
      (assignCol (addRanks f) "average_rank" (rankMean (addRanks f))).rows := by
    rw [hAr]
    have hthis : (r ++ ranksOf f metricPairs r) ++
        [rankMean (addRanks f) (r ++ ranksOf f metricPairs r)] ∈
        List.map (fun row => row ++ [rankMean (addRanks f) row])
          (addRanks f).rows :=
      List.mem_map_of_mem (fun row => row ++ [rankMean (addRanks f) row])
        hrow_in
    rwa [hmean] at hthis
  refine ⟨?_, ?_, ?_, ?_⟩
  · show _ ∈ (sortValues (assignCol (addRanks f) "average_rank"
      (rankMean (addRanks f))) [("Season", false), ("average_rank", true)]).rows
    show _ ∈ List.insertionSort _ (assignCol (addRanks f) "average_rank"
      (rankMean (addRanks f))).rows
    simp only [List.mem_insertionSort]
    exact hA_in
  · have hcolseq : (rankStage f).cols = (addRanks f).cols ++ ["average_rank"] := by
      show (assignCol (addRanks f) "average_rank"
        (rankMean (addRanks f))).cols = _
      exact hAc
    rw [hcolseq, hGc]
    refine cellOf_append_self (hGc ▸ hnone_avg) ?_
    rw [List.length_append, List.length_append, hwf r hr, hlenranks]
  · intro hall
    have hlen10 : (ranksOf f metricPairs r).length = 10 := by
      unfold ranksOf
      rw [List.length_map]
      decide
    rw [show ranksOf f metricPairs r = List.replicate 10 (Value.num 1) from by
      rw [← hlen10]
      exact List.eq_replicate_of_mem hall]
    decide
  · intro vs hvs hne
    unfold meanVal
    rw [hvs]
    cases vs with
    | nil => exact absurd rfl hne
    | cons a l =>
      show Value.num (qDiv ((a :: l).foldl qAdd (mkRat 0 1))
        (mkRat (a :: l).length 1)) = _
      congr 1
      rw [qDiv_eq, foldl_qAdd, show (mkRat 0 1 : ℚ) = 0 from by decide,
        zero_add, Rat.mkRat_eq_div]
      push_cast
      rw [div_one]

/-- C3 counterexample: player `b` of `C3f` has a null `DBPM`, so its
`DBPM_rank` is null; the code still assigns a non-null `average_rank` (the
mean of the nine present ranks), while the claim's mean over all ten
configured metrics does not exist for that row. -/
theorem c3_counterexample :
    ∃ row ∈ (rankStage C3f).rows,
      cellOf (rankStage C3f).cols row "Player" = Value.str "b" ∧
      cellOf (rankStage C3f).cols row "average_rank" ≠ Value.null ∧
      avgRankAllConfigured C3f C3rb = Value.null := by decide

/-- C3 witness: the complete row of `C3f` lands in the ranked output with
its skipna-mean `average_rank` cell. -/
theorem c3_witness :
    (C3ra ++ ranksOf C3f metricPairs C3ra ++
        [meanVal (ranksOf C3f metricPairs C3ra)]) ∈ (rankStage C3f).rows ∧
    cellOf (rankStage C3f).cols (C3ra ++ ranksOf C3f metricPairs C3ra ++
        [meanVal (ranksOf C3f metricPairs C3ra)]) "average_rank" =
      meanVal (ranksOf C3f metricPairs C3ra) ∧
    ((∀ v ∈ ranksOf C3f metricPairs C3ra, v = Value.num 1) →
      meanVal (ranksOf C3f metricPairs C3ra) = Value.num 1) ∧
    (∀ vs : List ℚ, (ranksOf C3f metricPairs C3ra).filterMap toNum = vs →
      vs ≠ [] → meanVal (ranksOf C3f metricPairs C3ra) =
        Value.num (vs.sum / (vs.length : ℚ))) :=
  c3_amended C3f (by decide) (by decide) (by decide) (by decide) C3ra
    (by decide)

/-! ### C8: order theory of the `sort_values` comparator -/

theorem bfalse {b : Bool} (h : ¬ b = true) : b = false := by
  cases b with
  | false => rfl
  | true => exact absurd rfl h

theorem charLtB_irrefl (x : List Char) : charLtB x x = false := by
  induction x with
  | nil => rfl
  | cons a as ih =>
    unfold charLtB
    rw [if_neg (by omega), if_neg (by omega)]
    exact ih

theorem charLtB_asymm {x y : List Char} (h : charLtB x y = true) :
    charLtB y x = false := by
  induction x generalizing y with
  | nil =>
    cases y with
    | nil => simp [charLtB] at h
    | cons b bs => simp [charLtB]
  | cons a as ih =>
    cases y with
    | nil => simp [charLtB] at h
    | cons b bs =>
      unfold charLtB at h ⊢
      by_cases hab : a.toNat < b.toNat
      · rw [if_pos hab] at h
        rw [if_neg (by omega), if_pos hab]
      · rw [if_neg hab] at h
        by_cases hba : b.toNat < a.toNat
        · rw [if_pos hba] at h
          exact absurd h (by simp)
        · rw [if_neg hba] at h
          rw [if_neg hba, if_neg hab]
          exact ih h

theorem charLtB_eq_of_not {x y : List Char} (h1 : charLtB x y = false)
    (h2 : charLtB y x = false) : x = y := by
  induction x generalizing y with
  | nil =>
    cases y with
    | nil => rfl
    | cons b bs => simp [charLtB] at h1
  | cons a as ih =>
    cases y with
    | nil => simp [charLtB] at h2
    | cons b bs =>
      unfold charLtB at h1 h2
      by_cases hab : a.toNat < b.toNat
      · rw [if_pos hab] at h1
        exact absurd h1 (by simp)
      · by_cases hba : b.toNat < a.toNat
        · rw [if_pos hba] at h2
          exact absurd h2 (by simp)
        · rw [if_neg hab, if_neg hba] at h1
          have hn : a.toNat = b.toNat := by omega
          have hchar : a = b := Char.eq_of_val_eq (UInt32.toNat.inj hn)
          rw [if_neg hba, if_neg hab] at h2
          rw [hchar, ih h1 h2]

theorem charLtB_trans {x y z : List Char} (h1 : charLtB x y = true)
    (h2 : charLtB y z = true) : charLtB x z = true := by
  induction x generalizing y z with
  | nil =>
    cases z with
    | nil => cases y <;> simp [charLtB] at h2
    | cons c cs => simp [charLtB]
  | cons a as ih =>
    cases y with
    | nil => simp [charLtB] at h1
    | cons b bs =>
      cases z with
      | nil => simp [charLtB] at h2
      | cons c cs =>
        unfold charLtB at h1 h2 ⊢
        by_cases hab : a.toNat < b.toNat
        · by_cases hbc : b.toNat < c.toNat
          · rw [if_pos (by omega)]
          · rw [if_neg hbc] at h2
            by_cases hcb : c.toNat < b.toNat
            · rw [if_pos hcb] at h2
              exact absurd h2 (by simp)
            · rw [if_pos (by omega)]
        · rw [if_neg hab] at h1
          by_cases hba : b.toNat < a.toNat
          · rw [if_pos hba] at h1
            exact absurd h1 (by simp)
          · rw [if_neg hba] at h1
            by_cases hbc : b.toNat < c.toNat
            · rw [if_pos (by omega)]
            · rw [if_neg hbc] at h2
              by_cases hcb : c.toNat < b.toNat
              · rw [if_pos hcb] at h2
                exact absurd h2 (by simp)
              · rw [if_neg hcb] at h2
                rw [if_neg (by omega), if_neg (by omega)]
                exact ih h1 h2

theorem string_data_inj {s t : String} (h : s.data = t.data) : s = t := by
  cases s with
  | mk sd =>
    cases t with
    | mk td => exact congrArg String.mk h

theorem qLtB_not_true {a b : ℚ} (h : ¬ qLtB a b = true) : ¬ a < b :=
  fun hl => h ((qLtB_iff a b).mpr hl)

theorem qLtB_self (a : ℚ) : ¬ qLtB a a = true :=
  fun h => lt_irrefl a ((qLtB_iff a a).mp h)

theorem cmpCell_eq_iff (a b : Value) : cmpCell a b = Ordering.eq ↔ a = b := by
  cases a with
  | null => cases b <;> simp [cmpCell]
  | str s =>
    cases b with
    | null => simp [cmpCell]
    | num q => simp [cmpCell]
    | str t =>
      show (if charLtB s.data t.data then Ordering.lt
        else if charLtB t.data s.data then Ordering.gt else Ordering.eq) =
          Ordering.eq ↔ _
      constructor
      · intro h
        by_cases h1 : charLtB s.data t.data = true
        · rw [if_pos h1] at h
          exact absurd h (by decide)
        · rw [if_neg h1] at h
          by_cases h2 : charLtB t.data s.data = true
          · rw [if_pos h2] at h
            exact absurd h (by decide)
          · rw [string_data_inj (charLtB_eq_of_not (bfalse h1) (bfalse h2))]
      · intro h
        injection h with he
        subst he
        rw [if_neg (by rw [charLtB_irrefl]; simp),
          if_neg (by rw [charLtB_irrefl]; simp)]
  | num q =>
    cases b with
    | null => simp [cmpCell]
    | str t => simp [cmpCell]
    | num p =>
      show (if qLtB q p then Ordering.lt
        else if qLtB p q then Ordering.gt else Ordering.eq) =
          Ordering.eq ↔ _
      constructor
      · intro h
        by_cases h1 : qLtB q p = true
        · rw [if_pos h1] at h
          exact absurd h (by decide)
        · rw [if_neg h1] at h
          by_cases h2 : qLtB p q = true
          · rw [if_pos h2] at h
            exact absurd h (by decide)
          · rw [le_antisymm (not_lt.mp (qLtB_not_true h1))
              (not_lt.mp (qLtB_not_true h2))]
      · intro h
        injection h with he
        subst he
        rw [if_neg (qLtB_self q), if_neg (qLtB_self q)]

theorem cmpCell_swap (a b : Value) : cmpCell b a = (cmpCell a b).swap := by
  cases a with
  | null => cases b <;> rfl
  | str s =>
    cases b with
    | null => rfl
    | num q => rfl
    | str t =>
      show (if charLtB t.data s.data then Ordering.lt
        else if charLtB s.data t.data then Ordering.gt else Ordering.eq) =
        (if charLtB s.data t.data then Ordering.lt
          else if charLtB t.data s.data then Ordering.gt else
            Ordering.eq).swap
      by_cases h1 : charLtB s.data t.data = true
      · rw [if_pos h1, if_neg (by rw [charLtB_asymm h1]; simp), if_pos h1]
        rfl
      · rw [if_neg h1, if_neg h1]
        by_cases h2 : charLtB t.data s.data = true
        · rw [if_pos h2, if_pos h2]
          rfl
        · rw [if_neg h2, if_neg h2]
          rfl
  | num q =>
    cases b with
    | null => rfl
    | str t => rfl
    | num p =>
      show (if qLtB p q then Ordering.lt
        else if qLtB q p then Ordering.gt else Ordering.eq) =
        (if qLtB q p then Ordering.lt
          else if qLtB p q then Ordering.gt else Ordering.eq).swap
      by_cases h1 : qLtB q p = true
      · have h2 : ¬ qLtB p q = true :=
          fun hl => lt_asymm ((qLtB_iff q p).mp h1) ((qLtB_iff p q).mp hl)
        rw [if_neg h2, if_pos h1, if_pos h1]
        rfl
      · rw [if_neg h1, if_neg h1]
        by_cases h2 : qLtB p q = true
        · rw [if_pos h2, if_pos h2]
          rfl
        · rw [if_neg h2, if_neg h2]
          rfl

theorem cmpCell_lt_trans {a b c : Value} (h1 : cmpCell a b = Ordering.lt)
    (h2 : cmpCell b c = Ordering.lt) : cmpCell a c = Ordering.lt := by
  cases a with
  | null =>
    cases b with
    | null => exact absurd h1 (by decide)
    | str s =>
      exact absurd h1 (by simp [cmpCell])
    | num q =>
      exact absurd h1 (by simp [cmpCell])
  | str s =>
    cases b with
    | null => cases c <;> simp [cmpCell] at h2
    | num q => exact absurd h1 (by simp [cmpCell])
    | str t =>
      cases c with
      | null => rfl
      | num p => simp [cmpCell] at h2
      | str u =>
        show (if charLtB s.data u.data then Ordering.lt
          else if charLtB u.data s.data then Ordering.gt else Ordering.eq) =
            Ordering.lt
        have g1 : charLtB s.data t.data = true := by
          by_contra hq
          rw [show cmpCell (Value.str s) (Value.str t) =
            (if charLtB s.data t.data then Ordering.lt
              else if charLtB t.data s.data then Ordering.gt else Ordering.eq)
            from rfl, if_neg hq] at h1
          by_cases h2q : charLtB t.data s.data = true
          · rw [if_pos h2q] at h1
            exact absurd h1 (by decide)
          · rw [if_neg h2q] at h1
            exact absurd h1 (by decide)
        have g2 : charLtB t.data u.data = true := by
          by_contra hq
          rw [show cmpCell (Value.str t) (Value.str u) =
            (if charLtB t.data u.data then Ordering.lt
              else if charLtB u.data t.data then Ordering.gt else Ordering.eq)
            from rfl, if_neg hq] at h2
          by_cases h2q : charLtB u.data t.data = true
          · rw [if_pos h2q] at h2
            exact absurd h2 (by decide)
          · rw [if_neg h2q] at h2
            exact absurd h2 (by decide)
        rw [if_pos (charLtB_trans g1 g2)]
  | num q =>
    cases b with
    | null => cases c <;> simp [cmpCell] at h2
    | str t =>
      cases c with
      | null => rfl
      | num p => simp [cmpCell] at h2
      | str u => rfl
    | num p =>
      cases c with
      | null => rfl
      | str u => rfl
      | num w =>
        show (if qLtB q w then Ordering.lt
          else if qLtB w q then Ordering.gt else Ordering.eq) = Ordering.lt
        have g1 : qLtB q p = true := by
          by_contra hq
          rw [show cmpCell (Value.num q) (Value.num p) =
            (if qLtB q p then Ordering.lt
              else if qLtB p q then Ordering.gt else Ordering.eq) from rfl,
            if_neg hq] at h1
          by_cases h2q : qLtB p q = true
          · rw [if_pos h2q] at h1
            exact absurd h1 (by decide)
          · rw [if_neg h2q] at h1
            exact absurd h1 (by decide)
        have g2 : qLtB p w = true := by
          by_contra hq
          rw [show cmpCell (Value.num p) (Value.num w) =
            (if qLtB p w then Ordering.lt
              else if qLtB w p then Ordering.gt else Ordering.eq) from rfl,
            if_neg hq] at h2
          by_cases h2q : qLtB w p = true
          · rw [if_pos h2q] at h2
            exact absurd h2 (by decide)
          · rw [if_neg h2q] at h2
            exact absurd h2 (by decide)
        rw [if_pos ((qLtB_iff q w).mpr
          (lt_trans ((qLtB_iff q p).mp g1) ((qLtB_iff p w).mp g2)))]

theorem swap_eq_lt {o : Ordering} : o.swap = Ordering.lt ↔ o = Ordering.gt := by
  cases o <;> simp [Ordering.swap]

theorem swap_eq_eq {o : Ordering} : o.swap = Ordering.eq ↔ o = Ordering.eq := by
  cases o <;> simp [Ordering.swap]

theorem cmpKey_eq_iff (asc : Bool) (a b : Value) :
    cmpKey asc a b = Ordering.eq ↔ a = b := by
  cases a with
  | null =>
    cases b with
    | null => simp [cmpKey]
    | str s => simp [cmpKey]
    | num q => simp [cmpKey]
  | str s =>
    cases b with
    | null => simp [cmpKey]
    | str t =>
      show (if asc then cmpCell (Value.str s) (Value.str t)
        else (cmpCell (Value.str s) (Value.str t)).swap) = Ordering.eq ↔ _
      cases asc with
      | true => rw [if_pos rfl]; exact cmpCell_eq_iff _ _
      | false => rw [if_neg (by simp), swap_eq_eq]; exact cmpCell_eq_iff _ _
    | num q =>
      show (if asc then cmpCell (Value.str s) (Value.num q)
        else (cmpCell (Value.str s) (Value.num q)).swap) = Ordering.eq ↔ _
      cases asc with
      | true => rw [if_pos rfl]; exact cmpCell_eq_iff _ _
      | false => rw [if_neg (by simp), swap_eq_eq]; exact cmpCell_eq_iff _ _
  | num q =>
    cases b with
    | null => simp [cmpKey]
    | str t =>
      show (if asc then cmpCell (Value.num q) (Value.str t)
        else (cmpCell (Value.num q) (Value.str t)).swap) = Ordering.eq ↔ _
      cases asc with
      | true => rw [if_pos rfl]; exact cmpCell_eq_iff _ _
      | false => rw [if_neg (by simp), swap_eq_eq]; exact cmpCell_eq_iff _ _
    | num p =>
      show (if asc then cmpCell (Value.num q) (Value.num p)
        else (cmpCell (Value.num q) (Value.num p)).swap) = Ordering.eq ↔ _
      cases asc with
      | true => rw [if_pos rfl]; exact cmpCell_eq_iff _ _
      | false => rw [if_neg (by simp), swap_eq_eq]; exact cmpCell_eq_iff _ _

theorem cmpKey_self (asc : Bool) (a : Value) : cmpKey asc a a = Ordering.eq :=
  (cmpKey_eq_iff asc a a).mpr rfl

theorem cmpKey_lt_trans (asc : Bool) {a b c : Value}
    (h1 : cmpKey asc a b = Ordering.lt) (h2 : cmpKey asc b c = Ordering.lt) :
    cmpKey asc a c = Ordering.lt := by
  cases b with
  | null =>
    exfalso
    cases c with
    | null => exact absurd h2 (by simp [cmpKey])
    | str s => exact absurd h2 (by simp [cmpKey])
    | num q => exact absurd h2 (by simp [cmpKey])
  | str t =>
    cases a with
    | null => exact absurd h1 (by simp [cmpKey])
    | str s =>
      have g1 : (if asc then cmpCell (Value.str s) (Value.str t)
          else (cmpCell (Value.str s) (Value.str t)).swap) =
          Ordering.lt := h1
      cases c with
      | null => simp [cmpKey]
      | str u =>
        have g2 : (if asc then cmpCell (Value.str t) (Value.str u)
            else (cmpCell (Value.str t) (Value.str u)).swap) =
            Ordering.lt := h2
        show (if asc then cmpCell (Value.str s) (Value.str u)
          else (cmpCell (Value.str s) (Value.str u)).swap) = Ordering.lt
        cases asc with
        | true =>
          rw [if_pos rfl] at g1 g2 ⊢
          exact cmpCell_lt_trans g1 g2
        | false =>
          rw [if_neg (by simp), swap_eq_lt] at g1 g2 ⊢
          have k1 : cmpCell (Value.str t) (Value.str s) = Ordering.lt := by
            rw [cmpCell_swap, g1]
            rfl
          have k2 : cmpCell (Value.str u) (Value.str t) = Ordering.lt := by
            rw [cmpCell_swap, g2]
            rfl
          rw [cmpCell_swap (Value.str u) (Value.str s),
            cmpCell_lt_trans k2 k1]
          rfl
      | num p =>
        have g2 : (if asc then cmpCell (Value.str t) (Value.num p)
            else (cmpCell (Value.str t) (Value.num p)).swap) =
            Ordering.lt := h2
        cases asc with
        | true =>
          rw [if_pos rfl] at g2
          exact absurd g2 (by simp [cmpCell])
        | false =>
          show (cmpCell (Value.str s) (Value.num p)).swap = Ordering.lt
          rw [swap_eq_lt]
          rfl
    | num q =>
      cases c with
      | null => simp [cmpKey]
      | str u =>
        cases asc with
        | true =>
          show cmpCell (Value.num q) (Value.str u) = Ordering.lt
          rfl
        | false =>
          exfalso
          have g1 : (cmpCell (Value.num q) (Value.str t)).swap =
              Ordering.lt := h1
          rw [swap_eq_lt] at g1
          exact absurd g1 (by simp [cmpCell])
      | num p =>
        cases asc with
        | true =>
          exfalso
          have g2 : cmpCell (Value.str t) (Value.num p) = Ordering.lt := h2
          exact absurd g2 (by simp [cmpCell])
        | false =>
          exfalso
          have g1 : (cmpCell (Value.num q) (Value.str t)).swap =
              Ordering.lt := h1
          rw [swap_eq_lt] at g1
          exact absurd g1 (by simp [cmpCell])
  | num p =>
    cases a with
    | null => exact absurd h1 (by simp [cmpKey])
    | str s =>
      cases asc with
      | true =>
        exfalso
        have g1 : cmpCell (Value.str s) (Value.num p) = Ordering.lt := h1
        exact absurd g1 (by simp [cmpCell])
      | false =>
        cases c with
        | null => simp [cmpKey]
        | str u =>
          exfalso
          have g2 : (cmpCell (Value.num p) (Value.str u)).swap =
              Ordering.lt := h2
          rw [swap_eq_lt] at g2
          exact absurd g2 (by simp [cmpCell])
        | num w =>
          show (cmpCell (Value.str s) (Value.num w)).swap = Ordering.lt
          rw [swap_eq_lt]
          rfl
    | num q =>
      cases c with
      | null => simp [cmpKey]
      | str u =>
        cases asc with
        | true =>
          show cmpCell (Value.num q) (Value.str u) = Ordering.lt
          rfl
        | false =>
          exfalso
          have g2 : (cmpCell (Value.num p) (Value.str u)).swap =
              Ordering.lt := h2
          rw [swap_eq_lt] at g2
          exact absurd g2 (by simp [cmpCell])
      | num w =>
        have g1 : (if asc then cmpCell (Value.num q) (Value.num p)
            else (cmpCell (Value.num q) (Value.num p)).swap) =
            Ordering.lt := h1
        have g2 : (if asc then cmpCell (Value.num p) (Value.num w)
            else (cmpCell (Value.num p) (Value.num w)).swap) =
            Ordering.lt := h2
        show (if asc then cmpCell (Value.num q) (Value.num w)
          else (cmpCell (Value.num q) (Value.num w)).swap) = Ordering.lt
        cases asc with
        | true =>
          rw [if_pos rfl] at g1 g2 ⊢
          exact cmpCell_lt_trans g1 g2
        | false =>
          rw [if_neg (by simp), swap_eq_lt] at g1 g2 ⊢
          have k1 : cmpCell (Value.num p) (Value.num q) = Ordering.lt := by
            rw [cmpCell_swap, g1]
            rfl
          have k2 : cmpCell (Value.num w) (Value.num p) = Ordering.lt := by
            rw [cmpCell_swap, g2]
            rfl
          rw [cmpCell_swap (Value.num w) (Value.num q),
            cmpCell_lt_trans k2 k1]
          rfl

theorem cmpKey_swap (asc : Bool) (a b : Value) :
    cmpKey asc b a = (cmpKey asc a b).swap := by
  cases a with
  | null =>
    cases b with
    | null => rfl
    | str s => rfl
    | num q => rfl
  | str s =>
    cases b with
    | null => rfl
    | str t =>
      show (if asc then cmpCell (Value.str t) (Value.str s)
        else (cmpCell (Value.str t) (Value.str s)).swap) =
        (if asc then cmpCell (Value.str s) (Value.str t)
          else (cmpCell (Value.str s) (Value.str t)).swap).swap
      cases asc with
      | true =>
        rw [if_pos rfl, if_pos rfl, cmpCell_swap]
      | false =>
        rw [if_neg (by simp), if_neg (by simp), cmpCell_swap]
    | num q =>
      show (if asc then cmpCell (Value.num q) (Value.str s)
        else (cmpCell (Value.num q) (Value.str s)).swap) =
        (if asc then cmpCell (Value.str s) (Value.num q)
          else (cmpCell (Value.str s) (Value.num q)).swap).swap
      cases asc with
      | true => rw [if_pos rfl, if_pos rfl, cmpCell_swap]
      | false =>
        rw [if_neg (by simp), if_neg (by simp), cmpCell_swap]
  | num q =>
    cases b with
    | null => rfl
    | str t =>
      show (if asc then cmpCell (Value.str t) (Value.num q)
        else (cmpCell (Value.str t) (Value.num q)).swap) =
        (if asc then cmpCell (Value.num q) (Value.str t)
          else (cmpCell (Value.num q) (Value.str t)).swap).swap
      cases asc with
      | true => rw [if_pos rfl, if_pos rfl, cmpCell_swap]
      | false =>
        rw [if_neg (by simp), if_neg (by simp), cmpCell_swap]
    | num p =>
      show (if asc then cmpCell (Value.num p) (Value.num q)
        else (cmpCell (Value.num p) (Value.num q)).swap) =
        (if asc then cmpCell (Value.num q) (Value.num p)
          else (cmpCell (Value.num q) (Value.num p)).swap).swap
      cases asc with
      | true => rw [if_pos rfl, if_pos rfl, cmpCell_swap]
      | false =>
        rw [if_neg (by simp), if_neg (by simp), cmpCell_swap]

theorem cmpRow_swap (cols : List String) (ks : List (String × Bool))
    (r1 r2 : List Value) :
    cmpRow cols ks r2 r1 = (cmpRow cols ks r1 r2).swap := by
  induction ks with
  | nil => rfl
  | cons k rest ih =>
    obtain ⟨c, asc⟩ := k
    show (match cmpKey asc (cellOf cols r2 c) (cellOf cols r1 c) with
      | Ordering.eq => cmpRow cols rest r2 r1
      | o => o) =
      (match cmpKey asc (cellOf cols r1 c) (cellOf cols r2 c) with
        | Ordering.eq => cmpRow cols rest r1 r2
        | o => o).swap
    rw [cmpKey_swap]
    cases h : cmpKey asc (cellOf cols r1 c) (cellOf cols r2 c) with
    | eq => exact ih
    | lt => rfl
    | gt => rfl

theorem cmpRow_le_trans {cols : List String} {ks : List (String × Bool)}
    {a b c : List Value} (h1 : cmpRow cols ks a b ≠ Ordering.gt)
    (h2 : cmpRow cols ks b c ≠ Ordering.gt) :
    cmpRow cols ks a c ≠ Ordering.gt := by
  induction ks with
  | nil => simp [cmpRow]
  | cons k rest ih =>
    obtain ⟨col, asc⟩ := k
    show (match cmpKey asc (cellOf cols a col) (cellOf cols c col) with
      | Ordering.eq => cmpRow cols rest a c
      | o => o) ≠ Ordering.gt
    have g1 : (match cmpKey asc (cellOf cols a col) (cellOf cols b col) with
      | Ordering.eq => cmpRow cols rest a b
      | o => o) ≠ Ordering.gt := h1
    have g2 : (match cmpKey asc (cellOf cols b col) (cellOf cols c col) with
      | Ordering.eq => cmpRow cols rest b c
      | o => o) ≠ Ordering.gt := h2
    cases hab : cmpKey asc (cellOf cols a col) (cellOf cols b col) with
    | gt =>
      rw [hab] at g1
      exact absurd rfl g1
    | lt =>
      cases hbc : cmpKey asc (cellOf cols b col) (cellOf cols c col) with
      | gt =>
        rw [hbc] at g2
        exact absurd rfl g2
      | lt =>
        rw [cmpKey_lt_trans asc hab hbc]
        show Ordering.lt ≠ Ordering.gt
        decide
      | eq =>
        have hbceq : cellOf cols b col = cellOf cols c col :=
          (cmpKey_eq_iff asc _ _).mp hbc
        rw [← hbceq, hab]
        show Ordering.lt ≠ Ordering.gt
        decide
    | eq =>
      rw [hab] at g1
      have habq : cellOf cols a col = cellOf cols b col :=
        (cmpKey_eq_iff asc _ _).mp hab
      cases hbc : cmpKey asc (cellOf cols b col) (cellOf cols c col) with
      | gt =>
        rw [hbc] at g2
        exact absurd rfl g2
      | lt =>
        rw [habq, hbc]
        show Ordering.lt ≠ Ordering.gt
        decide
      | eq =>
        rw [hbc] at g2
        rw [habq, hbc]
        exact ih g1 g2

theorem rowLe_trans {cols : List String} {ks : List (String × Bool)} :
    ∀ a b c : List Value, rowLe cols ks a b → rowLe cols ks b c →
      rowLe cols ks a c :=
  fun _ _ _ h1 h2 => cmpRow_le_trans h1 h2

theorem rowLe_total {cols : List String} {ks : List (String × Bool)} :
    ∀ a b : List Value, rowLe cols ks a b ∨ rowLe cols ks b a := by
  intro a b
  unfold rowLe
  cases h : cmpRow cols ks a b with
  | gt =>
    right
    rw [cmpRow_swap, h]
    decide
  | lt =>
    left
    decide
  | eq =>
    left
    decide

theorem pairLe_refl (e : List Value) : pairLe e e := by
  unfold pairLe pairCmp
  cases e with
  | nil =>
    show Ordering.eq ≠ Ordering.gt
    decide
  | cons s rest =>
    cases rest with
    | nil =>
      show Ordering.eq ≠ Ordering.gt
      decide
    | cons a rest2 =>
      cases rest2 with
      | nil =>
        show (match cmpKey false s s with
          | Ordering.eq => cmpKey true a a
          | o => o) ≠ Ordering.gt
        rw [cmpKey_self, cmpKey_self]
        decide
      | cons x rest3 =>
        show Ordering.eq ≠ Ordering.gt
        decide

theorem rowLe_iff_pairLe {cols : List String} {r1 r2 : List Value} :
    rowLe cols [("Season", false), ("average_rank", true)] r1 r2 ↔
    pairLe [cellOf cols r1 "Season", cellOf cols r1 "average_rank"]
      [cellOf cols r2 "Season", cellOf cols r2 "average_rank"] := by
  unfold rowLe pairLe
  have he : cmpRow cols [("Season", false), ("average_rank", true)] r1 r2 =
      pairCmp [cellOf cols r1 "Season", cellOf cols r1 "average_rank"]
        [cellOf cols r2 "Season", cellOf cols r2 "average_rank"] := by
    show (match cmpKey false (cellOf cols r1 "Season")
        (cellOf cols r2 "Season") with
      | Ordering.eq =>
        (match cmpKey true (cellOf cols r1 "average_rank")
            (cellOf cols r2 "average_rank") with
          | Ordering.eq => Ordering.eq
          | o => o)
      | o => o) =
      (match cmpKey false (cellOf cols r1 "Season")
          (cellOf cols r2 "Season") with
        | Ordering.eq => cmpKey true (cellOf cols r1 "average_rank")
            (cellOf cols r2 "average_rank")
        | o => o)
    cases cmpKey false (cellOf cols r1 "Season") (cellOf cols r2 "Season") with
    | eq =>
      cases cmpKey true (cellOf cols r1 "average_rank")
          (cellOf cols r2 "average_rank") with
      | eq => rfl
      | lt => rfl
      | gt => rfl
    | lt => rfl
    | gt => rfl
  rw [he]

theorem sorted_rankStage (f : Frame) :
    (rankStage f).rows.Pairwise
      (rowLe (rankStage f).cols [("Season", false), ("average_rank", true)]) := by
  haveI : IsTrans (List Value)
      (rowLe (rankStage f).cols [("Season", false), ("average_rank", true)]) :=
    ⟨rowLe_trans⟩
  haveI : IsTotal (List Value)
      (rowLe (rankStage f).cols [("Season", false), ("average_rank", true)]) :=
    ⟨rowLe_total⟩
  exact List.sorted_insertionSort _ _

theorem pairwise_keyList_of_sorted {f : Frame}
    (h : f.rows.Pairwise
      (rowLe f.cols [("Season", false), ("average_rank", true)])) :
    (keyList ["Season", "average_rank"] f).Pairwise pairLe := by
  unfold keyList
  rw [List.pairwise_map]
  refine h.imp ?_
  intro a b hab
  show pairLe [cellOf f.cols a "Season", cellOf f.cols a "average_rank"]
    [cellOf f.cols b "Season", cellOf f.cols b "average_rank"]
  exact rowLe_iff_pairLe.mp hab

theorem trackSafe_SA {r : Frame} {keys : List String}
    (hS : "Season" ∈ keys ∨ "Season" ∉ r.cols)
    (hA : "average_rank" ∈ keys ∨ "average_rank" ∉ r.cols) :
    trackSafe ["Season", "average_rank"] r keys := by
  intro k hk
  simp only [List.mem_cons, List.mem_singleton] at hk
  rcases hk with rfl | rfl | h
  · exact ⟨sufSafe_Season, hS⟩
  · exact ⟨sufSafe_avg, hA⟩
  · simp at h

/-- C8: after the `sort_values(by=['Season', 'average_rank'],
ascending=[False, True])` of line 128 the accumulating table is ordered by
season descending then composite rank ascending, and every later stage
(left and inner merges, the drop, the zero fill, and the replacement) keeps
the rows in that order, so the `(Season, average_rank)` key tuples of the
final output are sorted: season descending, then `average_rank` ascending
with nulls last.  The side conditions say the later right-hand tables do
not collide with the `Season`/`average_rank` columns and no tracked cell is
a position code. -/
theorem c8_sorted (dd bo d2 d3 hs dv td ta pa pl cm ws ro roF : Frame)
    (hwf : dd.WF)
    (h_ro : rostersStage ro = Except.ok roF)
    (h_tdA : "average_rank" ∉ (teamsDataStage td).cols)
    (h_taA : "average_rank" ∉ (teamsAdvStage ta).cols)
    (h_cmA : "average_rank" ∉ (cmP cm).cols)
    (h_wsA : "average_rank" ∉ (wsP ws).cols)
    (h_wsS : "Season" ∉ (wsP ws).cols)
    (h_rep : ∀ e ∈ keyList ["Season", "average_rank"]
      (rankStage (mergeStage dd bo d2 d3 hs dv)),
      e.map (replVal replacements) = e) :
    ∀ final, pipeline dd bo d2 d3 hs dv td ta pa pl cm ws ro =
      Except.ok final →
      (keyList ["Season", "average_rank"] final).Pairwise pairLe := by
  intro final hfin
  have hpipe : pipeline dd bo d2 d3 hs dv td ta pa pl cm ws ro =
      Except.ok (finalStage
        (teamMergeStage (rankStage (mergeStage dd bo d2 d3 hs dv)) td ta pa)
        roF pl cm ws) := by
    unfold pipeline
    rw [h_ro]
  rw [hpipe] at hfin
  have hfe : final = finalStage
      (teamMergeStage (rankStage (mergeStage dd bo d2 d3 hs dv)) td ta pa)
      roF pl cm ws := ((Except.ok.injEq _ _).mp hfin).symm
  subst hfe
  set rk := rankStage (mergeStage dd bo d2 d3 hs dv) with hrk
  have wRank : rk.WF := wf_rankStage (wf_mergeStage bo d2 d3 hs dv hwf)
  have K0 : (keyList ["Season", "average_rank"] rk).Pairwise pairLe :=
    pairwise_keyList_of_sorted (sorted_rankStage _)
  -- team merges (lines 185-193)
  have KA : (keyList ["Season", "average_rank"] (tmA rk td)).Pairwise pairLe :=
    pairwise_keyList_mergeOn
      (trackSafe_SA (Or.inl (by decide)) (Or.inr h_tdA)) wRank pairLe_refl K0
  have wA : (tmA rk td).WF := mergeOn_WF _ _ _ wRank
  have KB : (keyList ["Season", "average_rank"] (tmB rk td ta)).Pairwise
      pairLe :=
    pairwise_keyList_mergeOn
      (trackSafe_SA (Or.inl (by decide)) (Or.inr h_taA)) wA pairLe_refl KA
  have wB : (tmB rk td ta).WF := mergeOn_WF _ _ _ wA
  have eC : keyList ["Season", "average_rank"] (tmC rk td ta) =
      keyList ["Season", "average_rank"] (tmB rk td ta) :=
    keyList_dropCols (by decide) wB
  have KC : (keyList ["Season", "average_rank"] (tmC rk td ta)).Pairwise
      pairLe := by
    rw [eC]
    exact KB
  have wC : (tmC rk td ta).WF := dropCols_WF _ wB
  have hpaA : "average_rank" ∉ (paSel pa).cols := by
    rw [show (paSel pa).cols =
      ["Player", "Season", "STL", "BLK", "DWS", "DBPM", "DRtg"] from rfl]
    decide
  have KD : (keyList ["Season", "average_rank"] (tmD rk td ta pa)).Pairwise
      pairLe :=
    pairwise_keyList_mergeOn
      (trackSafe_SA (Or.inl (by decide)) (Or.inr hpaA)) wC pairLe_refl KC
  have wD : (tmD rk td ta pa).WF := mergeOn_WF _ _ _ wC
  -- the zero fill (line 196)
  have eF : keyList ["Season", "average_rank"] (teamMergeStage rk td ta pa) =
      keyList ["Season", "average_rank"] (tmD rk td ta pa) :=
    keyList_fillnaCols (by decide) wD
  set tm := teamMergeStage rk td ta pa with htm
  have KF : (keyList ["Season", "average_rank"] tm).Pairwise pairLe := by
    rw [htm, eF]
    exact KD
  have wF : tm.WF := fillnaCols_WF _ wD
  -- inner merges with roster and player tables (lines 247-250)
  have hroA : "average_rank" ∉ (roSel roF).cols := by
    rw [show (roSel roF).cols = ["Season", "Player", "Height", "Weight"]
      from rfl]
    decide
  have KfsA : (keyList ["Season", "average_rank"] (fsA tm roF)).Pairwise
      pairLe :=
    pairwise_keyList_mergeOn
      (trackSafe_SA (Or.inl (by decide)) (Or.inr hroA)) wF pairLe_refl KF
  have wfA : (fsA tm roF).WF := mergeOn_WF _ _ _ wF
  have hplA : "average_rank" ∉ (plSel pl).cols := by
    rw [show (plSel pl).cols = ["Player", "Season", "DRB", "MP"] from rfl]
    decide
  have KfsB : (keyList ["Season", "average_rank"] (fsB tm roF pl)).Pairwise
      pairLe :=
    pairwise_keyList_mergeOn
      (trackSafe_SA (Or.inl (by decide)) (Or.inr hplA)) wfA pairLe_refl KfsA
  have wfB : (fsB tm roF pl).WF := mergeOn_WF _ _ _ wfA
  -- the replacement dictionary (lines 253-256)
  have hmemchain : ∀ e ∈ keyList ["Season", "average_rank"] (fsB tm roF pl),
      e ∈ keyList ["Season", "average_rank"] rk := by
    intro e he
    have h1 : e ∈ keyList ["Season", "average_rank"] (fsA tm roF) :=
      keyList_mergeOn_mem
        (trackSafe_SA (Or.inl (by decide)) (Or.inr hplA)) wfA e he
    have h2 : e ∈ keyList ["Season", "average_rank"] tm :=
      keyList_mergeOn_mem
        (trackSafe_SA (Or.inl (by decide)) (Or.inr hroA)) wF e h1
    rw [htm, eF] at h2
    have h3 : e ∈ keyList ["Season", "average_rank"] (tmC rk td ta) :=
      keyList_mergeOn_mem
        (trackSafe_SA (Or.inl (by decide)) (Or.inr hpaA)) wC e h2
    rw [eC] at h3
    have h4 : e ∈ keyList ["Season", "average_rank"] (tmA rk td) :=
      keyList_mergeOn_mem
        (trackSafe_SA (Or.inl (by decide)) (Or.inr h_taA)) wA e h3
    exact keyList_mergeOn_mem
      (trackSafe_SA (Or.inl (by decide)) (Or.inr h_tdA)) wRank e h4
  have eRep : keyList ["Season", "average_rank"] (fsC tm roF pl) =
      keyList ["Season", "average_rank"] (fsB tm roF pl) := by
    unfold fsC
    rw [keyList_replaceAll]
    conv_rhs => rw [← List.map_id (keyList ["Season", "average_rank"]
      (fsB tm roF pl))]
    apply List.map_congr_left
    intro e he
    exact h_rep e (hmemchain e he)
  have KfsC : (keyList ["Season", "average_rank"] (fsC tm roF pl)).Pairwise
      pairLe := by
    rw [eRep]
    exact KfsB
  have wfC : (fsC tm roF pl).WF := replaceAll_WF _ wfB
  -- the player-keyed left merges (lines 410-411)
  have hcmS : "Season" ∉ (cmP cm).cols := dropCols_not_mem (by decide)
  have KfsD : (keyList ["Season", "average_rank"] (fsD tm roF pl cm)).Pairwise
      pairLe :=
    pairwise_keyList_mergeOn
      (trackSafe_SA (Or.inr hcmS) (Or.inr h_cmA)) wfC pairLe_refl KfsC
  have wfD : (fsD tm roF pl cm).WF := mergeOn_WF _ _ _ wfC
  exact pairwise_keyList_mergeOn
    (trackSafe_SA (Or.inr h_wsS) (Or.inr h_wsA)) wfD pairLe_refl KfsD

/-- C8 witness: at the concrete tables the pipeline completes and the final
`(Season, average_rank)` tuples are in sorted order. -/
theorem c8_witness :
    (match pipeline Tdd Tbo Td2 Td3 Ths Tdv Ttd Tta Tpa Tpl Tcm Tws Tro with
     | Except.ok f => (keyList ["Season", "average_rank"] f).Pairwise pairLe
     | Except.error _ => False) := by
  cases hp : pipeline Tdd Tbo Td2 Td3 Ths Tdv Ttd Tta Tpa Tpl Tcm Tws Tro with
  | error e =>
    have hok : (match pipeline Tdd Tbo Td2 Td3 Ths Tdv Ttd Tta Tpa Tpl Tcm Tws
        Tro with
      | Except.ok _ => true
      | Except.error _ => false) = true := by decide
    rw [hp] at hok
    simp at hok
  | ok f =>
    exact c8_sorted Tdd Tbo Td2 Td3 Ths Tdv Ttd Tta Tpa Tpl Tcm Tws Tro TroF
      (by decide) (by decide) (by decide) (by decide) (by decide) (by decide)
      (by decide) (by decide) f hp
